import Mathlib

/-!
# The thread scheduler of threads/thread.c

A shallow embedding of the scheduler: the globals of thread.c become the fields
of `State`, every `struct thread` lives in a page addressed by a natural number
(`0` is the null pointer), and each `struct list` is the sequence of the threads
linked into it, front first.  A thread is linked into the ready queue, the
sleep queue and the destruction queue by one and the same member `elem`;
`thread_unblock`, which inserts the `elem` of the thread it is given, relinks a
sleep queue that still holds it (`ready_list_insert`).  A function of thread.c
is a function on `State`;
one that can hit an `ASSERT` (or dereference a pointer that addresses no thread
record) returns `Except State _`, where `.error s` carries the state in which
the kernel stopped.  A function that ends in a context switch is followed up to
the switch: the state it returns is the one in which the next thread starts to
run.  The code is read without `USERPROG`: `process_exit`, `process_activate`
and the count of user ticks belong to the user-program loader.
-/

namespace Pintos

/-! ## Data model -/

/-- The values of `enum thread_status` that thread.c uses. -/
inductive thread_status where
  | THREAD_RUNNING
  | THREAD_READY
  | THREAD_BLOCKED
  | THREAD_DYING
  deriving DecidableEq, Repr

/-- The two interrupt levels of `enum intr_level`. -/
inductive intr_level where
  | INTR_OFF
  | INTR_ON
  deriving DecidableEq, Repr

open thread_status intr_level

/-- The members of `struct thread` that thread.c reads or writes for scheduling.
`wait_on_lock` is the address of a lock (`0` when the thread waits on none) and
`donations` is the list of donors linked through their `donation_elem`. -/
structure thread where
  tid : Int
  status : thread_status
  priority : Int
  init_priority : Int
  wait_on_lock : Nat
  donations : List Nat
  wakeup_tick : Int
  magic : Nat
  deriving DecidableEq, Repr

/-- The constant `#define THREAD_MAGIC 0xcd6abf4b`. -/
def THREAD_MAGIC : Nat := 0xcd6abf4b

/-- The constant `#define TIME_SLICE 4`. -/
def TIME_SLICE : Nat := 4

/-- Largest value of `int64_t`. -/
def INT64_MAX : Int := 9223372036854775807

/-- What thread.c takes from outside and the sources do not fix: the priority
bounds and `TID_ERROR` of threads/thread.h, and the address at which the
function `next_thread_to_run` is linked (thread.c uses the function name as a
value in `update_next_tick_to_awake`). -/
structure Env where
  PRI_MIN : Int
  PRI_DEFAULT : Int
  PRI_MAX : Int
  TID_ERROR : Int
  next_thread_to_run_addr : Nat

/-- The file-scope variables of thread.c, the memory holding the thread records
(`mem a = none`: no thread record at page `a`), the `holder` member of every
lock, and the interrupt state kept by threads/interrupt.c. -/
structure State where
  mem : Nat → Option thread
  lock_holder : Nat → Nat
  ready_list : List Nat
  sleep_list : List Nat
  destruction_req : List Nat
  next_tick_to_awake : Int
  idle_thread : Nat
  initial_thread : Nat
  running_thread : Nat
  next_tid : Int
  thread_ticks : Nat
  idle_ticks : Int
  kernel_ticks : Int
  level : intr_level
  in_external_intr : Bool
  yield_on_return : Bool

/-! ## Memory access -/

/-- The macro `is_thread(t)`: `t != NULL && t->magic == THREAD_MAGIC`. -/
def is_thread (s : State) (t : Nat) : Bool :=
  match s.mem t with
  | some th => t != 0 && th.magic == THREAD_MAGIC
  | none => false

/-- The `status` member of the record at `t`, if there is one. -/
def status_of (s : State) (t : Nat) : Option thread_status :=
  (s.mem t).map thread.status

/-- The `priority` member of the record at `t`; a comparison function reads it
without any check, so an address without a record reads as `0`. -/
def priority_of (s : State) (t : Nat) : Int :=
  match s.mem t with
  | some th => th.priority
  | none => 0

/-- Store into the record at `t`: `t->member = value`. -/
def modify (s : State) (t : Nat) (f : thread → thread) : State :=
  { s with mem := fun a => if a = t then (s.mem a).map f else s.mem a }

/-- The assignment `t->status = st`. -/
def set_status (s : State) (t : Nat) (st : thread_status) : State :=
  modify s t (fun th => { th with status := st })

/-- The assignment `t->priority = p`. -/
def set_priority (s : State) (t : Nat) (p : Int) : State :=
  modify s t (fun th => { th with priority := p })

/-- Modelled from the spec: the page allocator is an external collaborator
("supplies fixed-size allocation/free for thread records").
`palloc_free_page (victim)` ends the life of the record in that page. -/
def palloc_free_page (m : Nat → Option thread) (victim : Nat) : Nat → Option thread :=
  fun a => if a = victim then none else m a

/-! ## The list library

lib/kernel/list.c is not among the sources.  A list is modelled by the sequence
of its members; the four operations thread.c relies on are given below. -/

/-- Modelled from the spec: lib/kernel/list.c is not among the sources.
`list_insert_ordered (list, elem, less, aux)` walks the list from the front and
inserts `elem` before the first member `e` with `less (elem, e)` ("ties preserve
relative insertion order only among entries present at that moment"), at the
back when there is none. -/
def list_insert_ordered (less : Nat → Nat → Bool) (elem : Nat) : List Nat → List Nat
  | [] => [elem]
  | e :: es => if less elem e then elem :: e :: es else e :: list_insert_ordered less elem es

/-- Modelled from the spec: lib/kernel/list.c is not among the sources.  The
members that stand behind `elem` once `list_insert_ordered` has inserted it:
the list from the first member `e` with `less (elem, e)` on. -/
def list_behind (less : Nat → Nat → Bool) (elem : Nat) : List Nat → List Nat
  | [] => []
  | e :: es => if less elem e then e :: es else list_behind less elem es

/-- Modelled from the spec: lib/kernel/list.c is not among the sources.  A thread
has one list element for its queue ("exactly one membership in at most one of
{ready queue, sleep queue, destruction queue}").  Inserting an element writes
its own two links and those of its two new neighbours, nothing else: in a list
`l` in which `elem` was still linked, the member in front of `elem` keeps
pointing at it, and `elem` now points at the members `behind` it at its new
place.  Read from its head, `l` is then its members in front of `elem`, `elem`
itself, and `behind`; the members that stood behind `elem` in `l` are no longer
reached.  A list that does not hold `elem` is as it was.  (From then on the two
lists share their tail; the model keeps the two sequences as they are read at
the return of the call.) -/
def list_relinked (elem : Nat) (behind : List Nat) (l : List Nat) : List Nat :=
  if elem ∈ l then l.takeWhile (fun e => e != elem) ++ elem :: behind else l

/-- Modelled from the spec: lib/kernel/list.c is not among the sources.
`list_remove (elem)` unlinks `elem` from the list it is in. -/
def list_remove (elem : Nat) (l : List Nat) : List Nat :=
  l.erase elem

/-- Modelled from the spec: lib/kernel/list.c is not among the sources.
`list_sort (list, less, aux)` sorts the list by `less`, keeping members that
`less` does not separate in their order ("do not silently optimize it in a way
that changes observable tie-break ordering"). -/
def list_sort (less : Nat → Nat → Bool) : List Nat → List Nat
  | [] => []
  | e :: es => List.orderedInsert (fun a b => less b a = false) e (list_sort less es)

/-! ## Interrupt state (threads/interrupt.c) -/

/-- Modelled from the spec: threads/interrupt.c is not among the sources.
`intr_disable ()` turns interrupts off (its result, the previous level, is read
from the state before the call). -/
def intr_disable (s : State) : State :=
  { s with level := INTR_OFF }

/-- Modelled from the spec: threads/interrupt.c is not among the sources.
`intr_set_level (level)` installs the given level. -/
def intr_set_level (s : State) (l : intr_level) : State :=
  { s with level := l }

/-- Modelled from the spec: threads/interrupt.c is not among the sources.
`intr_context ()` tells whether an external interrupt is being handled. -/
def intr_context (s : State) : Bool :=
  s.in_external_intr

/-- Modelled from the spec: threads/interrupt.c is not among the sources.
`intr_yield_on_return ()` may only be called by an interrupt handler and asks
for a yield at the end of the handler ("a preemption request is raised, taking
effect at the next safe return point"). -/
def intr_yield_on_return (s : State) : Except State State :=
  if !intr_context s then .error s
  else .ok { s with yield_on_return := true }

/-! ## thread.c -/

/-- The macro `MIN(a, b)`: `((a) < (b)) ? (a) : (b)`. -/
def MIN (a b : Int) : Int :=
  if a < b then a else b

/-- The 64-bit pattern of an `int64_t`, read as unsigned. -/
def to_uint64 (x : Int) : Nat :=
  (x % 2 ^ 64).toNat

/-- The `int64_t` with the given 64-bit pattern. -/
def to_int64 (n : Nat) : Int :=
  if n % 2 ^ 64 < 2 ^ 63 then ((n % 2 ^ 64 : Nat) : Int) else ((n % 2 ^ 64 : Nat) : Int) - 2 ^ 64

/-- The function `cmp_priority (a, b)`: `thread_a->priority > thread_b->priority`. -/
def cmp_priority (s : State) (a b : Nat) : Bool :=
  decide (priority_of s a > priority_of s b)

/-- The function `thread_compare_donate_priority (a, b)`: the same comparison, on the
`donation_elem` links. -/
def thread_compare_donate_priority (s : State) (a b : Nat) : Bool :=
  decide (priority_of s a > priority_of s b)

/-- The record `init_thread` leaves behind: zeroed by `memset`, then status
BLOCKED, the magic value, both priorities, no lock waited on, no donor. -/
def blank_thread (priority : Int) : thread :=
  { tid := 0, status := THREAD_BLOCKED, priority := priority, init_priority := priority,
    wait_on_lock := 0, donations := [], wakeup_tick := 0, magic := THREAD_MAGIC }

/-- The function `init_thread (t, name, priority)`: the three assertions, then a zeroed
record with status BLOCKED, the magic value, both priorities set, no lock
waited on and an empty donor list. -/
def init_thread (E : Env) (s : State) (t : Nat) (name : Nat) (priority : Int) :
    Except State State :=
  if t = 0 then .error s
  else if !(decide (E.PRI_MIN ≤ priority) && decide (priority ≤ E.PRI_MAX)) then .error s
  else if name = 0 then .error s
  else .ok { s with mem := fun a => if a = t then some (blank_thread priority) else s.mem a }

/-- The function `allocate_tid ()`: `tid = next_tid++` (under `tid_lock`, which is free
whenever the function is entered). -/
def allocate_tid (s : State) : State × Int :=
  ({ s with next_tid := s.next_tid + 1 }, s.next_tid)

/-- The machine before `thread_init`: interrupts off, no thread record
anywhere, the stack pointer inside page `page`. -/
def boot (page : Nat) : State :=
  { mem := fun _ => none, lock_holder := fun _ => 0, ready_list := [], sleep_list := [],
    destruction_req := [], next_tick_to_awake := 0, idle_thread := 0, initial_thread := 0,
    running_thread := page, next_tid := 1, thread_ticks := 0, idle_ticks := 0,
    kernel_ticks := 0, level := INTR_OFF, in_external_intr := false,
    yield_on_return := false }

/-- The function `thread_init ()`. -/
def thread_init (E : Env) (s : State) : Except State State :=
  if s.level ≠ INTR_OFF then .error s else
  let s := { s with ready_list := [], destruction_req := [], sleep_list := [],
                    next_tick_to_awake := INT64_MAX }
  let s := { s with initial_thread := s.running_thread }
  match init_thread E s s.initial_thread 1 E.PRI_DEFAULT with
  | .error e => .error e
  | .ok s =>
    let s := set_status s s.initial_thread THREAD_RUNNING
    let r := allocate_tid s
    .ok (modify r.1 r.1.initial_thread (fun th => { th with tid := r.2 }))

/-- The function `thread_current ()`: `running_thread ()` with the two sanity assertions. -/
def thread_current (s : State) : Except State Nat :=
  let t := s.running_thread
  if !is_thread s t then .error s
  else if status_of s t ≠ some THREAD_RUNNING then .error s
  else .ok t

/-- The function `thread_tick ()`. -/
def thread_tick (s : State) : Except State State :=
  match thread_current s with
  | .error e => .error e
  | .ok t =>
    let s := if t = s.idle_thread then { s with idle_ticks := s.idle_ticks + 1 }
             else { s with kernel_ticks := s.kernel_ticks + 1 }
    let s := { s with thread_ticks := (s.thread_ticks + 1) % 2 ^ 32 }
    if s.thread_ticks ≥ TIME_SLICE then intr_yield_on_return s else .ok s

/-- The call `list_insert_ordered (&ready_list, &t->elem, cmp_priority, NULL)`
of `thread_unblock`: `t` enters the ready queue at its place by priority.
`t->elem` is the one list element of the thread, the same that `thread_sleep`
links into the sleep queue with `list_push_back (&sleep_list, &curr->elem)`, so
a sleep queue in which `t` is still linked is relinked.  (The destruction queue
holds threads that have exited; it is taken not to hold the BLOCKED thread `t`,
and the ready queue not to hold it already.) -/
def ready_list_insert (s : State) (t : Nat) : State :=
  let behind := list_behind (cmp_priority s) t s.ready_list
  { s with ready_list := list_insert_ordered (cmp_priority s) t s.ready_list,
           sleep_list := list_relinked t behind s.sleep_list }

/-- The function `thread_unblock (t)`. -/
def thread_unblock (s : State) (t : Nat) : Except State State :=
  if !is_thread s t then .error s else
  let old_level := s.level
  let s := intr_disable s
  if status_of s t ≠ some THREAD_BLOCKED then .error s else
  let s := ready_list_insert s t
  let s := set_status s t THREAD_READY
  .ok (intr_set_level s old_level)

/-- The function `next_thread_to_run ()`: the front of the ready list, popped, or the idle
thread when the list is empty. -/
def next_thread_to_run (s : State) : State × Nat :=
  match s.ready_list with
  | [] => (s, s.idle_thread)
  | t :: rest => ({ s with ready_list := rest }, t)

/-- The function `thread_launch (th)`: the context switch.  Control passes to `th`; what
follows the call in the function that was switched away from runs when that
thread is dispatched again. -/
def thread_launch (s : State) (th : Nat) : State :=
  { s with running_thread := th }

/-- The function `schedule ()`. -/
def schedule (s : State) : Except State State :=
  let curr := s.running_thread
  let r := next_thread_to_run s
  let s := r.1
  let next := r.2
  if s.level ≠ INTR_OFF then .error s
  else match s.mem curr with
  | none => .error s
  | some c =>
    if c.status = THREAD_RUNNING then .error s
    else if !is_thread s next then .error s
    else
      let s := set_status s next THREAD_RUNNING
      let s := { s with thread_ticks := 0 }
      if curr ≠ next then
        let s := if curr ≠ 0 ∧ status_of s curr = some THREAD_DYING ∧ curr ≠ s.initial_thread
          then { s with destruction_req := s.destruction_req ++ [curr] } else s
        .ok (thread_launch s next)
      else .ok s

/-- The loop at the head of `do_schedule`: pop every victim off
`destruction_req` and free its page. -/
def destroy_victims : List Nat → (Nat → Option thread) → (Nat → Option thread)
  | [], m => m
  | victim :: rest, m => destroy_victims rest (palloc_free_page m victim)

/-- The `while` loop of `do_schedule`: `destruction_req` is emptied and the page
of every thread that was queued there is freed. -/
def free_destruction_req (s : State) : State :=
  { s with mem := destroy_victims s.destruction_req s.mem, destruction_req := [] }

/-- The function `do_schedule (status)`. -/
def do_schedule (s : State) (status : thread_status) : Except State State :=
  if s.level ≠ INTR_OFF then .error s else
  match thread_current s with
  | .error e => .error e
  | .ok _ =>
    let s := free_destruction_req s
    match thread_current s with
    | .error e => .error e
    | .ok t => schedule (set_status s t status)

/-- The function `thread_block ()`. -/
def thread_block (s : State) : Except State State :=
  if intr_context s then .error s
  else if s.level ≠ INTR_OFF then .error s
  else match thread_current s with
  | .error e => .error e
  | .ok t => schedule (set_status s t THREAD_BLOCKED)

/-- The statements of `thread_yield` from `intr_disable ()` up to the call of
`do_schedule`: unless it is the idle thread, `curr` is inserted into the ready
list in priority order. -/
def thread_yield_enter (s : State) (curr : Nat) : State :=
  let s := intr_disable s
  if curr ≠ s.idle_thread
    then { s with ready_list := list_insert_ordered (cmp_priority s) curr s.ready_list }
    else s

/-- The function `thread_yield ()`.  The closing `intr_set_level (old_level)` runs at once
when `do_schedule` picked the caller again, and otherwise only when the caller
is dispatched the next time. -/
def thread_yield (s : State) : Except State State :=
  match thread_current s with
  | .error e => .error e
  | .ok curr =>
    if intr_context s then .error s else
    let old_level := s.level
    match do_schedule (thread_yield_enter s curr) THREAD_READY with
    | .error e => .error e
    | .ok s => if s.running_thread = curr then .ok (intr_set_level s old_level) else .ok s

/-- The function `thread_exit ()`: `do_schedule (THREAD_DYING)` must not come back to the
caller; `NOT_REACHED ()` stops the kernel when it does. -/
def thread_exit (s : State) : Except State State :=
  if intr_context s then .error s else
  let curr := s.running_thread
  let s := intr_disable s
  match do_schedule s THREAD_DYING with
  | .error e => .error e
  | .ok s => if s.running_thread = curr then .error s else .ok s

/-- The function `thread_create (name, priority, function, aux)`; `page` is what
`palloc_get_page (PAL_ZERO)` returns to this call (`0`: no page). -/
def thread_create (E : Env) (s : State) (name : Nat) (priority : Int) (function : Nat)
    (page : Nat) : Except State (State × Int) :=
  if function = 0 then .error s else
  let t := page
  if t = 0 then .ok (s, E.TID_ERROR) else
  match init_thread E s t name priority with
  | .error e => .error e
  | .ok s =>
    let r := allocate_tid s
    let tid := r.2
    let s := modify r.1 t (fun th => { th with tid := tid })
    match thread_unblock s t with
    | .error e => .error e
    | .ok s =>
      match thread_current s with
      | .error e => .error e
      | .ok cur =>
        if priority_of s t > priority_of s cur then
          match thread_yield s with
          | .error e => .error e
          | .ok s => .ok (s, tid)
        else .ok (s, tid)

/-- The statements of `thread_sleep` from `intr_disable ()` up to the call of
`do_schedule`: the wake-up tick is stored, `curr` is pushed at the back of the
sleep list unless it is the idle thread, and `next_tick_to_awake` is lowered. -/
def thread_sleep_enter (s : State) (curr : Nat) (ticks : Int) : State :=
  let s := intr_disable s
  let s := modify s curr (fun th => { th with wakeup_tick := ticks })
  let s := if curr ≠ s.idle_thread then { s with sleep_list := s.sleep_list ++ [curr] } else s
  { s with next_tick_to_awake := MIN s.next_tick_to_awake ticks }

/-- The function `thread_sleep (ticks)`; for the closing `intr_set_level (old_level)` see
`thread_yield`. -/
def thread_sleep (s : State) (ticks : Int) : Except State State :=
  match thread_current s with
  | .error e => .error e
  | .ok curr =>
    if intr_context s then .error s else
    let old_level := s.level
    match do_schedule (thread_sleep_enter s curr ticks) THREAD_BLOCKED with
    | .error e => .error e
    | .ok s => if s.running_thread = curr then .ok (intr_set_level s old_level) else .ok s

/-- The value of `MIN (next_thread_to_run, ticks)` in `update_next_tick_to_awake`:
the first operand is the function `next_thread_to_run`, whose address is
compared with `ticks` as an unsigned 64-bit value; the operand selected is
what the `int64_t` receives. -/
def MIN_next_thread_to_run (E : Env) (ticks : Int) : Int :=
  if E.next_thread_to_run_addr % 2 ^ 64 < to_uint64 ticks
  then to_int64 E.next_thread_to_run_addr else ticks

/-- The function `update_next_tick_to_awake (ticks)`:
`next_tick_to_awake = MIN (next_thread_to_run, ticks)`. -/
def update_next_tick_to_awake (E : Env) (s : State) (ticks : Int) : State :=
  { s with next_tick_to_awake := MIN_next_thread_to_run E ticks }

/-- The function `get_next_tick_to_awake ()`. -/
def get_next_tick_to_awake (s : State) : Int :=
  s.next_tick_to_awake

/-- The `for` loop of `thread_awake`, over the members of `sleep_list` from the
cursor on. -/
def thread_awake_loop (E : Env) (ticks : Int) : List Nat → State → Except State State
  | [], s => .ok s
  | t :: rest, s =>
    match s.mem t with
    | none => .error s
    | some th =>
      if th.wakeup_tick ≤ ticks then
        match thread_unblock { s with sleep_list := list_remove t s.sleep_list } t with
        | .error e => .error e
        | .ok s => thread_awake_loop E ticks rest s
      else
        thread_awake_loop E ticks rest (update_next_tick_to_awake E s th.wakeup_tick)

/-- The function `thread_awake (ticks)`. -/
def thread_awake (E : Env) (s : State) (ticks : Int) : Except State State :=
  let s := { s with next_tick_to_awake := INT64_MAX }
  thread_awake_loop E ticks s.sleep_list s

/-- The function `test_max_priority ()`. -/
def test_max_priority (s : State) : Except State State :=
  match s.ready_list with
  | [] => .ok s
  | high_priority :: _ =>
    match s.mem high_priority with
    | none => .error s
    | some h =>
      match thread_current s with
      | .error e => .error e
      | .ok cur =>
        if h.priority > priority_of s cur then thread_yield s else .ok s

/-- The `for` loop of `donate_priority`, with `n` iterations left. -/
def donate_priority_loop : Nat → Nat → State → Except State State
  | 0, _, s => .ok s
  | n + 1, curr, s =>
    match s.mem curr with
    | none => .error s
    | some c =>
      if c.wait_on_lock = 0 then .ok s else
      let holder := s.lock_holder c.wait_on_lock
      match s.mem holder with
      | none => .error s
      | some _ =>
        if holder = 0 then .error s else
        donate_priority_loop n holder (set_priority s holder c.priority)

/-- The function `donate_priority ()`. -/
def donate_priority (s : State) : Except State State :=
  match thread_current s with
  | .error e => .error e
  | .ok curr => donate_priority_loop 8 curr s

/-- The `for` loop of `remove_with_lock` over the donors from the cursor on;
`acc` is the donor list as it stands. -/
def remove_with_lock_loop (s : State) (lock : Nat) : List Nat → List Nat → Except State (List Nat)
  | [], acc => .ok acc
  | t :: rest, acc =>
    match s.mem t with
    | none => .error s
    | some th =>
      if th.wait_on_lock = lock then remove_with_lock_loop s lock rest (list_remove t acc)
      else remove_with_lock_loop s lock rest acc

/-- The function `remove_with_lock (lock)`. -/
def remove_with_lock (s : State) (lock : Nat) : Except State State :=
  match thread_current s with
  | .error e => .error e
  | .ok curr =>
    match s.mem curr with
    | none => .error s
    | some c =>
      match remove_with_lock_loop s lock c.donations c.donations with
      | .error e => .error e
      | .ok ds => .ok (modify s curr (fun th => { th with donations := ds }))

/-- The function `refresh_priority ()`. -/
def refresh_priority (s : State) : Except State State :=
  match thread_current s with
  | .error e => .error e
  | .ok curr =>
    match s.mem curr with
    | none => .error s
    | some c =>
      let s := set_priority s curr c.init_priority
      if c.donations = [] then .ok s else
      let sorted := list_sort (thread_compare_donate_priority s) c.donations
      let s := modify s curr (fun th => { th with donations := sorted })
      match sorted with
      | [] => .ok s
      | front :: _ =>
        match s.mem front with
        | none => .error s
        | some f =>
          if f.priority > priority_of s curr then .ok (set_priority s curr f.priority)
          else .ok s

/-- The function `thread_set_priority (new_priority)`. -/
def thread_set_priority (s : State) (new_priority : Int) : Except State State :=
  match thread_current s with
  | .error e => .error e
  | .ok curr =>
    let s := modify s curr (fun th => { th with init_priority := new_priority })
    match refresh_priority s with
    | .error e => .error e
    | .ok s => test_max_priority s

/-- The first statement of `idle`: `idle_thread = thread_current ()`. -/
def idle_entry (s : State) : Except State State :=
  match thread_current s with
  | .error e => .error e
  | .ok t => .ok { s with idle_thread := t }

/-! ## The lock module, as far as it writes scheduler state -/

/-- Modelled from the spec: threads/synch.c is not among the sources.  "A thread
that fails to acquire a held lock records the lock as its block target, then
donates": the running thread stores `lock` in its `wait_on_lock`; the step is
enabled when the lock is held by another thread. -/
def lock_contention (s : State) (lock : Nat) : Except State State :=
  if lock = 0 ∨ s.lock_holder lock = 0 ∨ s.lock_holder lock = s.running_thread then .error s
  else .ok (modify s s.running_thread (fun th => { th with wait_on_lock := lock }))

/-- Modelled from the spec: threads/synch.c is not among the sources.  "On
eventual acquisition, the block target is cleared" and the running thread
becomes the holder; the step is enabled when the lock has no holder. -/
def lock_acquired (s : State) (lock : Nat) : Except State State :=
  if lock = 0 ∨ s.lock_holder lock ≠ 0 then .error s
  else .ok { modify s s.running_thread (fun th => { th with wait_on_lock := 0 }) with
             lock_holder := fun l => if l = lock then s.running_thread else s.lock_holder l }

/-- Modelled from the spec: threads/synch.c is not among the sources.  The
holder gives the lock up: its `holder` member becomes null; the step is enabled
when the running thread holds the lock. -/
def lock_released (s : State) (lock : Nat) : Except State State :=
  if lock = 0 ∨ s.lock_holder lock ≠ s.running_thread then .error s
  else .ok { s with lock_holder := fun l => if l = lock then 0 else s.lock_holder l }

/-- Modelled from the spec: threads/synch.c is not among the sources.  The
running thread "records itself in the ... holder's donor set": it is linked at
the back of `holder->donations`; the step is enabled when `holder` is another
thread that does not yet list it. -/
def donor_recorded (s : State) (holder : Nat) : Except State State :=
  match s.mem holder with
  | none => .error s
  | some h =>
    if holder = s.running_thread ∨ s.running_thread ∈ h.donations then .error s
    else .ok (modify s holder (fun th => { th with donations := th.donations ++ [s.running_thread] }))

/-! ## Runs of the scheduler -/

/-- One call into thread.c, or one write of its surroundings (interrupt state,
lock module) to the scheduler state. -/
inductive Op where
  | thread_tick
  | thread_create (name : Nat) (priority : Int) (function : Nat) (page : Nat)
  | thread_block
  | thread_unblock (t : Nat)
  | thread_exit
  | thread_yield
  | thread_set_priority (new_priority : Int)
  | idle_entry
  | thread_sleep (ticks : Int)
  | thread_awake (ticks : Int)
  | test_max_priority
  | donate_priority
  | remove_with_lock (lock : Nat)
  | refresh_priority
  | intr_state (l : intr_level) (external : Bool)
  | lock_contention (lock : Nat)
  | lock_acquired (lock : Nat)
  | lock_released (lock : Nat)
  | donor_recorded (holder : Nat)
  deriving DecidableEq, Repr

/-- The effect of one operation; `.error` when an assertion stops the kernel
(or when a step of the surroundings is not enabled). -/
def step (E : Env) (s : State) : Op → Except State State
  | .thread_tick => thread_tick s
  | .thread_create name priority function page =>
    match thread_create E s name priority function page with
    | .error e => .error e
    | .ok r => .ok r.1
  | .thread_block => thread_block s
  | .thread_unblock t => thread_unblock s t
  | .thread_exit => thread_exit s
  | .thread_yield => thread_yield s
  | .thread_set_priority new_priority => thread_set_priority s new_priority
  | .idle_entry => idle_entry s
  | .thread_sleep ticks => thread_sleep s ticks
  | .thread_awake ticks => thread_awake E s ticks
  | .test_max_priority => test_max_priority s
  | .donate_priority => donate_priority s
  | .remove_with_lock lock => remove_with_lock s lock
  | .refresh_priority => refresh_priority s
  | .intr_state l external => .ok { s with level := l, in_external_intr := external }
  | .lock_contention lock => lock_contention s lock
  | .lock_acquired lock => lock_acquired s lock
  | .lock_released lock => lock_released s lock
  | .donor_recorded holder => donor_recorded s holder

/-- What the page allocator may hand to `thread_create`: no page, or a page
that holds no thread record. -/
def admissible (s : State) : Op → Prop
  | .thread_create _ _ _ page => page = 0 ∨ s.mem page = none
  | _ => True

/-- The states the kernel can be in between two operations: the state
`thread_init` leaves on the booted machine, and every state an admissible
operation reaches from such a state without stopping the kernel. -/
inductive Reachable (E : Env) : State → Prop where
  | init (page : Nat) (s : State) :
      thread_init E (boot page) = .ok s → Reachable E s
  | step (s s' : State) (op : Op) :
      Reachable E s → admissible s op → step E s op = .ok s' → Reachable E s'

/-- The ready queue is sorted non-increasing by the `priority` member. -/
def ready_sorted (s : State) : Prop :=
  List.Sorted (fun a b => priority_of s a ≥ priority_of s b) s.ready_list

/-- The customary values of threads/thread.h, with the kernel linked at its
usual base; used to run the model on concrete inputs. -/
def stdEnv : Env :=
  { PRI_MIN := 0, PRI_DEFAULT := 31, PRI_MAX := 63, TID_ERROR := -1,
    next_thread_to_run_addr := 0x8004200000 }

instance admissible_decidable (s : State) (op : Op) : Decidable (admissible s op) := by
  cases op <;> unfold admissible <;> infer_instance

/-- Run a sequence of operations, stopping at the first that is not admissible
or that stops the kernel. -/
def run (E : Env) : State → List Op → Except State State
  | s, [] => .ok s
  | s, op :: ops =>
    if admissible s op then
      match step E s op with
      | .error e => .error e
      | .ok s => run E s ops
    else .error s

/-- Boot with the stack in page `page`, call `thread_init`, then run `ops`. -/
def boot_run (E : Env) (page : Nat) (ops : List Op) : Except State State :=
  match thread_init E (boot page) with
  | .error e => .error e
  | .ok s => run E s ops

/-- Whether a call returned (rather than stopped the kernel). -/
def returned {α : Type} : Except State α → Bool
  | .ok _ => true
  | .error _ => false

/-- The state a run ends in. -/
def outcome : Except State State → State
  | .ok s => s
  | .error e => e

/-- A valid thread record with the given identifier, status and priority. -/
def mk_thread (tid : Int) (st : thread_status) (priority : Int) : thread :=
  { blank_thread priority with tid := tid, status := st }

/-- The state, after `thread_init`, that holds the listed records, with the
given running thread and ready queue. -/
def mk_state (recs : List (Nat × thread)) (running : Nat) (ready : List Nat) : State :=
  { boot running with
    mem := fun a => recs.lookup a, ready_list := ready, next_tick_to_awake := INT64_MAX,
    initial_thread := 1, next_tid := 100 }

/-- Thread 1 runs with priority 31; thread 2 is READY in the ready queue. -/
def state_one_ready : State :=
  mk_state [(1, mk_thread 1 THREAD_RUNNING 31), (2, mk_thread 2 THREAD_READY 20)] 1 [2]

/-- The `wait_on_lock` member of the record at `t` (null when there is none). -/
def wait_on_lock_of (s : State) (t : Nat) : Nat :=
  match s.mem t with
  | some th => th.wait_on_lock
  | none => 0

/-- The running thread is a valid record with status THREAD_RUNNING, and no
other record has that status. -/
def one_running (s : State) : Prop :=
  is_thread s s.running_thread = true ∧
    status_of s s.running_thread = some THREAD_RUNNING ∧
    ∀ a, status_of s a = some THREAD_RUNNING → a = s.running_thread

/-- The same thread runs in both states, and every record has the same status
and magic value in both. -/
def same_threads (s s' : State) : Prop :=
  s'.running_thread = s.running_thread ∧
    ∀ a, (s'.mem a).map (fun th => (th.status, th.magic))
      = (s.mem a).map (fun th => (th.status, th.magic))

/-- The parts of the state that the scheduler core never writes are the same in
both states. -/
def same_aside (s s' : State) : Prop :=
  s'.lock_holder = s.lock_holder ∧ s'.sleep_list = s.sleep_list ∧
    s'.next_tick_to_awake = s.next_tick_to_awake ∧ s'.idle_thread = s.idle_thread ∧
    s'.initial_thread = s.initial_thread ∧ s'.next_tid = s.next_tid ∧
    s'.in_external_intr = s.in_external_intr ∧ s'.yield_on_return = s.yield_on_return ∧
    s'.idle_ticks = s.idle_ticks ∧ s'.kernel_ticks = s.kernel_ticks

/-- Every page that loses its thread record between `s` and `s'` was queued in
`destruction_req` of `s` and is not the page of the thread running in `s`. -/
def frees_only_victims (s s' : State) : Prop :=
  ∀ a, s.mem a ≠ none → s'.mem a = none → a ∈ s.destruction_req ∧ a ≠ s.running_thread

/-- No page loses its thread record between `s` and `s'`. -/
def keeps_records (s s' : State) : Prop :=
  ∀ a, s.mem a ≠ none → s'.mem a ≠ none

/-- The operations of thread.c whose body can reach `do_schedule`
(`thread_yield`, `thread_sleep`, `thread_exit`, and the callers of
`thread_yield`). -/
def reaches_do_schedule : Op → Bool
  | .thread_yield => true
  | .thread_sleep _ => true
  | .thread_exit => true
  | .thread_create _ _ _ _ => true
  | .test_max_priority => true
  | .thread_set_priority _ => true
  | _ => false

/-- The `wakeup_tick` member of the record at `t` (`0` when there is none). -/
def wakeup_of (s : State) (t : Nat) : Int :=
  match s.mem t with
  | some th => th.wakeup_tick
  | none => 0

/-- The greatest of `base` and the priorities of the threads in `ds`: "the
maximum of its base priority and the highest remaining donor's priority
(falling back to base priority if none remain)". -/
def max_priority (s : State) (base : Int) (ds : List Nat) : Int :=
  ds.foldr (fun d acc => max (priority_of s d) acc) base

/-- Holder 1 (base priority 1, effective priority 5) runs; its donors are
thread 2 (priority 5, waiting on lock 100) and thread 3 (priority 3, waiting on
lock 200). -/
def state_two_donors : State :=
  mk_state
    [(1, { mk_thread 1 THREAD_RUNNING 1 with priority := 5, donations := [2, 3] }),
     (2, { mk_thread 2 THREAD_BLOCKED 5 with wait_on_lock := 100 }),
     (3, { mk_thread 3 THREAD_BLOCKED 3 with wait_on_lock := 200 })] 1 []

/-! ## Concrete runs -/

/-- The main thread (page 1, priority 31) takes lock 100, creates thread 2 with
priority 40, which runs at once and creates thread 3 with priority 35; thread 2
then finds lock 100 held and donates its priority to the holder. -/
def run_donation : List Op :=
  [.lock_acquired 100, .thread_create 1 40 1 2, .thread_create 1 35 1 3,
   .lock_contention 100, .donate_priority]

/-- The state `run_donation` ends in. -/
def state_after_donation : State :=
  outcome (boot_run stdEnv 1 run_donation)

/-- Thread 3 (priority 5) takes lock 200 and creates thread 2 (priority 20);
thread 2 takes lock 100, finds lock 200 held, donates and blocks; thread 3
creates thread 4 (priority 10) and goes to sleep, so that thread 4 runs and
finds lock 100 held by the blocked thread 2. -/
def run_chain : List Op :=
  [.thread_create 1 5 1 3, .thread_sleep 100, .lock_acquired 200,
   .thread_create 1 20 1 2, .lock_acquired 100, .lock_contention 200, .donate_priority,
   .thread_block, .thread_create 1 10 1 4, .thread_sleep 200, .lock_contention 100]

/-- The state `run_chain` ends in: thread 4 runs and waits on lock 100, held by
thread 2, which waits on lock 200, held by thread 3, which waits on no lock. -/
def state_chain : State :=
  outcome (boot_run stdEnv 1 run_chain)

/-- The main thread creates threads 2 and 3 and sleeps until tick 3; thread 2
runs and sleeps until tick 10; thread 3 runs. -/
def run_two_sleepers : List Op :=
  [.thread_create 1 31 1 2, .thread_create 1 31 1 3, .thread_sleep 3, .thread_sleep 10]

/-- The state `run_two_sleepers` ends in. -/
def state_two_sleepers : State :=
  outcome (boot_run stdEnv 1 run_two_sleepers)

/-- The main thread creates thread 2 with priority 0 and blocks; thread 2 runs
and registers itself as the idle thread. -/
def run_idle : List Op :=
  [.thread_create 1 0 1 2, .thread_block, .idle_entry]

/-- The state `run_idle` ends in: the idle thread 2 runs, the ready queue is
empty. -/
def state_idle_runs : State :=
  outcome (boot_run stdEnv 1 run_idle)

/-- Thread 2 runs; the initial thread 1 is READY in the ready queue. -/
def state_second_runs : State :=
  mk_state [(1, mk_thread 1 THREAD_READY 31), (2, mk_thread 2 THREAD_RUNNING 31)] 2 [1]

/-- Thread 1 runs with priority 31; threads 2, 3 and 4 are READY in the ready
queue with priorities 30, 20 and 10; thread 5 is BLOCKED with priority 20. -/
def state_ready_queue : State :=
  mk_state
    [(1, mk_thread 1 THREAD_RUNNING 31), (2, mk_thread 2 THREAD_READY 30),
     (3, mk_thread 3 THREAD_READY 20), (4, mk_thread 4 THREAD_READY 10),
     (5, mk_thread 5 THREAD_BLOCKED 20)] 1 [2, 3, 4]

/-- Thread 1 runs with priority 5; threads 2 and 3 are READY in the ready queue
with priorities 30 and 20. -/
def state_low_runs : State :=
  mk_state
    [(1, mk_thread 1 THREAD_RUNNING 5), (2, mk_thread 2 THREAD_READY 30),
     (3, mk_thread 3 THREAD_READY 20)] 1 [2, 3]

/-- The state that holds the record `x` in page `t` and is otherwise as `s`:
what a store into the members of `*t` leaves. -/
def store (s : State) (t : Nat) (x : thread) : State :=
  { s with mem := fun a => if a = t then some x else s.mem a }

/-- The main thread yields (alone, it is picked again, and `schedule` resets the
tick counter); then a timer interrupt is being handled. -/
def run_timer : List Op :=
  [.thread_yield, .intr_state INTR_OFF true]

/-- The state `run_timer` ends in. -/
def state_timer : State :=
  outcome (boot_run stdEnv 1 run_timer)

/-- The holders reached from `curr` by following `wait_on_lock -> holder` for at
most `n` links, nearest first (a thread can occur more than once when the
wait-for graph has a cycle). -/
def donation_chain (s : State) : Nat → Nat → List Nat
  | 0, _ => []
  | n + 1, curr =>
    match s.mem curr with
    | none => []
    | some c =>
      if c.wait_on_lock = 0 then []
      else s.lock_holder c.wait_on_lock :: donation_chain s n (s.lock_holder c.wait_on_lock)

/-- The state in which the listed threads have priority `p` and nothing else
differs from `s`. -/
def with_priority (s : State) (l : List Nat) (p : Int) : State :=
  { s with mem := fun a =>
      if a ∈ l then (s.mem a).map (fun th => { th with priority := p }) else s.mem a }

/-- Thread 1 (priority 50) runs and waits on lock 101; thread `i`, for `i` from
2 to 9, has priority 10, holds lock `99 + i` and waits on lock `100 + i`;
thread 10 (priority 10) holds lock 109 and waits on no lock: a chain of nine
holders. -/
def state_nine_holders : State :=
  { mk_state
      [(1, { mk_thread 1 THREAD_RUNNING 50 with wait_on_lock := 101 }),
       (2, { mk_thread 2 THREAD_BLOCKED 10 with wait_on_lock := 102 }),
       (3, { mk_thread 3 THREAD_BLOCKED 10 with wait_on_lock := 103 }),
       (4, { mk_thread 4 THREAD_BLOCKED 10 with wait_on_lock := 104 }),
       (5, { mk_thread 5 THREAD_BLOCKED 10 with wait_on_lock := 105 }),
       (6, { mk_thread 6 THREAD_BLOCKED 10 with wait_on_lock := 106 }),
       (7, { mk_thread 7 THREAD_BLOCKED 10 with wait_on_lock := 107 }),
       (8, { mk_thread 8 THREAD_BLOCKED 10 with wait_on_lock := 108 }),
       (9, { mk_thread 9 THREAD_BLOCKED 10 with wait_on_lock := 109 }),
       (10, mk_thread 10 THREAD_READY 10)] 1 [10] with
    lock_holder := fun l => if 101 ≤ l ∧ l ≤ 109 then l - 99 else 0 }

/-- Thread 1 (priority 50) runs and waits on lock 101, held by thread 2
(priority 10), which waits on lock 102, held by thread 1: a cycle. -/
def state_wait_cycle : State :=
  { mk_state
      [(1, { mk_thread 1 THREAD_RUNNING 50 with wait_on_lock := 101 }),
       (2, { mk_thread 2 THREAD_BLOCKED 10 with wait_on_lock := 102 })] 1 [] with
    lock_holder := fun l => if l = 101 then 2 else if l = 102 then 1 else 0 }

/-- The main thread (page 1, priority 31) creates thread 3 with priority 10 and
thread 2 with priority 40; thread 2 runs at once and exits, so the main thread
runs again; it turns interrupts off. -/
def run_exit : List Op :=
  [.thread_create 1 10 1 3, .thread_create 1 40 1 2, .thread_exit, .intr_state INTR_OFF false]

/-- The state `run_exit` ends in: thread 1 runs, thread 3 is ready, and the
DYING thread 2 is queued in `destruction_req`. -/
def state_after_exit : State :=
  outcome (boot_run stdEnv 1 run_exit)

/-- Runs of operations: `s'` is reached from `s` by admissible operations that
`allowed` permits in the state they are applied to and that do not stop the
kernel. -/
inductive RunsTo (E : Env) (allowed : State → Op → Prop) : State → State → Prop where
  | refl (s : State) : RunsTo E allowed s s
  | step (s s1 s2 : State) (op : Op) :
      RunsTo E allowed s s1 → admissible s1 op → allowed s1 op → step E s1 op = .ok s2 →
      RunsTo E allowed s s2

/-- The three queues, `idle_thread` and `initial_thread` are the same in both
states. -/
def same_queues (s s' : State) : Prop :=
  s'.ready_list = s.ready_list ∧ s'.sleep_list = s.sleep_list ∧
    s'.destruction_req = s.destruction_req ∧ s'.idle_thread = s.idle_thread ∧
    s'.initial_thread = s.initial_thread

/-- How the idle thread is used once it is set up: `thread_unblock` is not
applied to it, it does not call `thread_exit` (the function `idle` is an
endless loop), and only the idle thread itself runs the function `idle`. -/
def idle_discipline (s : State) : Op → Prop
  | .thread_unblock t => t ≠ s.idle_thread
  | .thread_exit => s.running_thread ≠ s.idle_thread
  | .idle_entry => s.running_thread = s.idle_thread
  | _ => True

/-- The idle thread is set up: `idle_thread` addresses a thread record that is
in none of the three queues. -/
def idle_settled (s : State) : Prop :=
  s.mem s.idle_thread ≠ none ∧ s.idle_thread ∉ s.ready_list ∧
    s.idle_thread ∉ s.sleep_list ∧ s.idle_thread ∉ s.destruction_req

/-- The operations whose every returning call has passed through `schedule`. -/
def always_schedules : Op → Bool
  | .thread_yield => true
  | .thread_block => true
  | .thread_sleep _ => true
  | .thread_exit => true
  | _ => false

instance idle_discipline_decidable (s : State) (op : Op) :
    Decidable (idle_discipline s op) := by
  cases op <;> unfold idle_discipline <;> infer_instance

/-- Run a sequence of operations, stopping at the first that is not admissible,
that `allowed` does not permit, or that stops the kernel. -/
def run_under (E : Env) (allowed : State → Op → Prop)
    [∀ s op, Decidable (allowed s op)] : State → List Op → Except State State
  | s, [] => .ok s
  | s, op :: ops =>
    if admissible s op ∧ allowed s op then
      match step E s op with
      | .error e => .error e
      | .ok s => run_under E allowed s ops
    else .error s

/-- From `state_idle_runs`: the idle thread 2 unblocks the main thread and
yields to it; the main thread creates thread 3 with priority 40, which runs at
once and goes to sleep; the main thread blocks, and the idle thread runs. -/
def run_with_idle : List Op :=
  [.thread_unblock 1, .thread_yield, .thread_create 1 40 1 3, .thread_sleep 50,
   .thread_block]

/-- From `state_idle_runs`: the idle thread 2 unblocks the main thread and
calls `thread_exit`; the main thread yields, so that the page of thread 2 is
freed, and creates a thread, for which the allocator hands out page 2 again. -/
def run_idle_exit : List Op :=
  [.thread_unblock 1, .thread_exit, .thread_yield, .thread_create 1 10 1 2]

/-- The state `run_with_idle` ends in. -/
def state_with_idle : State :=
  outcome (run_under stdEnv idle_discipline state_idle_runs run_with_idle)

/-- The state `run_idle_exit` ends in. -/
def state_idle_exit : State :=
  outcome (run stdEnv state_idle_runs run_idle_exit)

/-- How the callers use thread.c as far as the queues are concerned:
`thread_unblock` is applied to blocked threads that are not in the sleep queue
(a sleeper is woken by `thread_awake`), and the idle thread does not call
`thread_exit` (the function `idle` is an endless loop). -/
def queue_discipline (s : State) : Op → Prop
  | .thread_unblock t => t ∉ s.sleep_list
  | .thread_exit => s.running_thread ≠ s.idle_thread
  | _ => True

instance queue_discipline_decidable (s : State) (op : Op) :
    Decidable (queue_discipline s op) := by
  cases op <;> unfold queue_discipline <;> infer_instance

/-- Every member of the ready queue is READY, every member of the sleep queue is
BLOCKED, every member of the destruction queue is DYING, no queue lists a thread
twice, and the idle thread is in neither the sleep queue nor the destruction
queue. -/
def well_queued (s : State) : Prop :=
  (∀ r ∈ s.ready_list, status_of s r = some THREAD_READY) ∧
    (∀ r ∈ s.sleep_list, status_of s r = some THREAD_BLOCKED) ∧
    (∀ r ∈ s.destruction_req, status_of s r = some THREAD_DYING) ∧
    s.ready_list.Nodup ∧ s.sleep_list.Nodup ∧ s.destruction_req.Nodup ∧
    s.idle_thread ∉ s.sleep_list ∧ s.idle_thread ∉ s.destruction_req

/-- The state `thread_init` leaves on the machine booted with its stack in
page 1. -/
def state_init : State :=
  outcome (thread_init stdEnv (boot 1))

/-- The main thread creates thread 2 (priority 31) and thread 3 (priority 40);
thread 3 runs at once and sleeps until tick 10; thread 2 runs and exits; the
main thread runs, and the timer wakes thread 3 at tick 10. -/
def run_three_queues : List Op :=
  [.thread_create 1 31 1 2, .thread_create 1 40 1 3, .thread_sleep 10, .thread_exit,
   .thread_awake 10]

/-- The state `run_three_queues` ends in. -/
def state_three_queues : State :=
  outcome (run_under stdEnv queue_discipline state_init run_three_queues)

/-- The main thread creates thread 2 and sleeps until tick 5; thread 2 runs and
applies `thread_unblock` to the sleeping main thread. -/
def run_sleeper_unblocked : List Op :=
  [.thread_create 1 31 1 2, .thread_sleep 5, .thread_unblock 1]

/-- The state `run_sleeper_unblocked` ends in. -/
def state_sleeper_unblocked : State :=
  outcome (boot_run stdEnv 1 run_sleeper_unblocked)

/-- The run `run_idle`, after which the idle thread 2 unblocks the main thread
and calls `thread_exit`; the main thread then blocks with the ready queue
empty. -/
def run_idle_exit_block : List Op :=
  run_idle ++ [.thread_unblock 1, .thread_exit, .thread_block]

/-- The state `run_idle_exit_block` ends in. -/
def state_idle_exit_block : State :=
  outcome (boot_run stdEnv 1 run_idle_exit_block)

/-- The main thread (page 1, priority 31) takes lock 200, creates thread 2 with
priority 31 and yields to it; thread 2 takes lock 100, finds lock 200 held,
records itself as a donor, donates and blocks.  The main thread runs again and
releases lock 200: it drops the donor, recomputes its priority, clears the
holder and unblocks thread 2, which is READY but has not run yet, so its
`wait_on_lock` still names lock 200.  The main thread goes on: it raises its
priority to 40 and finds lock 100 held by thread 2. -/
def run_lock_released : List Op :=
  [.lock_acquired 200, .thread_create 1 31 1 2, .thread_yield,
   .lock_acquired 100, .lock_contention 200, .donor_recorded 1, .donate_priority,
   .thread_block,
   .remove_with_lock 200, .refresh_priority, .lock_released 200, .thread_unblock 2,
   .test_max_priority,
   .thread_set_priority 40, .lock_contention 100, .donor_recorded 2]

/-- The state `run_lock_released` ends in: thread 1 (priority 40) runs and waits
on lock 100, held by the READY thread 2 (priority 31), whose `wait_on_lock`
names lock 200, which has no holder. -/
def state_lock_released : State :=
  outcome (boot_run stdEnv 1 run_lock_released)

end Pintos
/-! # Properties -/

namespace Pintos
open thread_status intr_level

/-! ## Reading the memory after a store -/

@[simp] theorem modify_mem (s : State) (t : Nat) (f : thread → thread) (a : Nat) :
    (modify s t f).mem a = if a = t then (s.mem a).map f else s.mem a := rfl

@[simp] theorem modify_ready_list (s : State) (t : Nat) (f : thread → thread) :
    (modify s t f).ready_list = s.ready_list := rfl

@[simp] theorem modify_sleep_list (s : State) (t : Nat) (f : thread → thread) :
    (modify s t f).sleep_list = s.sleep_list := rfl

@[simp] theorem modify_destruction_req (s : State) (t : Nat) (f : thread → thread) :
    (modify s t f).destruction_req = s.destruction_req := rfl

@[simp] theorem modify_running_thread (s : State) (t : Nat) (f : thread → thread) :
    (modify s t f).running_thread = s.running_thread := rfl

@[simp] theorem modify_idle_thread (s : State) (t : Nat) (f : thread → thread) :
    (modify s t f).idle_thread = s.idle_thread := rfl

@[simp] theorem modify_initial_thread (s : State) (t : Nat) (f : thread → thread) :
    (modify s t f).initial_thread = s.initial_thread := rfl

@[simp] theorem modify_level (s : State) (t : Nat) (f : thread → thread) :
    (modify s t f).level = s.level := rfl

@[simp] theorem modify_in_external_intr (s : State) (t : Nat) (f : thread → thread) :
    (modify s t f).in_external_intr = s.in_external_intr := rfl

@[simp] theorem modify_next_tick_to_awake (s : State) (t : Nat) (f : thread → thread) :
    (modify s t f).next_tick_to_awake = s.next_tick_to_awake := rfl

@[simp] theorem modify_lock_holder (s : State) (t : Nat) (f : thread → thread) :
    (modify s t f).lock_holder = s.lock_holder := rfl

@[simp] theorem modify_next_tid (s : State) (t : Nat) (f : thread → thread) :
    (modify s t f).next_tid = s.next_tid := rfl

theorem is_thread_iff (s : State) (t : Nat) :
    is_thread s t = true ↔ t ≠ 0 ∧ ∃ th, s.mem t = some th ∧ th.magic = THREAD_MAGIC := by
  unfold is_thread
  cases h : s.mem t with
  | none => simp
  | some th => simp

theorem is_thread_false_iff (s : State) (t : Nat) :
    is_thread s t = false ↔ t = 0 ∨ ∀ th, s.mem t = some th → th.magic ≠ THREAD_MAGIC := by
  unfold is_thread
  cases h : s.mem t with
  | none => simp
  | some th =>
    by_cases h0 : t = 0
    · simp [h0]
    · simp [h0]

theorem thread_current_ok (s : State) (t : Nat) :
    thread_current s = .ok t ↔
      t = s.running_thread ∧ t ≠ 0 ∧
        ∃ th, s.mem t = some th ∧ th.magic = THREAD_MAGIC ∧ th.status = THREAD_RUNNING := by
  unfold thread_current
  by_cases h1 : is_thread s s.running_thread = true
  · have h1c := h1
    rw [is_thread_iff] at h1
    obtain ⟨h0, th, hm, hmag⟩ := h1
    by_cases h2 : th.status = THREAD_RUNNING
    · simp only [h1c, status_of, hm, Option.map_some', h2]
      constructor
      · intro h
        have : s.running_thread = t := by simpa using h
        subst this
        exact ⟨rfl, h0, th, hm, hmag, h2⟩
      · rintro ⟨rfl, -⟩
        simp
    · simp only [h1c, status_of, hm, Option.map_some']
      constructor
      · intro h
        simp [h2] at h
      · rintro ⟨rfl, -, th2, hm2, -, hst⟩
        rw [hm] at hm2
        cases hm2
        exact absurd hst h2
  · simp only [h1]
    constructor
    · intro h
      simp at h
    · rintro ⟨rfl, h0, th, hm, hmag, -⟩
      exact absurd ((is_thread_iff s _).2 ⟨h0, th, hm, hmag⟩) h1

/-! ## Inserting a list element that may still be linked -/

theorem list_relinked_of_not_mem (elem : Nat) (behind l : List Nat) (h : elem ∉ l) :
    list_relinked elem behind l = l :=
  if_neg h

theorem list_relinked_of_mem (elem : Nat) (behind l : List Nat) (h : elem ∈ l) :
    list_relinked elem behind l = l.takeWhile (fun e => e != elem) ++ elem :: behind :=
  if_pos h

theorem mem_list_behind (less : Nat → Nat → Bool) (elem a : Nat) (l : List Nat)
    (h : a ∈ list_behind less elem l) : a ∈ l := by
  induction l with
  | nil => exact h
  | cons e es ih =>
    unfold list_behind at h
    split_ifs at h
    · exact h
    · exact List.mem_cons_of_mem _ (ih h)

/-- The members `list_behind` names are those that follow `elem` once
`list_insert_ordered` has put it into the list. -/
theorem list_insert_ordered_behind (less : Nat → Nat → Bool) (elem : Nat) (l : List Nat) :
    ∃ front, l = front ++ list_behind less elem l ∧
      list_insert_ordered less elem l = front ++ elem :: list_behind less elem l := by
  induction l with
  | nil => exact ⟨[], rfl, rfl⟩
  | cons e es ih =>
    unfold list_behind list_insert_ordered
    by_cases h : less elem e = true
    · rw [if_pos h, if_pos h]
      exact ⟨[], rfl, rfl⟩
    · rw [if_neg h, if_neg h]
      obtain ⟨front, h1, h2⟩ := ih
      refine ⟨e :: front, ?_, ?_⟩
      · rw [List.cons_append, ← h1]
      · rw [List.cons_append, ← h2]

theorem mem_list_relinked (elem a : Nat) (behind l : List Nat)
    (h : a ∈ list_relinked elem behind l) : a ∈ l ∨ a ∈ behind := by
  unfold list_relinked at h
  split_ifs at h with he
  · rcases List.mem_append.1 h with h1 | h1
    · exact Or.inl ((List.takeWhile_sublist _).subset h1)
    · rcases List.mem_cons.1 h1 with rfl | h2
      · exact Or.inl he
      · exact Or.inr h2
  · exact Or.inl h

@[simp] theorem ready_list_insert_mem (s : State) (t : Nat) :
    (ready_list_insert s t).mem = s.mem := rfl

@[simp] theorem ready_list_insert_ready_list (s : State) (t : Nat) :
    (ready_list_insert s t).ready_list = list_insert_ordered (cmp_priority s) t s.ready_list :=
  rfl

@[simp] theorem ready_list_insert_running_thread (s : State) (t : Nat) :
    (ready_list_insert s t).running_thread = s.running_thread := rfl

@[simp] theorem ready_list_insert_idle_thread (s : State) (t : Nat) :
    (ready_list_insert s t).idle_thread = s.idle_thread := rfl

@[simp] theorem ready_list_insert_initial_thread (s : State) (t : Nat) :
    (ready_list_insert s t).initial_thread = s.initial_thread := rfl

@[simp] theorem ready_list_insert_level (s : State) (t : Nat) :
    (ready_list_insert s t).level = s.level := rfl

@[simp] theorem ready_list_insert_next_tick_to_awake (s : State) (t : Nat) :
    (ready_list_insert s t).next_tick_to_awake = s.next_tick_to_awake := rfl

theorem ready_list_insert_sleep_list (s : State) (t : Nat) (h : t ∉ s.sleep_list) :
    (ready_list_insert s t).sleep_list = s.sleep_list :=
  list_relinked_of_not_mem t _ _ h

@[simp] theorem ready_list_insert_destruction_req (s : State) (t : Nat) :
    (ready_list_insert s t).destruction_req = s.destruction_req := rfl

/-- What stands in the sleep queue after the insertion was there before, or is
a member of the ready queue. -/
theorem mem_ready_list_insert_sleep_list (s : State) (t a : Nat)
    (h : a ∈ (ready_list_insert s t).sleep_list) : a ∈ s.sleep_list ∨ a ∈ s.ready_list := by
  rcases mem_list_relinked t a _ _ h with h1 | h1
  · exact Or.inl h1
  · exact Or.inr (mem_list_behind _ _ _ _ h1)

theorem thread_unblock_ok (s : State) (t : Nat)
    (h1 : is_thread s t = true) (h2 : status_of s t = some THREAD_BLOCKED) :
    thread_unblock s t =
      .ok (intr_set_level (set_status
        (ready_list_insert (intr_disable s) t)
        t THREAD_READY) s.level) := by
  unfold thread_unblock
  have h2c : status_of (intr_disable s) t = some THREAD_BLOCKED := h2
  simp [h1, h2c]

theorem thread_unblock_error (s : State) (t : Nat) (e : State)
    (h : thread_unblock s t = .error e) :
    (is_thread s t = false ∨ status_of s t ≠ some THREAD_BLOCKED) ∧
      e.ready_list = s.ready_list ∧ e.mem = s.mem := by
  unfold thread_unblock at h
  by_cases h1 : is_thread s t = true
  · by_cases h2 : status_of (intr_disable s) t = some THREAD_BLOCKED
    · simp [h1, h2] at h
    · simp [h1, h2] at h
      subst h
      exact ⟨Or.inr h2, rfl, rfl⟩
  · simp [h1] at h
    subst h
    exact ⟨Or.inl (by simpa using h1), rfl, rfl⟩

theorem thread_unblock_stops_iff (s : State) (t : Nat) :
    (∃ e, thread_unblock s t = .error e) ↔
      (is_thread s t = false ∨ status_of s t ≠ some THREAD_BLOCKED) := by
  constructor
  · rintro ⟨e, he⟩
    exact (thread_unblock_error s t e he).1
  · intro h
    cases hr : thread_unblock s t with
    | error e => exact ⟨e, rfl⟩
    | ok s1 =>
      exfalso
      by_cases h1 : is_thread s t = true
      · by_cases h2 : status_of s t = some THREAD_BLOCKED
        · rcases h with h | h
          · rw [h1] at h; cases h
          · exact h h2
        · unfold thread_unblock at hr
          have h2c : ¬ status_of (intr_disable s) t = some THREAD_BLOCKED := h2
          simp [h1, h2c] at hr
      · unfold thread_unblock at hr
        simp [h1] at hr

/-- C10: `thread_unblock (t)` stops the kernel exactly when `t` is no valid
thread record (null, or no record with the magic value at `t`) or the status of
`t` is not THREAD_BLOCKED; where it stops, the ready queue and every thread's
status are as they were on entry; hence unblocking a READY, RUNNING or DYING
thread always stops the kernel. -/
theorem thread_unblock_fails_iff (s : State) (t : Nat) :
    ((∃ e, thread_unblock s t = .error e) ↔
      ((t = 0 ∨ ∀ th, s.mem t = some th → th.magic ≠ THREAD_MAGIC) ∨
        status_of s t ≠ some THREAD_BLOCKED)) ∧
    (∀ e, thread_unblock s t = .error e →
      e.ready_list = s.ready_list ∧ ∀ a, status_of e a = status_of s a) ∧
    (∀ st, status_of s t = some st → st ≠ THREAD_BLOCKED →
      ∃ e, thread_unblock s t = .error e) := by
  have key : ∀ e, thread_unblock s t = .error e →
      (is_thread s t = false ∨ status_of s t ≠ some THREAD_BLOCKED) ∧
        e.ready_list = s.ready_list ∧ e.mem = s.mem := thread_unblock_error s t
  have conv : (is_thread s t = false ∨ status_of s t ≠ some THREAD_BLOCKED) →
      ∃ e, thread_unblock s t = .error e := (thread_unblock_stops_iff s t).2
  refine ⟨⟨?_, ?_⟩, ?_, ?_⟩
  · rintro ⟨e, he⟩
    rcases (key e he).1 with h | h
    · exact Or.inl ((is_thread_false_iff s t).1 h)
    · exact Or.inr h
  · rintro (h | h)
    · exact conv (Or.inl ((is_thread_false_iff s t).2 h))
    · exact conv (Or.inr h)
  · intro e he
    obtain ⟨-, hr, hm⟩ := key e he
    refine ⟨hr, fun a => ?_⟩
    simp [status_of, hm]
  · intro st hst hne
    apply conv
    right
    rw [hst]
    intro h
    exact hne (Option.some.inj h)

/-- Witness for C10: unblocking the READY thread 2 of `state_one_ready` stops
the kernel. -/
theorem thread_unblock_fails_iff_witness :
    ∃ e, thread_unblock state_one_ready 2 = .error e :=
  (thread_unblock_fails_iff state_one_ready 2).2.2 THREAD_READY (by decide!) (by decide)

/-- C9: when the page allocator returns no page, `thread_create` returns
TID_ERROR and the state it returns in is the state it was entered in (the tid
counter, every queue, every thread record and the running thread included). -/
theorem thread_create_no_page (E : Env) (s : State) (name : Nat) (priority : Int)
    (function : Nat) (hf : function ≠ 0) :
    thread_create E s name priority function 0 = .ok (s, E.TID_ERROR) := by
  unfold thread_create
  simp [hf]

/-- Witness for C9, on `state_one_ready`. -/
theorem thread_create_no_page_witness :
    thread_create stdEnv state_one_ready 1 31 1 0 = .ok (state_one_ready, -1) :=
  thread_create_no_page stdEnv state_one_ready 1 31 1 (by decide)

/-! ## Donor lists -/

theorem max_priority_ge_base (s : State) (base : Int) (ds : List Nat) :
    base ≤ max_priority s base ds := by
  induction ds with
  | nil => simp [max_priority]
  | cons d ds ih =>
    have : max_priority s base (d :: ds) = max (priority_of s d) (max_priority s base ds) := rfl
    rw [this]
    exact le_trans ih (le_max_right _ _)

theorem max_priority_ge_mem (s : State) (base : Int) (ds : List Nat) :
    ∀ d ∈ ds, priority_of s d ≤ max_priority s base ds := by
  induction ds with
  | nil => simp
  | cons d ds ih =>
    have hd : max_priority s base (d :: ds) = max (priority_of s d) (max_priority s base ds) := rfl
    intro x hx
    rw [hd]
    rcases List.mem_cons.1 hx with rfl | hx
    · exact le_max_left _ _
    · exact le_trans (ih x hx) (le_max_right _ _)

theorem max_priority_attained (s : State) (base : Int) (ds : List Nat) :
    max_priority s base ds = base ∨ ∃ d ∈ ds, max_priority s base ds = priority_of s d := by
  induction ds with
  | nil => left; rfl
  | cons d ds ih =>
    have hd : max_priority s base (d :: ds) = max (priority_of s d) (max_priority s base ds) := rfl
    rw [hd]
    rcases le_total (priority_of s d) (max_priority s base ds) with h | h
    · rw [max_eq_right h]
      rcases ih with h1 | ⟨x, hx, h1⟩
      · exact Or.inl h1
      · exact Or.inr ⟨x, List.mem_cons_of_mem _ hx, h1⟩
    · rw [max_eq_left h]
      exact Or.inr ⟨d, List.mem_cons_self _ _, rfl⟩

/-- A value that bounds `base` and every listed priority and is one of them is
`max_priority`. -/
theorem eq_max_priority (s : State) (base : Int) (ds : List Nat) (m : Int)
    (h1 : base ≤ m) (h2 : ∀ d ∈ ds, priority_of s d ≤ m)
    (h3 : m = base ∨ ∃ d ∈ ds, m = priority_of s d) :
    m = max_priority s base ds := by
  apply le_antisymm
  · rcases h3 with h | ⟨d, hd, h⟩
    · rw [h]; exact max_priority_ge_base s base ds
    · rw [h]; exact max_priority_ge_mem s base ds d hd
  · rcases max_priority_attained s base ds with h | ⟨d, hd, h⟩
    · rw [h]; exact h1
    · rw [h]; exact h2 d hd

theorem max_priority_congr (s s' : State) (base : Int) (ds : List Nat)
    (h : ∀ d ∈ ds, priority_of s' d = priority_of s d) :
    max_priority s' base ds = max_priority s base ds := by
  induction ds with
  | nil => rfl
  | cons d ds ih =>
    have e1 : max_priority s' base (d :: ds)
        = max (priority_of s' d) (max_priority s' base ds) := rfl
    have e2 : max_priority s base (d :: ds)
        = max (priority_of s d) (max_priority s base ds) := rfl
    rw [e1, e2, h d (List.mem_cons_self _ _),
      ih (fun x hx => h x (List.mem_cons_of_mem _ hx))]

theorem list_sort_eq (less : Nat → Nat → Bool) (l : List Nat) :
    list_sort less l = List.insertionSort (fun a b => less b a = false) l := by
  induction l with
  | nil => rfl
  | cons e es ih => simp [list_sort, List.insertionSort, ih]

theorem list_sort_perm (less : Nat → Nat → Bool) (l : List Nat) :
    (list_sort less l).Perm l := by
  rw [list_sort_eq]
  exact List.perm_insertionSort _ l

theorem list_sort_front (s : State) (l : List Nat) (front : Nat) (rest : List Nat)
    (h : list_sort (thread_compare_donate_priority s) l = front :: rest) :
    ∀ d ∈ l, priority_of s d ≤ priority_of s front := by
  have hs : List.Sorted (fun a b => priority_of s b ≤ priority_of s a)
      (list_sort (thread_compare_donate_priority s) l) := by
    rw [list_sort_eq]
    have e : (fun a b => thread_compare_donate_priority s b a = false)
        = (fun a b => priority_of s b ≤ priority_of s a) := by
      funext a b
      simp [thread_compare_donate_priority]
    have : List.Sorted (fun a b => priority_of s b ≤ priority_of s a)
        (List.insertionSort (fun a b => priority_of s b ≤ priority_of s a) l) := by
      haveI : IsTotal Nat (fun a b => priority_of s b ≤ priority_of s a) :=
        ⟨fun a b => le_total _ _⟩
      haveI : IsTrans Nat (fun a b => priority_of s b ≤ priority_of s a) :=
        ⟨fun a b c h1 h2 => le_trans h2 h1⟩
      exact List.sorted_insertionSort _ l
    convert this using 2
  rw [h] at hs
  intro d hd
  have hd2 : d ∈ front :: rest := by
    rw [← h]
    exact (list_sort_perm _ l).mem_iff.2 hd
  rcases List.mem_cons.1 hd2 with rfl | hd3
  · exact le_refl _
  · exact List.rel_of_sorted_cons hs d hd3

theorem remove_with_lock_loop_eq (s : State) (lock : Nat) :
    ∀ (rest pre : List Nat), (∀ d ∈ rest, ∃ th, s.mem d = some th) →
      (∀ x ∈ pre, wait_on_lock_of s x ≠ lock) →
      remove_with_lock_loop s lock rest (pre ++ rest)
        = .ok (pre ++ rest.filter (fun d => decide (wait_on_lock_of s d ≠ lock))) := by
  intro rest
  induction rest with
  | nil => intro pre _ _; simp [remove_with_lock_loop]
  | cons t rest ih =>
    intro pre hrec hpre
    obtain ⟨th, hth⟩ := hrec t (List.mem_cons_self _ _)
    have hrest : ∀ d ∈ rest, ∃ th, s.mem d = some th :=
      fun d hd => hrec d (List.mem_cons_of_mem _ hd)
    have hw : wait_on_lock_of s t = th.wait_on_lock := by simp [wait_on_lock_of, hth]
    by_cases hl : th.wait_on_lock = lock
    · have hnot : t ∉ pre := fun hm => hpre t hm (hw.trans hl)
      have he : list_remove t (pre ++ t :: rest) = pre ++ rest := by
        unfold list_remove
        rw [List.erase_append_right _ hnot]
        simp
      simp only [remove_with_lock_loop, hth, hl, if_true, he]
      rw [ih pre hrest hpre]
      simp [hw, hl]
    · have hpre2 : ∀ x ∈ pre ++ [t], wait_on_lock_of s x ≠ lock := by
        intro x hx
        rcases List.mem_append.1 hx with h | h
        · exact hpre x h
        · rw [List.mem_singleton.1 h, hw]; exact hl
      have e : pre ++ t :: rest = (pre ++ [t]) ++ rest := by simp
      simp only [remove_with_lock_loop, hth, hl, if_false]
      rw [e, ih (pre ++ [t]) hrest hpre2]
      simp [hw, hl]

theorem thread_current_modify (s : State) (t : Nat) (f : thread → thread) (H : Nat)
    (hf : ∀ th, (f th).magic = th.magic ∧ (f th).status = th.status)
    (h : thread_current s = .ok H) : thread_current (modify s t f) = .ok H := by
  rw [thread_current_ok] at h ⊢
  obtain ⟨h1, h0, th, hm, hmag, hst⟩ := h
  refine ⟨h1, h0, ?_⟩
  by_cases e : H = t
  · refine ⟨f th, ?_, ?_, ?_⟩
    · subst e; simp [hm]
    · rw [(hf th).1]; exact hmag
    · rw [(hf th).2]; exact hst
  · exact ⟨th, by simp [e, hm], hmag, hst⟩

/-- C4: for the running holder `H` and a lock, `remove_with_lock (lock)`
followed by `refresh_priority ()` both return; afterwards `H->donations` holds
exactly the former donors whose `wait_on_lock` is not the lock, and
`H->priority` is the greatest of `H->init_priority` and the priorities of these
remaining donors, which is `H->init_priority` when none remains. -/
theorem remove_with_lock_refresh_priority (s : State) (lock : Nat) (H : Nat) (h : thread)
    (hcur : thread_current s = .ok H) (hH : s.mem H = some h)
    (hrec : ∀ d ∈ h.donations, ∃ th, s.mem d = some th)
    (hself : H ∉ h.donations) :
    ∃ s1 s2 h2, remove_with_lock s lock = .ok s1 ∧ refresh_priority s1 = .ok s2 ∧
      s2.mem H = some h2 ∧
      h2.donations.Perm
        (h.donations.filter (fun d => decide (wait_on_lock_of s d ≠ lock))) ∧
      (∀ d, d ∈ h2.donations ↔ d ∈ h.donations ∧ wait_on_lock_of s d ≠ lock) ∧
      h2.priority = max_priority s h.init_priority
        (h.donations.filter (fun d => decide (wait_on_lock_of s d ≠ lock))) ∧
      (h.donations.filter (fun d => decide (wait_on_lock_of s d ≠ lock)) = [] →
        h2.priority = h.init_priority) ∧
      h2.init_priority = h.init_priority := by
  set R := h.donations.filter (fun d => decide (wait_on_lock_of s d ≠ lock)) with hR
  have hRsub : ∀ d ∈ R, d ∈ h.donations := fun d hd => (List.mem_filter.1 hd).1
  have hRne : ∀ d ∈ R, d ≠ H := fun d hd e => hself (e ▸ hRsub d hd)
  have hmemR : ∀ d, d ∈ R ↔ d ∈ h.donations ∧ wait_on_lock_of s d ≠ lock := by
    intro d
    simp [hR, List.mem_filter]
  have hloop := remove_with_lock_loop_eq s lock h.donations [] hrec (by simp)
  simp only [List.nil_append] at hloop
  have h1 : remove_with_lock s lock
      = .ok (modify s H (fun th => { th with donations := R })) := by
    unfold remove_with_lock
    simp only [hcur, hH, hloop]
  have hcur1 := thread_current_modify s H (fun th => { th with donations := R }) H
    (fun _ => ⟨rfl, rfl⟩) hcur
  have hprio : ∀ (s' : State) (d : Nat), d ≠ H → s'.mem d = s.mem d →
      priority_of s' d = priority_of s d := by
    intro s' d _ hm
    simp [priority_of, hm]
  by_cases hnil : R = []
  · refine ⟨_, set_priority (modify s H (fun th => { th with donations := R })) H
      h.init_priority, { h with donations := R, priority := h.init_priority }, h1, ?_, ?_, ?_,
      ?_, ?_, ?_, rfl⟩
    · unfold refresh_priority
      simp only [hcur1, modify_mem, if_true, hH, Option.map_some']
      simp only [hnil, if_true]
    · simp [set_priority, hH, hnil]
    · rw [hnil]
    · intro d; rw [← hmemR, hnil]
    · rw [hnil]; rfl
    · intro _; rfl
  · -- the donor list is not empty: it is sorted and its front is compared
    set s2 := set_priority (modify s H (fun th => { th with donations := R })) H
      h.init_priority with hs2
    have hp2 : ∀ d ∈ R, priority_of s2 d = priority_of s d := by
      intro d hd
      apply hprio s2 d (hRne d hd)
      simp [hs2, set_priority, hRne d hd]
    cases hsort : list_sort (thread_compare_donate_priority s2) R with
    | nil =>
      exfalso
      have := (list_sort_perm (thread_compare_donate_priority s2) R)
      rw [hsort] at this
      exact hnil (List.Perm.eq_nil this.symm)
    | cons front rest =>
      have hperm : (front :: rest).Perm R := by
        rw [← hsort]; exact list_sort_perm _ R
      have hfR : front ∈ R := hperm.mem_iff.1 (List.mem_cons_self _ _)
      have hfH : front ≠ H := hRne front hfR
      obtain ⟨f, hf⟩ := hrec front (hRsub front hfR)
      have hfront := list_sort_front s2 R front rest hsort
      have hfp : priority_of s front = f.priority := by simp [priority_of, hf]
      have hmax : ∀ d ∈ R, priority_of s d ≤ f.priority := by
        intro d hd
        have := hfront d hd
        rw [hp2 d hd, hp2 front hfR, hfp] at this
        exact this
      by_cases hgt : f.priority > h.init_priority
      · refine ⟨_, set_priority (modify s2 H fun th => { th with donations := front :: rest })
          H f.priority, { h with donations := front :: rest, priority := f.priority }, h1, ?_,
          ?_, hperm, ?_, ?_, ?_, rfl⟩
        · unfold refresh_priority
          simp only [hcur1, modify_mem, if_true, hH, Option.map_some']
          simp only [← hs2, hnil, if_false, hsort, modify_mem, hfH, hf]
          have : priority_of (modify s2 H fun th => { th with donations := front :: rest }) H
              = h.init_priority := by
            simp [priority_of, hs2, set_priority, hH]
          have hf2 : s2.mem front = some f := by simp [hs2, set_priority, hfH, hf]
          simp only [this, hf2]
          rw [if_pos hgt]
        · simp [set_priority, hs2, hH]
        · intro d; rw [← hmemR]; exact hperm.mem_iff
        · apply eq_max_priority
          · exact le_of_lt hgt
          · exact hmax
          · exact Or.inr ⟨front, hfR, hfp.symm⟩
        · intro he; exact absurd he hnil
      · refine ⟨_, modify s2 H fun th => { th with donations := front :: rest },
          { h with donations := front :: rest, priority := h.init_priority }, h1,
          ?_, ?_, hperm, ?_, ?_, ?_, rfl⟩
        · unfold refresh_priority
          simp only [hcur1, modify_mem, if_true, hH, Option.map_some']
          simp only [← hs2, hnil, if_false, hsort, modify_mem, hfH, hf]
          have : priority_of (modify s2 H fun th => { th with donations := front :: rest }) H
              = h.init_priority := by
            simp [priority_of, hs2, set_priority, hH]
          have hf2 : s2.mem front = some f := by simp [hs2, set_priority, hfH, hf]
          simp only [this, hf2]
          rw [if_neg hgt]
        · simp [set_priority, hs2, hH]
        · intro d; rw [← hmemR]; exact hperm.mem_iff
        · apply eq_max_priority
          · exact le_refl _
          · intro d hd
            exact le_trans (hmax d hd) (not_lt.1 hgt)
          · exact Or.inl rfl
        · intro he; exact absurd he hnil

/-- Witness for C4: the holder of `state_two_donors` (base priority 1, donors of
priority 5 waiting on lock 100 and of priority 3 waiting on lock 200) releases
lock 100 and is left with priority 3, not 1. -/
theorem remove_with_lock_refresh_priority_witness :
    ∃ s1 s2 h2, remove_with_lock state_two_donors 100 = .ok s1 ∧
      refresh_priority s1 = .ok s2 ∧ s2.mem 1 = some h2 ∧ h2.priority = 3 ∧
      h2.donations = [3] := by
  have hrec : ∀ d ∈ [2, 3], ∃ th, state_two_donors.mem d = some th := by
    intro d hd
    simp only [List.mem_cons, List.mem_singleton, List.not_mem_nil, or_false] at hd
    rcases hd with rfl | rfl
    · exact ⟨_, rfl⟩
    · exact ⟨_, rfl⟩
  obtain ⟨s1, s2, h2, a, b, c, p, -, e, -, -⟩ :=
    remove_with_lock_refresh_priority state_two_donors 100 1
      { mk_thread 1 THREAD_RUNNING 1 with priority := 5, donations := [2, 3] }
      rfl rfl hrec (by decide)
  refine ⟨s1, s2, h2, a, b, c, e.trans (by decide!), ?_⟩
  have hf : List.filter (fun d => decide (wait_on_lock_of state_two_donors d ≠ 100)) [2, 3]
      = [3] := by decide!
  have p2 : h2.donations.Perm [3] := hf ▸ p
  exact List.perm_singleton.1 p2

/-! ## Runs -/

theorem returned_eq_ok (r : Except State State) (h : returned r = true) :
    r = .ok (outcome r) := by
  cases r with
  | ok s => rfl
  | error e => cases h

theorem run_reachable (E : Env) (ops : List Op) :
    ∀ (s s' : State), Reachable E s → run E s ops = .ok s' → Reachable E s' := by
  induction ops with
  | nil =>
    intro s s' hs h
    have : s = s' := by simpa [run] using h
    exact this ▸ hs
  | cons op ops ih =>
    intro s s' hs h
    unfold run at h
    by_cases ha : admissible s op
    · rw [if_pos ha] at h
      cases hst : step E s op with
      | error e => rw [hst] at h; cases h
      | ok s1 =>
        rw [hst] at h
        exact ih s1 s' (Reachable.step s s1 op hs ha hst) h
    · rw [if_neg ha] at h
      cases h

theorem boot_run_reachable (E : Env) (page : Nat) (ops : List Op)
    (h : returned (boot_run E page ops) = true) :
    Reachable E (outcome (boot_run E page ops)) := by
  have h2 := returned_eq_ok _ h
  generalize outcome (boot_run E page ops) = s' at h2
  unfold boot_run at h2
  cases hi : thread_init E (boot page) with
  | error e => rw [hi] at h2; cases h2
  | ok s0 =>
    rw [hi] at h2
    exact run_reachable E ops s0 s' (Reachable.init page s0 hi) h2

theorem thread_current_ok_iff (s : State) (t : Nat) :
    thread_current s = .ok t ↔
      (t = s.running_thread ∧ is_thread s t = true ∧
        status_of s t = some THREAD_RUNNING) := by
  rw [thread_current_ok, is_thread_iff]
  constructor
  · rintro ⟨h1, h0, th, hm, hmag, hst⟩
    exact ⟨h1, ⟨h0, th, hm, hmag⟩, by simp [status_of, hm, hst]⟩
  · rintro ⟨h1, ⟨h0, th, hm, hmag⟩, hst⟩
    refine ⟨h1, h0, th, hm, hmag, ?_⟩
    simpa [status_of, hm] using hst

/-- C2, the code at the failing run: `run_donation` is a run of admissible
operations from `thread_init`; in the state it reaches the ready queue holds
thread 3 (priority 35) in front of thread 1 (priority 40), so it is not sorted
non-increasing by priority. -/
theorem ready_list_unsorted_after_donation :
    Reachable stdEnv state_after_donation ∧
      state_after_donation.ready_list = [3, 1] ∧
      priority_of state_after_donation 3 = 35 ∧
      priority_of state_after_donation 1 = 40 ∧
      ¬ ready_sorted state_after_donation := by
  have h1 : state_after_donation.ready_list = [3, 1] := by decide!
  have h2 : priority_of state_after_donation 3 = 35 := by decide!
  have h3 : priority_of state_after_donation 1 = 40 := by decide!
  refine ⟨boot_run_reachable stdEnv 1 run_donation (by decide!), h1, h2, h3, ?_⟩
  unfold ready_sorted
  rw [h1]
  intro hs
  have := List.rel_of_sorted_cons hs 1 (List.mem_singleton_self 1)
  rw [h2, h3] at this
  exact absurd this (by decide)

/-- C3, the code at the failing input: in the reachable state `state_chain` the
running thread 4 (priority 10) waits on lock 100, held by thread 2 (priority
20), which waits on lock 200, held by thread 3 (base priority 5), which waits
on no lock; `donate_priority ()` returns and leaves thread 3 (and thread 2)
with priority 10, below `max 5 (max 10 20) = 20`. -/
theorem donate_priority_lowers_chain :
    Reachable stdEnv state_chain ∧
      thread_current state_chain = .ok 4 ∧
      wait_on_lock_of state_chain 4 = 100 ∧ state_chain.lock_holder 100 = 2 ∧
      wait_on_lock_of state_chain 2 = 200 ∧ state_chain.lock_holder 200 = 3 ∧
      wait_on_lock_of state_chain 3 = 0 ∧
      priority_of state_chain 4 = 10 ∧ priority_of state_chain 2 = 20 ∧
      (state_chain.mem 3).map thread.init_priority = some 5 ∧
      ∃ s', donate_priority state_chain = .ok s' ∧
        priority_of s' 3 = 10 ∧ priority_of s' 2 = 10 ∧
        priority_of s' 3 ≠ max 5 (max 10 20) := by
  refine ⟨boot_run_reachable stdEnv 1 run_chain (by decide!), ?_, by decide!, by decide!,
    by decide!, by decide!, by decide!, by decide!, by decide!, by decide!,
    outcome (donate_priority state_chain), returned_eq_ok _ (by decide!), by decide!,
    by decide!, by decide!⟩
  exact (thread_current_ok_iff _ _).2 (by decide!)

/-! ## thread_awake -/

theorem list_insert_ordered_perm (less : Nat → Nat → Bool) (x : Nat) (l : List Nat) :
    (list_insert_ordered less x l).Perm (x :: l) := by
  induction l with
  | nil => exact List.Perm.refl _
  | cons e es ih =>
    unfold list_insert_ordered
    by_cases h : less x e = true
    · rw [if_pos h]
    · rw [if_neg h]
      exact (List.Perm.cons e ih).trans (List.Perm.swap x e es)

theorem mem_list_insert_ordered (less : Nat → Nat → Bool) (x a : Nat) (l : List Nat) :
    a ∈ list_insert_ordered less x l ↔ a = x ∨ a ∈ l := by
  rw [(list_insert_ordered_perm less x l).mem_iff, List.mem_cons]

/-- The loop of `thread_awake`, entered with the cursor at the front of `l`
while the members before the cursor (`pre`) have all been kept. -/
theorem thread_awake_loop_spec (E : Env) (ticks : Int) :
    ∀ (l pre : List Nat) (s : State), s.sleep_list = pre ++ l →
      (∀ t ∈ l, is_thread s t = true ∧ status_of s t = some THREAD_BLOCKED) →
      l.Nodup → (∀ x ∈ pre, wakeup_of s x > ticks) →
      ∃ s', thread_awake_loop E ticks l s = .ok s' ∧
        s'.sleep_list = pre ++ l.filter (fun t => decide (wakeup_of s t > ticks)) ∧
        s'.ready_list.Perm
          (s.ready_list ++ l.filter (fun t => decide (wakeup_of s t ≤ ticks))) ∧
        (∀ a, s'.mem a = if a ∈ l ∧ wakeup_of s a ≤ ticks
          then (s.mem a).map (fun th => { th with status := THREAD_READY }) else s.mem a) ∧
        s'.running_thread = s.running_thread ∧ s'.destruction_req = s.destruction_req ∧
        s'.level = s.level ∧ s'.idle_thread = s.idle_thread := by
  intro l
  induction l with
  | nil =>
    intro pre s hsl _ _ _
    exact ⟨s, rfl, by simpa using hsl, by simp, by simp, rfl, rfl, rfl, rfl⟩
  | cons t rest ih =>
    intro pre s hsl hB hN hpre
    obtain ⟨hNt, hNrest⟩ := List.nodup_cons.1 hN
    obtain ⟨hit, hst⟩ := hB t (List.mem_cons_self _ _)
    obtain ⟨-, th, hth, -⟩ := (is_thread_iff s t).1 hit
    have hw : wakeup_of s t = th.wakeup_tick := by simp [wakeup_of, hth]
    by_cases hle : th.wakeup_tick ≤ ticks
    · -- `t` is due: unlink it and unblock it
      have hnot : t ∉ pre := fun hm => absurd (hpre t hm) (by rw [hw]; exact not_lt.2 hle)
      have he : list_remove t s.sleep_list = pre ++ rest := by
        unfold list_remove
        rw [hsl, List.erase_append_right _ hnot]
        simp
      set s0 : State := { s with sleep_list := list_remove t s.sleep_list } with hs0
      have hit0 : is_thread s0 t = true := hit
      have hst0 : status_of s0 t = some THREAD_BLOCKED := hst
      have hub := thread_unblock_ok s0 t hit0 hst0
      set s1 : State := intr_set_level (set_status
        (ready_list_insert (intr_disable s0) t)
        t THREAD_READY) s0.level with hs1
      have hmem1 : ∀ a, s1.mem a
          = if a = t then (s.mem a).map (fun th => { th with status := THREAD_READY })
            else s.mem a := fun a => rfl
      have hwk1 : ∀ a, wakeup_of s1 a = wakeup_of s a := by
        intro a
        unfold wakeup_of
        rw [hmem1]
        by_cases e : a = t
        · subst e; simp [hth]
        · simp [e]
      have hB1 : ∀ x ∈ rest, is_thread s1 x = true ∧ status_of s1 x = some THREAD_BLOCKED := by
        intro x hx
        have hxt : x ≠ t := fun e => hNt (e ▸ hx)
        have hm : s1.mem x = s.mem x := by rw [hmem1]; simp [hxt]
        obtain ⟨h1, h2⟩ := hB x (List.mem_cons_of_mem _ hx)
        exact ⟨by simpa [is_thread, hm] using h1, by simpa [status_of, hm] using h2⟩
      have hpre1 : ∀ x ∈ pre, wakeup_of s1 x > ticks := by
        intro x hx; rw [hwk1]; exact hpre x hx
      have hfree : t ∉ (intr_disable s0).sleep_list := by
        show t ∉ list_remove t s.sleep_list
        rw [he]
        exact fun hm => (List.mem_append.1 hm).elim hnot hNt
      have he1 : s1.sleep_list = pre ++ rest :=
        (ready_list_insert_sleep_list (intr_disable s0) t hfree).trans he
      obtain ⟨s', hrun, hsleep, hready, hmem, hr, hd, hl, hi⟩ :=
        ih pre s1 he1 hB1 hNrest hpre1
      refine ⟨s', ?_, ?_, ?_, ?_, hr, hd, hl, hi⟩
      · simp only [thread_awake_loop, hth, hle, if_true]
        rw [← hs0, hub]
        exact hrun
      · rw [hsleep]
        have : ¬ wakeup_of s t > ticks := by rw [hw]; exact not_lt.2 hle
        simp only [List.filter_cons, this, decide_False, Bool.false_eq_true, if_false]
        congr 1
        apply List.filter_congr
        intro x _
        rw [hwk1]
      · have hf : List.filter (fun t => decide (wakeup_of s1 t ≤ ticks)) rest
            = List.filter (fun t => decide (wakeup_of s t ≤ ticks)) rest := by
          apply List.filter_congr
          intro x _
          rw [hwk1]
        have hwt : wakeup_of s t ≤ ticks := by rw [hw]; exact hle
        simp only [List.filter_cons, hwt, decide_True, if_true]
        rw [hf] at hready
        refine hready.trans ?_
        have h1 : s1.ready_list.Perm (t :: s.ready_list) :=
          list_insert_ordered_perm _ t s.ready_list
        refine (List.Perm.append_right _ h1).trans ?_
        simp only [List.cons_append]
        exact List.perm_middle.symm
      · intro a
        rw [hmem a, hwk1, hmem1]
        by_cases e : a = t
        · subst e
          have hwt : wakeup_of s a ≤ ticks := by rw [hw]; exact hle
          simp [hNt, hwt]
        · simp [e]
    · -- `t` stays: only the earliest-wake value is written
      set s1 : State := update_next_tick_to_awake E s th.wakeup_tick with hs1
      have hsl1 : s1.sleep_list = (pre ++ [t]) ++ rest := by
        rw [List.append_assoc]; exact hsl
      have hB1 : ∀ x ∈ rest, is_thread s1 x = true ∧ status_of s1 x = some THREAD_BLOCKED :=
        fun x hx => hB x (List.mem_cons_of_mem _ hx)
      have hpre1 : ∀ x ∈ pre ++ [t], wakeup_of s1 x > ticks := by
        intro x hx
        rcases List.mem_append.1 hx with h | h
        · exact hpre x h
        · rw [List.mem_singleton.1 h]
          show wakeup_of s t > ticks
          rw [hw]; exact not_le.1 hle
      obtain ⟨s', hrun, hsleep, hready, hmem, hr, hd, hl, hi⟩ :=
        ih (pre ++ [t]) s1 hsl1 hB1 hNrest hpre1
      have hgt : wakeup_of s t > ticks := by rw [hw]; exact not_le.1 hle
      refine ⟨s', ?_, ?_, ?_, ?_, hr, hd, hl, hi⟩
      · simp only [thread_awake_loop, hth, hle, if_false]
        exact hrun
      · rw [hsleep]
        simp only [List.filter_cons, hgt, decide_True, if_true]
        simp
        rfl
      · have : ¬ wakeup_of s t ≤ ticks := not_le.2 hgt
        simp only [List.filter_cons, this, decide_False, Bool.false_eq_true, if_false]
        exact hready
      · intro a
        have hm1 : s1.mem a = s.mem a := rfl
        have hwk : wakeup_of s1 a = wakeup_of s a := rfl
        rw [hmem a, hwk, hm1]
        have : ¬ wakeup_of s t ≤ ticks := not_le.2 hgt
        by_cases e : a = t
        · subst e
          simp [this]
        · simp [e]

/-- What one call of `thread_awake (ticks)` does to a sleep queue whose members
are distinct BLOCKED threads; the result meets the same condition again. -/
theorem thread_awake_spec (E : Env) (s : State) (ticks : Int)
    (hN : s.sleep_list.Nodup)
    (hB : ∀ t ∈ s.sleep_list, is_thread s t = true ∧ status_of s t = some THREAD_BLOCKED) :
    ∃ s', thread_awake E s ticks = .ok s' ∧
      s'.sleep_list = s.sleep_list.filter (fun t => decide (wakeup_of s t > ticks)) ∧
      s'.ready_list.Perm
        (s.ready_list ++ s.sleep_list.filter (fun t => decide (wakeup_of s t ≤ ticks))) ∧
      (∀ a, s'.mem a = if a ∈ s.sleep_list ∧ wakeup_of s a ≤ ticks
        then (s.mem a).map (fun th => { th with status := THREAD_READY }) else s.mem a) ∧
      s'.sleep_list.Nodup ∧
      (∀ t ∈ s'.sleep_list, is_thread s' t = true ∧ status_of s' t = some THREAD_BLOCKED) ∧
      (∀ a, wakeup_of s' a = wakeup_of s a) := by
  set s0 : State := { s with next_tick_to_awake := INT64_MAX } with hs0
  obtain ⟨s', hrun, hsleep, hready, hmem, -, -, -, -⟩ :=
    thread_awake_loop_spec E ticks s.sleep_list [] s0 (by simp [hs0]) hB hN (by simp)
  have hw0 : ∀ a, wakeup_of s0 a = wakeup_of s a := fun _ => rfl
  have hm0 : ∀ a, s0.mem a = s.mem a := fun _ => rfl
  simp only [hw0, hm0, List.nil_append] at hsleep hready hmem
  have hwk : ∀ a, wakeup_of s' a = wakeup_of s a := by
    intro a
    unfold wakeup_of
    rw [hmem a]
    split_ifs
    · cases s.mem a <;> rfl
    · rfl
  refine ⟨s', hrun, hsleep, hready, hmem, ?_, ?_, hwk⟩
  · rw [hsleep]; exact hN.filter _
  · intro t ht
    rw [hsleep, List.mem_filter] at ht
    obtain ⟨hts, hgt⟩ := ht
    have hgt2 : ¬ wakeup_of s t ≤ ticks := not_le.2 (by simpa using hgt)
    have hm : s'.mem t = s.mem t := by rw [hmem t]; simp [hgt2]
    obtain ⟨h1, h2⟩ := hB t hts
    exact ⟨by simpa [is_thread, hm] using h1, by simpa [status_of, hm] using h2⟩

/-- C1: on a sleep queue of distinct BLOCKED threads, `thread_awake (T)`
returns; it unlinks from the sleep queue and puts into the ready queue, with
status THREAD_READY, exactly the members with `wakeup_tick <= T`, while every
member with `wakeup_tick > T` stays in the sleep queue, BLOCKED, in the previous
order, and no other thread record changes.  In particular a member sleeping
until tick `t + 5` is still BLOCKED in the sleep queue after
`thread_awake (t + 4)` and is READY in the ready queue after a following
`thread_awake (t + 5)`. -/
theorem thread_awake_wakes_exactly_due (E : Env) (s : State)
    (hN : s.sleep_list.Nodup)
    (hB : ∀ t ∈ s.sleep_list, is_thread s t = true ∧ status_of s t = some THREAD_BLOCKED) :
    (∀ T : Int, ∃ s', thread_awake E s T = .ok s' ∧
      s'.sleep_list = s.sleep_list.filter (fun t => decide (wakeup_of s t > T)) ∧
      s'.ready_list.Perm
        (s.ready_list ++ s.sleep_list.filter (fun t => decide (wakeup_of s t ≤ T))) ∧
      (∀ x ∈ s.sleep_list, wakeup_of s x ≤ T →
        x ∉ s'.sleep_list ∧ x ∈ s'.ready_list ∧ status_of s' x = some THREAD_READY) ∧
      (∀ x ∈ s.sleep_list, wakeup_of s x > T →
        x ∈ s'.sleep_list ∧ status_of s' x = some THREAD_BLOCKED ∧
          (x ∈ s'.ready_list ↔ x ∈ s.ready_list)) ∧
      (∀ a, a ∉ s.sleep_list → s'.mem a = s.mem a)) ∧
    (∀ (x : Nat) (t : Int), x ∈ s.sleep_list → wakeup_of s x = t + 5 →
      ∃ s1 s2, thread_awake E s (t + 4) = .ok s1 ∧
        x ∈ s1.sleep_list ∧ status_of s1 x = some THREAD_BLOCKED ∧
        thread_awake E s1 (t + 5) = .ok s2 ∧
        x ∉ s2.sleep_list ∧ x ∈ s2.ready_list ∧ status_of s2 x = some THREAD_READY) := by
  have main : ∀ (s : State), s.sleep_list.Nodup →
      (∀ t ∈ s.sleep_list, is_thread s t = true ∧ status_of s t = some THREAD_BLOCKED) →
      ∀ T : Int, ∃ s', thread_awake E s T = .ok s' ∧
      s'.sleep_list = s.sleep_list.filter (fun t => decide (wakeup_of s t > T)) ∧
      s'.ready_list.Perm
        (s.ready_list ++ s.sleep_list.filter (fun t => decide (wakeup_of s t ≤ T))) ∧
      (∀ x ∈ s.sleep_list, wakeup_of s x ≤ T →
        x ∉ s'.sleep_list ∧ x ∈ s'.ready_list ∧ status_of s' x = some THREAD_READY) ∧
      (∀ x ∈ s.sleep_list, wakeup_of s x > T →
        x ∈ s'.sleep_list ∧ status_of s' x = some THREAD_BLOCKED ∧
          (x ∈ s'.ready_list ↔ x ∈ s.ready_list)) ∧
      (∀ a, a ∉ s.sleep_list → s'.mem a = s.mem a) := by
    intro s hN hB T
    obtain ⟨s', hrun, hsleep, hready, hmem, -, -, -⟩ := thread_awake_spec E s T hN hB
    refine ⟨s', hrun, hsleep, hready, ?_, ?_, ?_⟩
    · intro x hx hle
      refine ⟨?_, ?_, ?_⟩
      · rw [hsleep, List.mem_filter]
        rintro ⟨-, h⟩
        exact absurd (by simpa using h) (not_lt.2 hle)
      · rw [hready.mem_iff, List.mem_append, List.mem_filter]
        exact Or.inr ⟨hx, by simpa using hle⟩
      · obtain ⟨-, hst⟩ := hB x hx
        unfold status_of at hst ⊢
        rw [hmem x]
        simp only [hx, hle, and_self, if_true]
        cases hm : s.mem x with
        | none => rw [hm] at hst; cases hst
        | some th => rfl
    · intro x hx hgt
      have hn : ¬ wakeup_of s x ≤ T := not_le.2 hgt
      refine ⟨?_, ?_, ?_⟩
      · rw [hsleep, List.mem_filter]
        exact ⟨hx, by simpa using hgt⟩
      · obtain ⟨-, hst⟩ := hB x hx
        unfold status_of at hst ⊢
        rw [hmem x]
        simpa [hn] using hst
      · rw [hready.mem_iff, List.mem_append, List.mem_filter]
        constructor
        · rintro (h | ⟨-, h⟩)
          · exact h
          · exact absurd (by simpa using h) hn
        · exact Or.inl
    · intro a ha
      rw [hmem a]
      simp [ha]
  refine ⟨main s hN hB, ?_⟩
  intro x t hx hw
  obtain ⟨s1, hrun1, hsleep1, -, hmem1, hN1, hB1, hwk1⟩ := thread_awake_spec E s (t + 4) hN hB
  have hx1 : x ∈ s1.sleep_list := by
    rw [hsleep1, List.mem_filter]
    refine ⟨hx, ?_⟩
    rw [hw]
    simp
  obtain ⟨s2, hrun2, -, -, hdue, -, -⟩ := main s1 hN1 hB1 (t + 5)
  have hw1 : wakeup_of s1 x ≤ t + 5 := by rw [hwk1, hw]
  obtain ⟨h1, h2, h3⟩ := hdue x hx1 hw1
  exact ⟨s1, s2, hrun1, hx1, (hB1 x hx1).2, hrun2, h1, h2, h3⟩

/-- Witness for C1, on the reachable state `state_two_sleepers` (thread 1 sleeps
until tick 3, thread 2 until tick 10): `thread_awake (3)` leaves exactly thread
2 in the sleep queue. -/
theorem thread_awake_wakes_exactly_due_witness :
    ∃ s', thread_awake stdEnv state_two_sleepers 3 = .ok s' ∧ s'.sleep_list = [2] ∧
      status_of s' 1 = some THREAD_READY ∧ status_of s' 2 = some THREAD_BLOCKED := by
  obtain ⟨s', h1, h2, -, h3, h4, -⟩ :=
    (thread_awake_wakes_exactly_due stdEnv state_two_sleepers (by decide!) (by decide!)).1 3
  have e : List.filter (fun t => decide (wakeup_of state_two_sleepers t > 3))
      state_two_sleepers.sleep_list = [2] := by decide!
  exact ⟨s', h1, h2.trans e, (h3 1 (by decide!) (by decide!)).2.2,
    (h4 2 (by decide!) (by decide!)).2.1⟩

/-! ## The scheduler core -/

theorem destroy_victims_apply (l : List Nat) (m : Nat → Option thread) (a : Nat) :
    destroy_victims l m a = if a ∈ l then none else m a := by
  induction l generalizing m with
  | nil => simp [destroy_victims]
  | cons v vs ih =>
    simp only [destroy_victims, ih, palloc_free_page, List.mem_cons]
    by_cases h1 : a ∈ vs
    · simp [h1]
    · by_cases h2 : a = v
      · simp [h1, h2]
      · simp [h1, h2]

/-- When `schedule` returns, and what it returns. -/
theorem schedule_ok_iff (s s' : State) :
    schedule s = .ok s' ↔
      (s.level = INTR_OFF ∧
        (∃ c, s.mem s.running_thread = some c ∧ c.status ≠ THREAD_RUNNING) ∧
        is_thread s (next_thread_to_run s).2 = true ∧
        s' = { set_status (next_thread_to_run s).1 (next_thread_to_run s).2 THREAD_RUNNING with
          thread_ticks := 0
          running_thread := (next_thread_to_run s).2
          destruction_req :=
            if s.running_thread ≠ (next_thread_to_run s).2 ∧ s.running_thread ≠ 0 ∧
                status_of s s.running_thread = some THREAD_DYING ∧
                s.running_thread ≠ s.initial_thread
            then s.destruction_req ++ [s.running_thread] else s.destruction_req }) := by
  have hl : (next_thread_to_run s).1.level = s.level := by
    unfold next_thread_to_run; cases s.ready_list <;> rfl
  have hm : (next_thread_to_run s).1.mem = s.mem := by
    unfold next_thread_to_run; cases s.ready_list <;> rfl
  have hd : (next_thread_to_run s).1.destruction_req = s.destruction_req := by
    unfold next_thread_to_run; cases s.ready_list <;> rfl
  have hi : (next_thread_to_run s).1.initial_thread = s.initial_thread := by
    unfold next_thread_to_run; cases s.ready_list <;> rfl
  have hr : (next_thread_to_run s).1.running_thread = s.running_thread := by
    unfold next_thread_to_run; cases s.ready_list <;> rfl
  have hit : is_thread (next_thread_to_run s).1 (next_thread_to_run s).2
      = is_thread s (next_thread_to_run s).2 := by
    unfold is_thread; rw [hm]
  unfold schedule
  simp only [hl, hm, hit]
  by_cases h1 : s.level = INTR_OFF
  swap
  · simp [h1]
  cases h2 : s.mem s.running_thread with
  | none => simp [h1]
  | some c =>
    by_cases h3 : c.status = THREAD_RUNNING
    · simp [h1, h3]
    by_cases h4 : is_thread s (next_thread_to_run s).2 = true
    swap
    · simp [h1, h3, h4]
    simp only [h1, h3, h4, not_true_eq_false, if_false, Bool.not_true, Bool.false_eq_true,
      true_and, Option.some.injEq, exists_eq_left', not_false_eq_true, ne_eq]
    have hc : status_of s s.running_thread = some c.status := by simp [status_of, h2]
    by_cases h5 : s.running_thread = (next_thread_to_run s).2
    · simp only [h5, not_true_eq_false, if_false, false_and]
      constructor
      · intro h
        have : _ = s' := Except.ok.inj h
        rw [← this]
        simp only [set_status, modify, hd]
        congr 1
        rw [← h5, hr]
      · intro h
        rw [h]
        simp only [set_status, modify, hd]
        congr 2
        rw [← h5, hr]
    · have hst : status_of
          { set_status (next_thread_to_run s).1 (next_thread_to_run s).2 THREAD_RUNNING with
            thread_ticks := 0 } s.running_thread = status_of s s.running_thread := by
        simp [status_of, set_status, hm, h5]
      have hi2 : (set_status (next_thread_to_run s).1 (next_thread_to_run s).2
          THREAD_RUNNING).initial_thread = s.initial_thread := hi
      simp only [hst, h5, not_false_eq_true, true_and, if_true]
      simp only [hi2]
      by_cases h6 : s.running_thread ≠ 0 ∧ status_of s s.running_thread = some THREAD_DYING ∧
          s.running_thread ≠ s.initial_thread
      · rw [if_pos h6, if_pos h6]
        constructor
        · intro h
          have : _ = s' := Except.ok.inj h
          rw [← this]
          simp [thread_launch, set_status, modify, hd]
        · intro h
          rw [h]
          simp [thread_launch, set_status, modify, hd]
      · rw [if_neg h6, if_neg h6]
        constructor
        · intro h
          have : _ = s' := Except.ok.inj h
          rw [← this]
          simp [thread_launch, set_status, modify, hd]
        · intro h
          rw [h]
          simp [thread_launch, set_status, modify, hd]

/-- When `do_schedule` returns: interrupts are off, the running thread passes
`thread_current ()` before and after the victims are freed, and `schedule`
returns from the state with the new status stored. -/
theorem do_schedule_ok_iff (s s' : State) (st : thread_status) :
    do_schedule s st = .ok s' ↔
      (s.level = INTR_OFF ∧ thread_current s = .ok s.running_thread ∧
        thread_current (free_destruction_req s) = .ok s.running_thread ∧
        schedule (set_status (free_destruction_req s) s.running_thread st) = .ok s') := by
  unfold do_schedule
  by_cases h1 : s.level = INTR_OFF
  swap
  · simp [h1]
  rw [if_neg (not_not.2 h1)]
  cases h2 : thread_current s with
  | error e =>
    constructor
    · intro h; cases h
    · rintro ⟨-, h, -⟩; cases h
  | ok t =>
    have ht : t = s.running_thread := ((thread_current_ok s t).1 h2).1
    subst ht
    cases h3 : thread_current (free_destruction_req s) with
    | error e =>
      constructor
      · intro h; dsimp only at h; rw [h3] at h; cases h
      · rintro ⟨-, -, h, -⟩; cases h
    | ok t2 =>
      have ht2 : t2 = s.running_thread := ((thread_current_ok _ t2).1 h3).1
      subst ht2
      constructor
      · intro h; dsimp only at h; rw [h3] at h; exact ⟨h1, rfl, rfl, h⟩
      · rintro ⟨-, -, -, h⟩; dsimp only; rw [h3]; exact h

/-! ## Exactly one running thread -/

theorem same_threads_refl (s : State) : same_threads s s := ⟨rfl, fun _ => rfl⟩

theorem same_threads_trans (s1 s2 s3 : State) (h1 : same_threads s1 s2)
    (h2 : same_threads s2 s3) : same_threads s1 s3 :=
  ⟨h2.1.trans h1.1, fun a => (h2.2 a).trans (h1.2 a)⟩

theorem same_threads_modify (s : State) (t : Nat) (f : thread → thread)
    (hf : ∀ th, (f th).status = th.status ∧ (f th).magic = th.magic) :
    same_threads s (modify s t f) := by
  refine ⟨rfl, fun a => ?_⟩
  rw [modify_mem]
  by_cases e : a = t
  · rw [if_pos e]
    cases s.mem a with
    | none => rfl
    | some th => simp [(hf th).1, (hf th).2]
  · rw [if_neg e]

theorem same_threads_of_mem (s s' : State) (h1 : s'.running_thread = s.running_thread)
    (h2 : s'.mem = s.mem) : same_threads s s' :=
  ⟨h1, fun a => by rw [h2]⟩

theorem same_threads_status (s s' : State) (h : same_threads s s') (a : Nat) :
    status_of s' a = status_of s a := by
  have := congrArg (Option.map Prod.fst) (h.2 a)
  simpa [status_of, Option.map_map, Function.comp] using this

theorem same_threads_is_thread (s s' : State) (h : same_threads s s') (a : Nat) :
    is_thread s' a = is_thread s a := by
  have := h.2 a
  unfold is_thread
  cases h1 : s'.mem a with
  | none =>
    rw [h1] at this
    cases h2 : s.mem a with
    | none => rfl
    | some th => rw [h2] at this; cases this
  | some th' =>
    rw [h1] at this
    cases h2 : s.mem a with
    | none => rw [h2] at this; cases this
    | some th =>
      rw [h2] at this
      have e : th'.magic = th.magic := congrArg Prod.snd (Option.some.inj this)
      simp [e]

theorem one_running_of_same (s s' : State) (h : same_threads s s') (hs : one_running s) :
    one_running s' := by
  obtain ⟨h1, h2, h3⟩ := hs
  refine ⟨?_, ?_, ?_⟩
  · rw [h.1, same_threads_is_thread s s' h]; exact h1
  · rw [h.1, same_threads_status s s' h]; exact h2
  · intro a ha
    rw [same_threads_status s s' h] at ha
    rw [h.1]; exact h3 a ha

theorem schedule_one_running (s s' : State) (h : schedule s = .ok s')
    (hs : ∀ a, status_of s a = some THREAD_RUNNING → a = s.running_thread) :
    one_running s' := by
  obtain ⟨-, ⟨c, hc, hnr⟩, hit, rfl⟩ := (schedule_ok_iff s s').1 h
  have hm : (next_thread_to_run s).1.mem = s.mem := by
    unfold next_thread_to_run; cases s.ready_list <;> rfl
  obtain ⟨h0, th, hth, hmag⟩ := (is_thread_iff s _).1 hit
  refine ⟨?_, ?_, ?_⟩
  · rw [is_thread_iff]
    refine ⟨h0, { th with status := THREAD_RUNNING }, ?_, hmag⟩
    simp [set_status, hm, hth]
  · simp [status_of, set_status, hm, hth]
  · intro a ha
    by_cases e : a = (next_thread_to_run s).2
    · exact e
    · exfalso
      have ha2 : status_of s a = some THREAD_RUNNING := by
        simpa [status_of, set_status, hm, e] using ha
      have := hs a ha2
      rw [this] at ha2
      simp [status_of, hc] at ha2
      exact hnr ha2

theorem do_schedule_one_running (s s' : State) (st : thread_status)
    (h : do_schedule s st = .ok s') (hs : one_running s) : one_running s' := by
  obtain ⟨-, -, -, hsch⟩ := (do_schedule_ok_iff s s' st).1 h
  apply schedule_one_running _ s' hsch
  intro a ha
  by_contra hne
  have ha2 : status_of s a = some THREAD_RUNNING := by
    have hm : (set_status (free_destruction_req s) s.running_thread st).mem a
          = destroy_victims s.destruction_req s.mem a := by
      simp [set_status, free_destruction_req, show ¬ a = s.running_thread from hne]
    unfold status_of at ha ⊢
    rw [hm, destroy_victims_apply] at ha
    by_cases hv : a ∈ s.destruction_req
    · simp [hv] at ha
    · simpa [hv] using ha
  exact hne (hs.2.2 a ha2)

/-- When `thread_unblock` returns, and what it returns. -/
theorem thread_unblock_ok_iff (s s' : State) (t : Nat) :
    thread_unblock s t = .ok s' ↔
      (is_thread s t = true ∧ status_of s t = some THREAD_BLOCKED ∧
        s' = intr_set_level (set_status
          (ready_list_insert (intr_disable s) t)
          t THREAD_READY) s.level) := by
  by_cases h1 : is_thread s t = true
  · by_cases h2 : status_of s t = some THREAD_BLOCKED
    · rw [thread_unblock_ok s t h1 h2]
      constructor
      · intro h; exact ⟨h1, h2, (Except.ok.inj h).symm⟩
      · rintro ⟨-, -, h⟩; rw [h]
    · constructor
      · intro h
        obtain ⟨e, he⟩ := ((thread_unblock_stops_iff s t).2 (Or.inr h2))
        rw [he] at h; cases h
      · rintro ⟨-, h, -⟩; exact absurd h h2
  · constructor
    · intro h
      obtain ⟨e, he⟩ := ((thread_unblock_stops_iff s t).2 (Or.inl (by simpa using h1)))
      rw [he] at h; cases h
    · rintro ⟨h, -⟩; exact absurd h h1

theorem thread_unblock_one_running (s s' : State) (t : Nat)
    (h : thread_unblock s t = .ok s') (hs : one_running s) : one_running s' := by
  obtain ⟨hit, hst, rfl⟩ := (thread_unblock_ok_iff s s' t).1 h
  obtain ⟨h1, h2, h3⟩ := hs
  have hne : s.running_thread ≠ t := by
    intro e
    rw [e, hst] at h2
    cases h2
  have hm : ∀ a, a ≠ t → status_of (intr_set_level (set_status
      (ready_list_insert (intr_disable s) t)
      t THREAD_READY) s.level) a = status_of s a := by
    intro a ha
    simp [status_of, intr_set_level, set_status, intr_disable, ha]
  refine ⟨?_, ?_, ?_⟩
  · have : is_thread (intr_set_level (set_status
        (ready_list_insert (intr_disable s) t)
        t THREAD_READY) s.level) s.running_thread = is_thread s s.running_thread := by
      simp [is_thread, intr_set_level, set_status, intr_disable, hne]
    exact this.trans h1
  · exact (hm _ hne).trans h2
  · intro a ha
    by_cases e : a = t
    · exfalso
      subst e
      obtain ⟨-, th, hth, -⟩ := (is_thread_iff s a).1 hit
      simp [status_of, intr_set_level, set_status, intr_disable, hth] at ha
    · rw [hm a e] at ha
      exact h3 a ha

theorem thread_block_one_running (s s' : State) (h : thread_block s = .ok s')
    (hs : one_running s) : one_running s' := by
  unfold thread_block at h
  split at h
  · cases h
  split at h
  · cases h
  split at h
  · cases h
  · rename_i t ht
    have ht2 : t = s.running_thread := ((thread_current_ok s t).1 ht).1
    subst ht2
    apply schedule_one_running _ s' h
    intro a ha
    by_contra hne
    have : status_of s a = some THREAD_RUNNING := by
      simpa [status_of, set_status, show ¬ a = s.running_thread from hne] using ha
    exact hne (hs.2.2 a this)

/-- When `thread_yield` returns, and what it returns. -/
theorem thread_yield_ok_iff (s s' : State) :
    thread_yield s = .ok s' ↔
      (thread_current s = .ok s.running_thread ∧ intr_context s = false ∧
        ∃ s1, do_schedule (thread_yield_enter s s.running_thread) THREAD_READY = .ok s1 ∧
          s' = if s1.running_thread = s.running_thread then intr_set_level s1 s.level
            else s1) := by
  unfold thread_yield
  cases h1 : thread_current s with
  | error e =>
    constructor
    · intro h; cases h
    · rintro ⟨h, -⟩; cases h
  | ok t =>
    have ht : t = s.running_thread := ((thread_current_ok s t).1 h1).1
    subst ht
    dsimp only
    by_cases h2 : intr_context s = true
    · rw [if_pos h2]
      constructor
      · intro h; cases h
      · rintro ⟨-, h, -⟩; rw [h2] at h; cases h
    · rw [if_neg h2]
      have h2f : intr_context s = false := by simpa using h2
      cases h3 : do_schedule (thread_yield_enter s s.running_thread) THREAD_READY with
      | error e =>
        constructor
        · intro h; cases h
        · rintro ⟨-, -, s1, h, -⟩; cases h
      | ok s1 =>
        constructor
        · intro h
          refine ⟨rfl, h2f, s1, rfl, ?_⟩
          dsimp only at h
          by_cases e : s1.running_thread = s.running_thread
          · rw [if_pos e] at h ⊢; exact (Except.ok.inj h).symm
          · rw [if_neg e] at h ⊢; exact (Except.ok.inj h).symm
        · rintro ⟨-, -, s1b, h, rfl⟩
          cases h
          dsimp only
          by_cases e : s1.running_thread = s.running_thread
          · rw [if_pos e, if_pos e]
          · rw [if_neg e, if_neg e]

theorem thread_yield_enter_mem (s : State) (curr : Nat) :
    (thread_yield_enter s curr).mem = s.mem := by
  unfold thread_yield_enter; dsimp only; split_ifs <;> rfl

theorem thread_yield_enter_running (s : State) (curr : Nat) :
    (thread_yield_enter s curr).running_thread = s.running_thread := by
  unfold thread_yield_enter; dsimp only; split_ifs <;> rfl

theorem thread_yield_one_running (s s' : State) (h : thread_yield s = .ok s')
    (hs : one_running s) : one_running s' := by
  obtain ⟨-, -, s1, hd, rfl⟩ := (thread_yield_ok_iff s s').1 h
  have h1 : one_running s1 := by
    apply do_schedule_one_running _ s1 _ hd
    exact one_running_of_same s _ (same_threads_of_mem _ _
      (thread_yield_enter_running s _) (thread_yield_enter_mem s _)) hs
  split_ifs
  · exact one_running_of_same s1 _ (same_threads_of_mem _ _ rfl rfl) h1
  · exact h1

/-- When `thread_sleep` returns, and what it returns. -/
theorem thread_sleep_ok_iff (s s' : State) (ticks : Int) :
    thread_sleep s ticks = .ok s' ↔
      (thread_current s = .ok s.running_thread ∧ intr_context s = false ∧
        ∃ s1, do_schedule (thread_sleep_enter s s.running_thread ticks) THREAD_BLOCKED
            = .ok s1 ∧
          s' = if s1.running_thread = s.running_thread then intr_set_level s1 s.level
            else s1) := by
  unfold thread_sleep
  cases h1 : thread_current s with
  | error e =>
    constructor
    · intro h; cases h
    · rintro ⟨h, -⟩; cases h
  | ok t =>
    have ht : t = s.running_thread := ((thread_current_ok s t).1 h1).1
    subst ht
    dsimp only
    by_cases h2 : intr_context s = true
    · rw [if_pos h2]
      constructor
      · intro h; cases h
      · rintro ⟨-, h, -⟩; rw [h2] at h; cases h
    · rw [if_neg h2]
      have h2f : intr_context s = false := by simpa using h2
      cases h3 : do_schedule (thread_sleep_enter s s.running_thread ticks) THREAD_BLOCKED with
      | error e =>
        constructor
        · intro h; cases h
        · rintro ⟨-, -, s1, h, -⟩; cases h
      | ok s1 =>
        constructor
        · intro h
          refine ⟨rfl, h2f, s1, rfl, ?_⟩
          dsimp only at h
          by_cases e : s1.running_thread = s.running_thread
          · rw [if_pos e] at h ⊢; exact (Except.ok.inj h).symm
          · rw [if_neg e] at h ⊢; exact (Except.ok.inj h).symm
        · rintro ⟨-, -, s1b, h, rfl⟩
          cases h
          dsimp only
          by_cases e : s1.running_thread = s.running_thread
          · rw [if_pos e, if_pos e]
          · rw [if_neg e, if_neg e]

theorem thread_sleep_enter_mem (s : State) (curr : Nat) (ticks : Int) :
    (thread_sleep_enter s curr ticks).mem
      = (modify s curr (fun th => { th with wakeup_tick := ticks })).mem := by
  unfold thread_sleep_enter; dsimp only; split_ifs <;> rfl

theorem thread_sleep_enter_running (s : State) (curr : Nat) (ticks : Int) :
    (thread_sleep_enter s curr ticks).running_thread = s.running_thread := by
  unfold thread_sleep_enter; dsimp only; split_ifs <;> rfl

/-- When `thread_exit` gets past `do_schedule`: only by a switch to another
thread. -/
theorem thread_exit_ok_iff (s s' : State) :
    thread_exit s = .ok s' ↔
      (intr_context s = false ∧ do_schedule (intr_disable s) THREAD_DYING = .ok s' ∧
        s'.running_thread ≠ s.running_thread) := by
  unfold thread_exit
  by_cases h2 : intr_context s = true
  · rw [if_pos h2]
    constructor
    · intro h; cases h
    · rintro ⟨h, -⟩; rw [h2] at h; cases h
  · rw [if_neg h2]
    have h2f : intr_context s = false := by simpa using h2
    dsimp only
    cases h3 : do_schedule (intr_disable s) THREAD_DYING with
    | error e =>
      constructor
      · intro h; cases h
      · rintro ⟨-, h, -⟩; cases h
    | ok s1 =>
      dsimp only
      by_cases e : s1.running_thread = s.running_thread
      · rw [if_pos e]
        constructor
        · intro h; cases h
        · rintro ⟨-, h, hne⟩
          cases h
          exact absurd e hne
      · rw [if_neg e]
        constructor
        · intro h
          cases h
          exact ⟨h2f, rfl, e⟩
        · rintro ⟨-, h, -⟩
          rw [h]

theorem thread_sleep_one_running (s s' : State) (ticks : Int)
    (h : thread_sleep s ticks = .ok s') (hs : one_running s) : one_running s' := by
  obtain ⟨-, -, s1, hd, rfl⟩ := (thread_sleep_ok_iff s s' ticks).1 h
  have h0 : same_threads s (thread_sleep_enter s s.running_thread ticks) := by
    have := same_threads_modify s s.running_thread
      (fun th => { th with wakeup_tick := ticks }) (fun _ => ⟨rfl, rfl⟩)
    refine ⟨thread_sleep_enter_running s _ _, fun a => ?_⟩
    rw [thread_sleep_enter_mem]
    exact this.2 a
  have h1 : one_running s1 :=
    do_schedule_one_running _ s1 _ hd (one_running_of_same s _ h0 hs)
  split_ifs
  · exact one_running_of_same s1 _ (same_threads_of_mem _ _ rfl rfl) h1
  · exact h1

theorem thread_exit_one_running (s s' : State) (h : thread_exit s = .ok s')
    (hs : one_running s) : one_running s' := by
  obtain ⟨-, hd, -⟩ := (thread_exit_ok_iff s s').1 h
  exact do_schedule_one_running _ s' _ hd
    (one_running_of_same s _ (same_threads_of_mem _ _ rfl rfl) hs)

/-- A record that is not the running thread's is replaced by one that is not
RUNNING. -/
theorem one_running_of_store (s s' : State) (t : Nat)
    (hrun : s'.running_thread = s.running_thread)
    (hmem : ∀ a, a ≠ t → s'.mem a = s.mem a)
    (hst : status_of s' t ≠ some THREAD_RUNNING)
    (hcur : status_of s' s'.running_thread = some THREAD_RUNNING)
    (hs : one_running s) : one_running s' := by
  obtain ⟨h1, h2, h3⟩ := hs
  have hne : s.running_thread ≠ t := by
    intro e
    rw [hrun, e] at hcur
    exact hst hcur
  refine ⟨?_, hcur, ?_⟩
  · rw [hrun]
    unfold is_thread at h1 ⊢
    rw [hmem _ hne]; exact h1
  · intro a ha
    by_cases e : a = t
    · subst e; exact absurd ha hst
    · rw [hrun]
      apply h3
      unfold status_of at ha ⊢
      rw [← hmem a e]; exact ha

theorem init_thread_ok (E : Env) (s s' : State) (t name : Nat) (priority : Int)
    (h : init_thread E s t name priority = .ok s') :
    t ≠ 0 ∧ E.PRI_MIN ≤ priority ∧ priority ≤ E.PRI_MAX ∧ name ≠ 0 ∧
      s' = { s with mem := fun a => if a = t then some (blank_thread priority) else s.mem a } := by
  unfold init_thread at h
  by_cases h1 : t = 0
  · rw [if_pos h1] at h; cases h
  rw [if_neg h1] at h
  by_cases h2 : E.PRI_MIN ≤ priority ∧ priority ≤ E.PRI_MAX
  swap
  · have : (!(decide (E.PRI_MIN ≤ priority) && decide (priority ≤ E.PRI_MAX))) = true := by
      by_cases ha : E.PRI_MIN ≤ priority
      · have hb : ¬ priority ≤ E.PRI_MAX := fun hb => h2 ⟨ha, hb⟩
        simp [ha, hb]
      · simp [ha]
    rw [if_pos this] at h; cases h
  have : ¬ (!(decide (E.PRI_MIN ≤ priority) && decide (priority ≤ E.PRI_MAX))) = true := by
    simp [h2.1, h2.2]
  rw [if_neg this] at h
  by_cases h3 : name = 0
  · rw [if_pos h3] at h; cases h
  rw [if_neg h3] at h
  exact ⟨h1, h2.1, h2.2, h3, (Except.ok.inj h).symm⟩

theorem thread_create_one_running (E : Env) (s s' : State) (name : Nat) (priority : Int)
    (function page : Nat) (tid : Int)
    (h : thread_create E s name priority function page = .ok (s', tid))
    (hs : one_running s) : one_running s' := by
  unfold thread_create at h
  by_cases h1 : function = 0
  · rw [if_pos h1] at h; cases h
  rw [if_neg h1] at h
  dsimp only at h
  by_cases h2 : page = 0
  · rw [if_pos h2] at h
    cases h
    exact hs
  rw [if_neg h2] at h
  cases h3 : init_thread E s page name priority with
  | error e => rw [h3] at h; cases h
  | ok s1 =>
    rw [h3] at h
    dsimp only at h
    obtain ⟨-, -, -, -, rfl⟩ := init_thread_ok E s s1 page name priority h3
    cases h4 : thread_unblock (modify (allocate_tid
        { s with mem := fun a => if a = page then some (blank_thread priority) else s.mem a }).1
        page (fun th => { th with tid := (allocate_tid
          { s with mem := fun a => if a = page then some (blank_thread priority)
                                   else s.mem a }).2 })) page with
    | error e => rw [h4] at h; cases h
    | ok s3 =>
      rw [h4] at h
      dsimp only at h
      obtain ⟨-, -, hs3⟩ := (thread_unblock_ok_iff _ s3 page).1 h4
      cases h5 : thread_current s3 with
      | error e => rw [h5] at h; cases h
      | ok cur =>
        rw [h5] at h
        dsimp only at h
        obtain ⟨hc1, -, th, hth, -, hthst⟩ := (thread_current_ok s3 cur).1 h5
        have hrun : s3.running_thread = s.running_thread := by rw [hs3]; rfl
        have hmem : ∀ a, a ≠ page → s3.mem a = s.mem a := by
          intro a ha
          rw [hs3]
          simp [intr_set_level, set_status, intr_disable, allocate_tid, ha]
        have hst : status_of s3 page ≠ some THREAD_RUNNING := by
          rw [hs3]
          simp [status_of, intr_set_level, set_status, intr_disable, allocate_tid]
        have hcur : status_of s3 s3.running_thread = some THREAD_RUNNING := by
          rw [← hc1]; simp [status_of, hth, hthst]
        have h6 : one_running s3 := one_running_of_store s s3 page hrun hmem hst hcur hs
        by_cases h7 : priority_of s3 page > priority_of s3 cur
        · rw [if_pos h7] at h
          cases h8 : thread_yield s3 with
          | error e => rw [h8] at h; cases h
          | ok s4 =>
            rw [h8] at h
            cases h
            exact thread_yield_one_running s3 _ h8 h6
        · rw [if_neg h7] at h
          cases h
          exact h6

theorem thread_awake_loop_one_running (E : Env) (ticks : Int) :
    ∀ (l : List Nat) (s s' : State), thread_awake_loop E ticks l s = .ok s' →
      one_running s → one_running s' := by
  intro l
  induction l with
  | nil =>
    intro s s' h hs
    cases h
    exact hs
  | cons t rest ih =>
    intro s s' h hs
    unfold thread_awake_loop at h
    cases h1 : s.mem t with
    | none => rw [h1] at h; cases h
    | some th =>
      rw [h1] at h
      dsimp only at h
      by_cases h2 : th.wakeup_tick ≤ ticks
      · rw [if_pos h2] at h
        cases h3 : thread_unblock { s with sleep_list := list_remove t s.sleep_list } t with
        | error e => rw [h3] at h; cases h
        | ok s1 =>
          rw [h3] at h
          exact ih s1 s' h (thread_unblock_one_running _ s1 t h3
            (one_running_of_same s _ (same_threads_of_mem _ _ rfl rfl) hs))
      · rw [if_neg h2] at h
        exact ih _ s' h (one_running_of_same s _ (same_threads_of_mem _ _ rfl rfl) hs)

theorem refresh_priority_same (s s' : State) (h : refresh_priority s = .ok s') :
    same_threads s s' := by
  unfold refresh_priority at h
  cases h1 : thread_current s with
  | error e => rw [h1] at h; cases h
  | ok curr =>
    rw [h1] at h
    dsimp only at h
    cases h2 : s.mem curr with
    | none => rw [h2] at h; cases h
    | some c =>
      rw [h2] at h
      dsimp only at h
      have e1 : same_threads s (set_priority s curr c.init_priority) :=
        same_threads_modify s curr _ (fun _ => ⟨rfl, rfl⟩)
      by_cases h3 : c.donations = []
      · rw [if_pos h3] at h
        cases h
        exact e1
      · rw [if_neg h3] at h
        have e2 : ∀ ds : List Nat, same_threads s
            (modify (set_priority s curr c.init_priority) curr
              (fun th => { th with donations := ds })) := fun ds =>
          same_threads_trans _ _ _ e1 (same_threads_modify _ curr _ (fun _ => ⟨rfl, rfl⟩))
        split at h
        · cases h
          exact e2 _
        · split at h
          · cases h
          · split at h
            · cases h
              exact same_threads_trans _ _ _ (e2 _)
                (same_threads_modify _ curr _ (fun _ => ⟨rfl, rfl⟩))
            · cases h
              exact e2 _

theorem same_threads_set_priority (s : State) (t : Nat) (p : Int) :
    same_threads s (set_priority s t p) :=
  same_threads_modify s t _ (fun _ => ⟨rfl, rfl⟩)

theorem donate_priority_loop_same :
    ∀ (n curr : Nat) (s s' : State), donate_priority_loop n curr s = .ok s' →
      same_threads s s' := by
  intro n
  induction n with
  | zero =>
    intro curr s s' h
    cases h
    exact same_threads_refl s
  | succ n ih =>
    intro curr s s' h
    unfold donate_priority_loop at h
    split at h
    · cases h
    · split at h
      · cases h
        exact same_threads_refl s
      · dsimp only at h
        split at h
        · cases h
        · split at h
          · cases h
          · exact same_threads_trans _ _ _ (same_threads_set_priority s _ _) (ih _ _ _ h)

theorem donate_priority_same (s s' : State) (h : donate_priority s = .ok s') :
    same_threads s s' := by
  unfold donate_priority at h
  split at h
  · cases h
  · exact donate_priority_loop_same 8 _ s s' h

theorem remove_with_lock_same (s s' : State) (lock : Nat)
    (h : remove_with_lock s lock = .ok s') : same_threads s s' := by
  unfold remove_with_lock at h
  split at h
  · cases h
  · split at h
    · cases h
    · split at h
      · cases h
      · cases h
        exact same_threads_modify s _ _ (fun _ => ⟨rfl, rfl⟩)

theorem thread_tick_same (s s' : State) (h : thread_tick s = .ok s') :
    same_threads s s' := by
  have key : ∀ X : State, X.mem = s.mem → X.running_thread = s.running_thread →
      (if X.thread_ticks ≥ TIME_SLICE then intr_yield_on_return X else .ok X) = .ok s' →
      same_threads s s' := by
    intro X hm hr hX
    split at hX
    · unfold intr_yield_on_return at hX
      split at hX
      · cases hX
      · cases hX
        exact same_threads_of_mem _ _ hr hm
    · cases hX
      exact same_threads_of_mem _ _ hr hm
  unfold thread_tick at h
  split at h
  · cases h
  · rename_i t _
    by_cases e : t = s.idle_thread
    · exact key _ (by simp [e]) (by simp [e]) h
    · exact key _ (by simp [e]) (by simp [e]) h

theorem idle_entry_same (s s' : State) (h : idle_entry s = .ok s') :
    same_threads s s' := by
  unfold idle_entry at h
  split at h
  · cases h
  · cases h
    exact same_threads_of_mem _ _ rfl rfl

theorem lock_contention_same (s s' : State) (lock : Nat)
    (h : lock_contention s lock = .ok s') : same_threads s s' := by
  unfold lock_contention at h
  split at h
  · cases h
  · cases h
    exact same_threads_modify s _ _ (fun _ => ⟨rfl, rfl⟩)

theorem lock_acquired_same (s s' : State) (lock : Nat)
    (h : lock_acquired s lock = .ok s') : same_threads s s' := by
  unfold lock_acquired at h
  split at h
  · cases h
  · cases h
    exact same_threads_trans _ _ _
      (same_threads_modify s s.running_thread (fun th => { th with wait_on_lock := 0 })
        (fun _ => ⟨rfl, rfl⟩))
      (same_threads_of_mem _ _ rfl rfl)

theorem lock_released_same (s s' : State) (lock : Nat)
    (h : lock_released s lock = .ok s') : same_threads s s' := by
  unfold lock_released at h
  split at h
  · cases h
  · cases h
    exact same_threads_of_mem _ _ rfl rfl

theorem donor_recorded_same (s s' : State) (holder : Nat)
    (h : donor_recorded s holder = .ok s') : same_threads s s' := by
  unfold donor_recorded at h
  split at h
  · cases h
  · split at h
    · cases h
    · cases h
      exact same_threads_modify s _ _ (fun _ => ⟨rfl, rfl⟩)

theorem test_max_priority_one_running (s s' : State) (h : test_max_priority s = .ok s')
    (hs : one_running s) : one_running s' := by
  unfold test_max_priority at h
  split at h
  · cases h
    exact hs
  · split at h
    · cases h
    · split at h
      · cases h
      · split at h
        · exact thread_yield_one_running s s' h hs
        · cases h
          exact hs

theorem thread_set_priority_one_running (s s' : State) (p : Int)
    (h : thread_set_priority s p = .ok s') (hs : one_running s) : one_running s' := by
  unfold thread_set_priority at h
  split at h
  · cases h
  · dsimp only at h
    split at h
    · cases h
    · rename_i s2 h2
      apply test_max_priority_one_running s2 s' h
      apply one_running_of_same _ s2 (refresh_priority_same _ s2 h2)
      exact one_running_of_same s _
        (same_threads_modify s _ _ (fun _ => ⟨rfl, rfl⟩)) hs

theorem thread_init_one_running (E : Env) (page : Nat) (s : State)
    (h : thread_init E (boot page) = .ok s) : one_running s := by
  unfold thread_init at h
  rw [if_neg (by simp [boot])] at h
  dsimp only at h
  split at h
  · cases h
  · rename_i s1 h1
    obtain ⟨h0, -, -, -, rfl⟩ := init_thread_ok E _ s1 _ _ _ h1
    cases h
    have h0b : page ≠ 0 := h0
    refine ⟨?_, ?_, ?_⟩
    · rw [is_thread_iff]
      refine ⟨h0b, { blank_thread E.PRI_DEFAULT with status := THREAD_RUNNING, tid := 1 }, ?_,
        rfl⟩
      simp [modify, set_status, allocate_tid, boot]
    · simp [status_of, modify, set_status, allocate_tid, boot]
    · intro a ha
      by_contra hne
      have hne2 : ¬ a = page := hne
      simp [status_of, modify, set_status, allocate_tid, boot, hne2] at ha

theorem step_one_running (E : Env) (s s' : State) (op : Op) (h : step E s op = .ok s')
    (hs : one_running s) : one_running s' := by
  cases op with
  | thread_tick => exact one_running_of_same s s' (thread_tick_same s s' h) hs
  | thread_create name priority function page =>
    have h0 : (match thread_create E s name priority function page with
        | .error e => .error e
        | .ok r => .ok r.1) = Except.ok s' := h
    cases h1 : thread_create E s name priority function page with
    | error e => rw [h1] at h0; cases h0
    | ok r =>
      rw [h1] at h0
      cases h0
      exact thread_create_one_running E s r.1 name priority function page r.2 h1 hs
  | thread_block => exact thread_block_one_running s s' h hs
  | thread_unblock t => exact thread_unblock_one_running s s' t h hs
  | thread_exit => exact thread_exit_one_running s s' h hs
  | thread_yield => exact thread_yield_one_running s s' h hs
  | thread_set_priority p => exact thread_set_priority_one_running s s' p h hs
  | idle_entry => exact one_running_of_same s s' (idle_entry_same s s' h) hs
  | thread_sleep ticks => exact thread_sleep_one_running s s' ticks h hs
  | thread_awake ticks =>
    exact thread_awake_loop_one_running E ticks _ _ s' h
      (one_running_of_same s _ (same_threads_of_mem _ _ rfl rfl) hs)
  | test_max_priority => exact test_max_priority_one_running s s' h hs
  | donate_priority => exact one_running_of_same s s' (donate_priority_same s s' h) hs
  | remove_with_lock lock =>
    exact one_running_of_same s s' (remove_with_lock_same s s' lock h) hs
  | refresh_priority => exact one_running_of_same s s' (refresh_priority_same s s' h) hs
  | intr_state l external =>
    cases h
    exact one_running_of_same s _ (same_threads_of_mem _ _ rfl rfl) hs
  | lock_contention lock =>
    exact one_running_of_same s s' (lock_contention_same s s' lock h) hs
  | lock_acquired lock => exact one_running_of_same s s' (lock_acquired_same s s' lock h) hs
  | lock_released lock => exact one_running_of_same s s' (lock_released_same s s' lock h) hs
  | donor_recorded holder =>
    exact one_running_of_same s s' (donor_recorded_same s s' holder h) hs

theorem reachable_one_running (E : Env) (s : State) (h : Reachable E s) : one_running s := by
  induction h with
  | init page s h => exact thread_init_one_running E page s h
  | step s s' op _ _ hstep ih => exact step_one_running E s s' op hstep ih

/-- C6: in every state reachable from `thread_init`, exactly one thread record
has status THREAD_RUNNING, and it is the thread `thread_current ()` returns;
whenever `schedule` returns, the thread it chose is that thread. -/
theorem exactly_one_running (E : Env) :
    (∀ s, Reachable E s →
      (∃! a, status_of s a = some THREAD_RUNNING) ∧
        ∀ a, status_of s a = some THREAD_RUNNING → thread_current s = .ok a) ∧
    (∀ s s', schedule s = .ok s' →
      thread_current s' = .ok (next_thread_to_run s).2 ∧
        status_of s' (next_thread_to_run s).2 = some THREAD_RUNNING) := by
  constructor
  · intro s hs
    obtain ⟨h1, h2, h3⟩ := reachable_one_running E s hs
    refine ⟨⟨s.running_thread, h2, fun a ha => h3 a ha⟩, fun a ha => ?_⟩
    rw [h3 a ha]
    exact (thread_current_ok_iff s _).2 ⟨rfl, h1, h2⟩
  · intro s s' h
    obtain ⟨-, -, hit, rfl⟩ := (schedule_ok_iff s s').1 h
    have hm : (next_thread_to_run s).1.mem = s.mem := by
      unfold next_thread_to_run; cases s.ready_list <;> rfl
    obtain ⟨h0, th, hth, hmag⟩ := (is_thread_iff s _).1 hit
    have hst : status_of
        { set_status (next_thread_to_run s).1 (next_thread_to_run s).2 THREAD_RUNNING with
          thread_ticks := 0
          running_thread := (next_thread_to_run s).2
          destruction_req :=
            if s.running_thread ≠ (next_thread_to_run s).2 ∧ s.running_thread ≠ 0 ∧
                status_of s s.running_thread = some THREAD_DYING ∧
                s.running_thread ≠ s.initial_thread
            then s.destruction_req ++ [s.running_thread] else s.destruction_req }
        (next_thread_to_run s).2 = some THREAD_RUNNING := by
      simp [status_of, set_status, hm, hth]
    refine ⟨(thread_current_ok_iff _ _).2 ⟨rfl, ?_, hst⟩, hst⟩
    rw [is_thread_iff]
    exact ⟨h0, { th with status := THREAD_RUNNING }, by simp [set_status, hm, hth], hmag⟩

/-- Witness for C6, on the reachable state `state_two_sleepers`. -/
theorem exactly_one_running_witness :
    (∃! a, status_of state_two_sleepers a = some THREAD_RUNNING) ∧
      thread_current state_two_sleepers = .ok 3 := by
  have h := (exactly_one_running stdEnv).1 state_two_sleepers
    (boot_run_reachable stdEnv 1 run_two_sleepers (by decide!))
  exact ⟨h.1, h.2 3 (by decide!)⟩

/-! ## Entering the scheduler core from a well-formed state -/

/-- The call `do_schedule (st)` returns when interrupts are off, the running thread is
valid and not queued for destruction, `st` is not THREAD_RUNNING and the
thread to run next is a valid thread not queued for destruction; the state it
returns in is described member by member. -/
theorem do_schedule_returns (s : State) (st : thread_status)
    (hl : s.level = INTR_OFF) (hc : thread_current s = .ok s.running_thread)
    (hA : s.running_thread ∉ s.destruction_req) (hst : st ≠ THREAD_RUNNING)
    (hn : is_thread s (next_thread_to_run s).2 = true)
    (hnd : (next_thread_to_run s).2 ∉ s.destruction_req) :
    ∃ s', do_schedule s st = .ok s' ∧
      s'.running_thread = (next_thread_to_run s).2 ∧
      s'.ready_list = s.ready_list.tail ∧
      s'.destruction_req =
        (if s.running_thread ≠ (next_thread_to_run s).2 ∧ st = THREAD_DYING ∧
            s.running_thread ≠ s.initial_thread then [s.running_thread] else []) ∧
      (∀ a, s'.mem a =
        if a ∈ s.destruction_req then none
        else if a = (next_thread_to_run s).2
          then (s.mem a).map (fun th => { th with status := THREAD_RUNNING })
        else if a = s.running_thread then (s.mem a).map (fun th => { th with status := st })
        else s.mem a) ∧
      s'.level = INTR_OFF ∧ s'.thread_ticks = 0 ∧ same_aside s s' := by
  obtain ⟨-, hA0, c, hcm, hcmag, hcst⟩ := (thread_current_ok s _).1 hc
  set P := set_status (free_destruction_req s) s.running_thread st with hP
  have hPmem : ∀ a, P.mem a = if a ∈ s.destruction_req then none
      else if a = s.running_thread then (s.mem a).map (fun th => { th with status := st })
      else s.mem a := by
    intro a
    simp only [hP, set_status, modify_mem, free_destruction_req, destroy_victims_apply]
    by_cases h1 : a ∈ s.destruction_req
    · simp [h1]
    · by_cases h2 : a = s.running_thread
      · subst h2
        simp [h1]
      · simp [h1, h2]
  have hPnext : next_thread_to_run P
      = ({ P with ready_list := s.ready_list.tail }, (next_thread_to_run s).2) := by
    unfold next_thread_to_run
    have : P.ready_list = s.ready_list := rfl
    rw [this]
    cases h : s.ready_list with
    | nil =>
      simp only [List.tail_nil]
      have : P.ready_list = [] := by rw [this, h]
      congr 1
      cases hPs : P
      simp only [hPs] at this
      simp [this]
    | cons t rest => rfl
  have hcur2 : thread_current (free_destruction_req s) = .ok s.running_thread := by
    rw [thread_current_ok]
    refine ⟨rfl, hA0, c, ?_, hcmag, hcst⟩
    simp [free_destruction_req, destroy_victims_apply, hA, hcm]
  have hnext2 : is_thread P (next_thread_to_run s).2 = true := by
    obtain ⟨h0, th, hth, hmag⟩ := (is_thread_iff s _).1 hn
    rw [is_thread_iff]
    by_cases e : (next_thread_to_run s).2 = s.running_thread
    · refine ⟨h0, { th with status := st }, ?_, hmag⟩
      rw [hPmem, if_neg hnd, if_pos e, hth]
      rfl
    · refine ⟨h0, th, ?_, hmag⟩
      rw [hPmem, if_neg hnd, if_neg e, hth]
  have hPcur : P.mem P.running_thread = some { c with status := st } := by
    have hr : P.running_thread = s.running_thread := rfl
    rw [hr, hPmem, if_neg hA, if_pos rfl, hcm]
    rfl
  have hsched := (schedule_ok_iff P _).2 ⟨hl, ⟨{ c with status := st }, hPcur, hst⟩,
    by rw [hPnext]; exact hnext2, rfl⟩
  refine ⟨_, (do_schedule_ok_iff s _ st).2 ⟨hl, hc, hcur2, hsched⟩, ?_, ?_, ?_, ?_, ?_, ?_, ?_⟩
  · rw [hPnext]
  · rw [hPnext]; rfl
  · have hd : P.destruction_req = [] := rfl
    have hi : P.initial_thread = s.initial_thread := rfl
    have hr : P.running_thread = s.running_thread := rfl
    have hs : status_of P P.running_thread = some st := by
      unfold status_of
      rw [hPcur]
      rfl
    simp only [hPnext, hd, hi, hr, List.nil_append]
    rw [hr] at hs
    simp only [hs, Option.some.injEq, hA0, ne_eq, not_false_eq_true, true_and]
  · intro a
    simp only [hPnext, set_status, modify_mem, hPmem]
    by_cases h1 : a ∈ s.destruction_req
    · have hne : a ≠ (next_thread_to_run s).2 := fun e => hnd (e ▸ h1)
      simp [h1, hne]
    · by_cases h2 : a = (next_thread_to_run s).2
      · by_cases h3 : a = s.running_thread
        · subst h3
          rw [if_pos h2, if_neg h1, if_pos h2, if_neg h1, if_pos rfl, hcm]
          rfl
        · rw [if_neg h1, if_pos h2, if_pos h2, if_neg h1, if_neg h3]
      · simp [h1, h2]
  · rw [hPnext]; exact hl
  · rfl
  · rw [hPnext]
    exact ⟨rfl, rfl, rfl, rfl, rfl, rfl, rfl, rfl, rfl, rfl⟩

/-! ## thread_create -/

theorem init_thread_eq (E : Env) (s : State) (t name : Nat) (priority : Int)
    (h1 : t ≠ 0) (h2 : E.PRI_MIN ≤ priority) (h3 : priority ≤ E.PRI_MAX) (h4 : name ≠ 0) :
    init_thread E s t name priority
      = .ok { s with mem := fun a => if a = t then some (blank_thread priority) else s.mem a } := by
  unfold init_thread
  rw [if_neg h1, if_neg (by simp [h2, h3]), if_neg h4]

theorem list_insert_ordered_skip (less : Nat → Nat → Bool) (x e : Nat) (es : List Nat)
    (h : less x e = false) :
    list_insert_ordered less x (e :: es) = e :: list_insert_ordered less x es := by
  conv_lhs => unfold list_insert_ordered
  rw [if_neg (by simp [h])]

/-- What `thread_create` does up to its comparison of priorities, when a page
was allocated, the arguments pass the assertions and the running thread is
valid: the new thread is READY in the ready list and the tid counter is
advanced. -/
theorem thread_create_eq (E : Env) (s : State) (name : Nat) (priority : Int)
    (function page : Nat) (hfn : function ≠ 0) (hname : name ≠ 0)
    (hmin : E.PRI_MIN ≤ priority) (hmax : priority ≤ E.PRI_MAX) (hpage : page ≠ 0)
    (hcur : thread_current s = .ok s.running_thread) (hne : s.running_thread ≠ page) :
    ∃ s3, s3.running_thread = s.running_thread ∧
      (∀ a, s3.mem a = if a = page
        then some { blank_thread priority with tid := s.next_tid, status := THREAD_READY }
        else s.mem a) ∧
      s3.ready_list = list_insert_ordered (cmp_priority s3) page s.ready_list ∧
      s3.destruction_req = s.destruction_req ∧ s3.level = s.level ∧
      s3.next_tid = s.next_tid + 1 ∧
      same_aside { s with next_tid := s.next_tid + 1, sleep_list := s3.sleep_list } s3 ∧
      s3.sleep_list
        = list_relinked page (list_behind (cmp_priority s3) page s.ready_list) s.sleep_list ∧
      thread_create E s name priority function page
        = if priority_of s3 page > priority_of s3 s.running_thread then
            (match thread_yield s3 with
              | .error e => .error e
              | .ok s4 => .ok (s4, s.next_tid))
          else .ok (s3, s.next_tid) := by
  set s1 : State :=
    { s with mem := fun a => if a = page then some (blank_thread priority) else s.mem a }
    with hs1
  have hinit : init_thread E s page name priority = .ok s1 :=
    init_thread_eq E s page name priority hpage hmin hmax hname
  set s2 : State := modify (allocate_tid s1).1 page
    (fun th => { th with tid := (allocate_tid s1).2 }) with hs2
  have hm2 : ∀ a, s2.mem a = if a = page
      then some { blank_thread priority with tid := s.next_tid } else s.mem a := by
    intro a
    by_cases e : a = page
    · simp [hs2, hs1, allocate_tid, e]
    · simp [hs2, hs1, allocate_tid, e]
  have hit2 : is_thread s2 page = true := by
    rw [is_thread_iff]
    exact ⟨hpage, _, by rw [hm2, if_pos rfl], rfl⟩
  have hst2 : status_of s2 page = some THREAD_BLOCKED := by
    unfold status_of; rw [hm2, if_pos rfl]; rfl
  have hub := thread_unblock_ok s2 page hit2 hst2
  set s3 : State := intr_set_level (set_status
        (ready_list_insert (intr_disable s2) page)
        page THREAD_READY) s2.level with hs3
  have hm3 : ∀ a, s3.mem a = if a = page
      then some { blank_thread priority with tid := s.next_tid, status := THREAD_READY }
      else s.mem a := by
    intro a
    have : s3.mem a = if a = page
        then (s2.mem a).map (fun th => { th with status := THREAD_READY }) else s2.mem a := rfl
    rw [this, hm2]
    by_cases e : a = page
    · simp [e]
    · simp [e]
  have hcmp : cmp_priority (intr_disable s2) = cmp_priority s3 := by
    funext a b
    have hp : ∀ x, priority_of (intr_disable s2) x = priority_of s3 x := by
      intro x
      unfold priority_of
      have h2 : (intr_disable s2).mem x = s2.mem x := rfl
      rw [h2, hm2, hm3]
      by_cases e : x = page
      · simp [e]
      · simp [e]
    simp [cmp_priority, hp]
  have hcur3 : thread_current s3 = .ok s.running_thread := by
    rw [thread_current_ok] at hcur ⊢
    obtain ⟨-, h0, th, hth, hmag, hst⟩ := hcur
    exact ⟨rfl, h0, th, by rw [hm3, if_neg hne, hth], hmag, hst⟩
  refine ⟨s3, rfl, hm3, ?_, rfl, rfl, rfl, ⟨rfl, rfl, rfl, rfl, rfl, rfl, rfl, rfl, rfl, rfl⟩,
    ?_, ?_⟩
  · rw [← hcmp]; rfl
  · rw [← hcmp]; rfl
  · unfold thread_create
    rw [if_neg hfn]
    dsimp only
    rw [if_neg hpage, hinit]
    dsimp only
    rw [← hs2, hub]
    dsimp only
    rw [hcur3]
    rfl

theorem cmp_priority_congr (s s' : State) (h : s'.mem = s.mem) :
    cmp_priority s' = cmp_priority s := by
  funext a b
  simp [cmp_priority, priority_of, h]

theorem thread_yield_enter_level (s : State) (curr : Nat) :
    (thread_yield_enter s curr).level = INTR_OFF := by
  unfold thread_yield_enter; dsimp only; split_ifs <;> rfl

theorem thread_yield_enter_destruction_req (s : State) (curr : Nat) :
    (thread_yield_enter s curr).destruction_req = s.destruction_req := by
  unfold thread_yield_enter; dsimp only; split_ifs <;> rfl

theorem thread_yield_enter_aside (s : State) (curr : Nat) :
    same_aside s (thread_yield_enter s curr) := by
  unfold thread_yield_enter; dsimp only
  split_ifs <;> exact ⟨rfl, rfl, rfl, rfl, rfl, rfl, rfl, rfl, rfl, rfl⟩

theorem thread_yield_enter_ready (s : State) (curr : Nat) (h : curr ≠ s.idle_thread) :
    (thread_yield_enter s curr).ready_list
      = list_insert_ordered (cmp_priority s) curr s.ready_list := by
  unfold thread_yield_enter; dsimp only
  have h2 : curr ≠ (intr_disable s).idle_thread := h
  rw [if_pos h2]
  rfl

theorem thread_yield_enter_ready_idle (s : State) (curr : Nat) (h : curr = s.idle_thread) :
    (thread_yield_enter s curr).ready_list = s.ready_list := by
  unfold thread_yield_enter; dsimp only
  have h2 : ¬ curr ≠ (intr_disable s).idle_thread := not_not.2 h
  rw [if_neg h2]
  rfl

theorem next_thread_to_run_snd (s : State) :
    (next_thread_to_run s).2 = s.ready_list.headD s.idle_thread := by
  unfold next_thread_to_run
  cases s.ready_list <;> rfl

/-- Whatever `do_schedule` returns from meets the conditions of
`do_schedule_returns`, so the state it returns in is the one described there. -/
theorem do_schedule_inv (s s' : State) (st : thread_status)
    (h : do_schedule s st = .ok s') :
    s.level = INTR_OFF ∧ thread_current s = .ok s.running_thread ∧
      s.running_thread ∉ s.destruction_req ∧ st ≠ THREAD_RUNNING ∧
      is_thread s (next_thread_to_run s).2 = true ∧
      (next_thread_to_run s).2 ∉ s.destruction_req ∧
      s'.running_thread = (next_thread_to_run s).2 ∧
      s'.ready_list = s.ready_list.tail ∧
      s'.destruction_req =
        (if s.running_thread ≠ (next_thread_to_run s).2 ∧ st = THREAD_DYING ∧
            s.running_thread ≠ s.initial_thread then [s.running_thread] else []) ∧
      (∀ a, s'.mem a =
        if a ∈ s.destruction_req then none
        else if a = (next_thread_to_run s).2
          then (s.mem a).map (fun th => { th with status := THREAD_RUNNING })
        else if a = s.running_thread then (s.mem a).map (fun th => { th with status := st })
        else s.mem a) ∧
      s'.level = INTR_OFF ∧ s'.thread_ticks = 0 ∧ same_aside s s' := by
  obtain ⟨hl, hc, hc2, hsch⟩ := (do_schedule_ok_iff s s' st).1 h
  obtain ⟨-, -, c, hcm, -, -⟩ := (thread_current_ok s _).1 hc
  have hA : s.running_thread ∉ s.destruction_req := by
    intro hm
    obtain ⟨-, -, c2, hc2m, -, -⟩ := (thread_current_ok _ _).1 hc2
    have e : (free_destruction_req s).mem s.running_thread = none := by
      simp [free_destruction_req, destroy_victims_apply, hm]
    rw [e] at hc2m
    cases hc2m
  obtain ⟨-, ⟨c3, hc3m, hc3st⟩, hit, -⟩ := (schedule_ok_iff _ s').1 hsch
  have hPmem : ∀ a, (set_status (free_destruction_req s) s.running_thread st).mem a
      = if a ∈ s.destruction_req then none
        else if a = s.running_thread then (s.mem a).map (fun th => { th with status := st })
        else s.mem a := by
    intro a
    simp only [set_status, modify_mem, free_destruction_req, destroy_victims_apply]
    by_cases h1 : a ∈ s.destruction_req
    · simp [h1]
    · by_cases h2 : a = s.running_thread
      · subst h2
        simp [h1]
      · simp [h1, h2]
  have hst : st ≠ THREAD_RUNNING := by
    have hr : (set_status (free_destruction_req s) s.running_thread st).running_thread
        = s.running_thread := rfl
    rw [hr, hPmem, if_neg hA, if_pos rfl, hcm] at hc3m
    have : c3 = { c with status := st } := (Option.some.inj hc3m).symm
    rw [this] at hc3st
    exact hc3st
  have hnx : (next_thread_to_run (set_status (free_destruction_req s) s.running_thread st)).2
      = (next_thread_to_run s).2 := by
    rw [next_thread_to_run_snd, next_thread_to_run_snd]
    rfl
  rw [hnx] at hit
  obtain ⟨h0, th, hth, hmag⟩ := (is_thread_iff _ _).1 hit
  have hnd : (next_thread_to_run s).2 ∉ s.destruction_req := by
    intro hm
    rw [hPmem, if_pos hm] at hth
    cases hth
  have hn : is_thread s (next_thread_to_run s).2 = true := by
    rw [is_thread_iff]
    rw [hPmem, if_neg hnd] at hth
    by_cases e : (next_thread_to_run s).2 = s.running_thread
    · rw [if_pos e, e, hcm] at hth
      have : th = { c with status := st } := (Option.some.inj hth).symm
      refine ⟨h0, c, e ▸ hcm, ?_⟩
      rw [this] at hmag
      exact hmag
    · rw [if_neg e] at hth
      exact ⟨h0, th, hth, hmag⟩
  obtain ⟨s2, h2, f1, f2, f3, f4, f5, f6, f7⟩ :=
    do_schedule_returns s st hl hc hA hst hn hnd
  have e : s' = s2 := by
    rw [h] at h2
    exact Except.ok.inj h2
  subst e
  exact ⟨hl, hc, hA, hst, hn, hnd, f1, f2, f3, f4, f5, f6, f7⟩

theorem keeps_records_of_same (s s' : State) (h : same_threads s s') :
    keeps_records s s' := by
  intro a ha hn
  have := h.2 a
  rw [hn] at this
  cases hm : s.mem a with
  | none => exact ha hm
  | some th => rw [hm] at this; cases this

theorem keeps_records_refl (s : State) : keeps_records s s := fun _ h => h

theorem keeps_records_trans (s1 s2 s3 : State) (h1 : keeps_records s1 s2)
    (h2 : keeps_records s2 s3) : keeps_records s1 s3 :=
  fun a ha => h2 a (h1 a ha)

theorem frees_of_keeps (s s' : State) (h : keeps_records s s') : frees_only_victims s s' :=
  fun a ha hn => absurd hn (h a ha)

/-- Records are kept up to a state with the same destruction queue and running
thread, from which only victims are freed. -/
theorem frees_of_keeps_frees (s s1 s2 : State) (h1 : keeps_records s s1)
    (hd : s1.destruction_req = s.destruction_req)
    (hr : s1.running_thread = s.running_thread)
    (h2 : frees_only_victims s1 s2) : frees_only_victims s s2 := by
  intro a ha hn
  have := h2 a (h1 a ha) hn
  rw [hd, hr] at this
  exact this

theorem frees_of_frees_keeps (s s1 s2 : State) (h1 : frees_only_victims s s1)
    (h2 : keeps_records s1 s2) : frees_only_victims s s2 := by
  intro a ha hn
  by_cases e : s1.mem a = none
  · exact h1 a ha e
  · exact absurd hn (h2 a e)

theorem do_schedule_frees (s s' : State) (st : thread_status)
    (h : do_schedule s st = .ok s') : frees_only_victims s s' := by
  obtain ⟨-, -, hA, -, -, -, -, -, -, hm, -⟩ := do_schedule_inv s s' st h
  intro a ha hn
  by_cases h1 : a ∈ s.destruction_req
  · exact ⟨h1, fun e => hA (e ▸ h1)⟩
  · exfalso
    rw [hm a, if_neg h1] at hn
    split_ifs at hn
    · cases hs : s.mem a with
      | none => exact ha hs
      | some th => rw [hs] at hn; cases hn
    · cases hs : s.mem a with
      | none => exact ha hs
      | some th => rw [hs] at hn; cases hn
    · exact ha hn

theorem keeps_records_modify (s : State) (t : Nat) (f : thread → thread) :
    keeps_records s (modify s t f) := by
  intro a ha hn
  rw [modify_mem] at hn
  split_ifs at hn
  · cases hs : s.mem a with
    | none => exact ha hs
    | some th => rw [hs] at hn; cases hn
  · exact ha hn

theorem keeps_records_of_mem (s s' : State) (h : s'.mem = s.mem) : keeps_records s s' := by
  intro a ha
  rw [h]; exact ha

theorem schedule_keeps (s s' : State) (h : schedule s = .ok s') : keeps_records s s' := by
  obtain ⟨-, -, -, rfl⟩ := (schedule_ok_iff s s').1 h
  have hm : (next_thread_to_run s).1.mem = s.mem := by
    unfold next_thread_to_run; cases s.ready_list <;> rfl
  intro a ha hn
  have : (set_status (next_thread_to_run s).1 (next_thread_to_run s).2 THREAD_RUNNING).mem a
      = none := hn
  simp only [set_status, modify_mem, hm] at this
  split_ifs at this
  · cases hs : s.mem a with
    | none => exact ha hs
    | some th => rw [hs] at this; cases this
  · exact ha this

theorem thread_yield_frees (s s' : State) (h : thread_yield s = .ok s') :
    frees_only_victims s s' := by
  obtain ⟨-, -, s1, hd, rfl⟩ := (thread_yield_ok_iff s s').1 h
  have h1 : frees_only_victims s s1 :=
    frees_of_keeps_frees s _ s1 (keeps_records_of_mem _ _ (thread_yield_enter_mem s _))
      (thread_yield_enter_destruction_req s _) (thread_yield_enter_running s _)
      (do_schedule_frees _ s1 _ hd)
  split_ifs
  · exact frees_of_frees_keeps s s1 _ h1 (keeps_records_of_mem _ _ rfl)
  · exact h1

theorem thread_sleep_enter_destruction_req (s : State) (curr : Nat) (ticks : Int) :
    (thread_sleep_enter s curr ticks).destruction_req = s.destruction_req := by
  unfold thread_sleep_enter; dsimp only; split_ifs <;> rfl

theorem thread_sleep_frees (s s' : State) (ticks : Int) (h : thread_sleep s ticks = .ok s') :
    frees_only_victims s s' := by
  obtain ⟨-, -, s1, hd, rfl⟩ := (thread_sleep_ok_iff s s' ticks).1 h
  have hk : keeps_records s (thread_sleep_enter s s.running_thread ticks) := by
    intro a ha
    rw [thread_sleep_enter_mem]
    exact keeps_records_modify s _ _ a ha
  have h1 : frees_only_victims s s1 :=
    frees_of_keeps_frees s _ s1 hk (thread_sleep_enter_destruction_req s _ _)
      (thread_sleep_enter_running s _ _) (do_schedule_frees _ s1 _ hd)
  split_ifs
  · exact frees_of_frees_keeps s s1 _ h1 (keeps_records_of_mem _ _ rfl)
  · exact h1

theorem thread_exit_frees (s s' : State) (h : thread_exit s = .ok s') :
    frees_only_victims s s' := by
  obtain ⟨-, hd, -⟩ := (thread_exit_ok_iff s s').1 h
  exact frees_of_keeps_frees s (intr_disable s) s' (keeps_records_of_mem _ _ rfl) rfl rfl
    (do_schedule_frees _ s' _ hd)

/-- What a returning `thread_create` went through: either no page was
allocated, or the new record was stored and unblocked (state `s3`) and then the
caller either returned or yielded. -/
theorem thread_create_inv (E : Env) (s s' : State) (name : Nat) (priority : Int)
    (function page : Nat) (tid : Int)
    (h : thread_create E s name priority function page = .ok (s', tid)) :
    (page = 0 ∧ s' = s) ∨
      ∃ s3, s3.running_thread = s.running_thread ∧
        s3.destruction_req = s.destruction_req ∧
        (∀ a, a ≠ page → s3.mem a = s.mem a) ∧ s3.mem page ≠ none ∧
        (s' = s3 ∨ thread_yield s3 = .ok s') := by
  unfold thread_create at h
  by_cases h1 : function = 0
  · rw [if_pos h1] at h; cases h
  rw [if_neg h1] at h
  dsimp only at h
  by_cases h2 : page = 0
  · rw [if_pos h2] at h
    cases h
    exact Or.inl ⟨h2, rfl⟩
  rw [if_neg h2] at h
  right
  cases h3 : init_thread E s page name priority with
  | error e => rw [h3] at h; cases h
  | ok s1 =>
    rw [h3] at h
    dsimp only at h
    obtain ⟨-, -, -, -, rfl⟩ := init_thread_ok E s s1 page name priority h3
    cases h4 : thread_unblock (modify (allocate_tid
        { s with mem := fun a => if a = page then some (blank_thread priority) else s.mem a }).1
        page (fun th => { th with tid := (allocate_tid
          { s with mem := fun a => if a = page then some (blank_thread priority)
                                   else s.mem a }).2 })) page with
    | error e => rw [h4] at h; cases h
    | ok s3 =>
      rw [h4] at h
      dsimp only at h
      obtain ⟨-, -, hs3⟩ := (thread_unblock_ok_iff _ s3 page).1 h4
      have hrun : s3.running_thread = s.running_thread := by rw [hs3]; rfl
      have hdes : s3.destruction_req = s.destruction_req := by rw [hs3]; rfl
      have hmem : ∀ a, a ≠ page → s3.mem a = s.mem a := by
        intro a ha
        rw [hs3]
        simp [intr_set_level, set_status, intr_disable, allocate_tid, ha]
      have hpg : s3.mem page ≠ none := by
        rw [hs3]
        simp [intr_set_level, set_status, intr_disable, allocate_tid]
      refine ⟨s3, hrun, hdes, hmem, hpg, ?_⟩
      cases h5 : thread_current s3 with
      | error e => rw [h5] at h; cases h
      | ok cur =>
        rw [h5] at h
        dsimp only at h
        by_cases h7 : priority_of s3 page > priority_of s3 cur
        · rw [if_pos h7] at h
          cases h8 : thread_yield s3 with
          | error e => rw [h8] at h; cases h
          | ok s4 =>
            rw [h8] at h
            cases h
            exact Or.inr rfl
        · rw [if_neg h7] at h
          cases h
          exact Or.inl rfl

theorem thread_create_frees (E : Env) (s s' : State) (name : Nat) (priority : Int)
    (function page : Nat) (tid : Int)
    (h : thread_create E s name priority function page = .ok (s', tid)) :
    frees_only_victims s s' := by
  rcases thread_create_inv E s s' name priority function page tid h with
    ⟨-, rfl⟩ | ⟨s3, hr, hd, hm, hp, hs'⟩
  · exact frees_of_keeps _ _ (keeps_records_refl _)
  · have hk : keeps_records s s3 := by
      intro a ha
      by_cases e : a = page
      · rw [e]; exact hp
      · rw [hm a e]; exact ha
    rcases hs' with rfl | hy
    · exact frees_of_keeps _ _ hk
    · exact frees_of_keeps_frees s s3 s' hk hd hr (thread_yield_frees s3 s' hy)

theorem thread_unblock_keeps (s s' : State) (t : Nat) (h : thread_unblock s t = .ok s') :
    keeps_records s s' := by
  obtain ⟨-, -, rfl⟩ := (thread_unblock_ok_iff s s' t).1 h
  exact keeps_records_modify (_) t _

theorem thread_awake_loop_keeps (E : Env) (ticks : Int) :
    ∀ (l : List Nat) (s s' : State), thread_awake_loop E ticks l s = .ok s' →
      keeps_records s s' := by
  intro l
  induction l with
  | nil =>
    intro s s' h
    cases h
    exact keeps_records_refl s
  | cons t rest ih =>
    intro s s' h
    unfold thread_awake_loop at h
    cases h1 : s.mem t with
    | none => rw [h1] at h; cases h
    | some th =>
      rw [h1] at h
      dsimp only at h
      by_cases h2 : th.wakeup_tick ≤ ticks
      · rw [if_pos h2] at h
        cases h3 : thread_unblock { s with sleep_list := list_remove t s.sleep_list } t with
        | error e => rw [h3] at h; cases h
        | ok s1 =>
          rw [h3] at h
          have k1 := thread_unblock_keeps _ s1 t h3
          have k2 := ih s1 s' h
          exact fun a ha => k2 a (k1 a ha)
      · rw [if_neg h2] at h
        have k2 := ih _ s' h
        exact fun a ha => k2 a ha

theorem thread_block_keeps (s s' : State) (h : thread_block s = .ok s') :
    keeps_records s s' := by
  unfold thread_block at h
  split at h
  · cases h
  split at h
  · cases h
  split at h
  · cases h
  · exact keeps_records_trans s _ s' (keeps_records_modify s _ _) (schedule_keeps _ s' h)

theorem test_max_priority_frees (s s' : State) (h : test_max_priority s = .ok s') :
    frees_only_victims s s' := by
  unfold test_max_priority at h
  split at h
  · cases h
    exact frees_of_keeps _ _ (keeps_records_refl _)
  · split at h
    · cases h
    · split at h
      · cases h
      · split at h
        · exact thread_yield_frees s s' h
        · cases h
          exact frees_of_keeps _ _ (keeps_records_refl _)

theorem refresh_priority_fields (s s' : State) (h : refresh_priority s = .ok s') :
    s'.destruction_req = s.destruction_req := by
  unfold refresh_priority at h
  split at h
  · cases h
  · split at h
    · cases h
    · dsimp only at h
      split at h
      · cases h; rfl
      · split at h
        · cases h; rfl
        · split at h
          · cases h
          · split at h
            · cases h; rfl
            · cases h; rfl

theorem thread_set_priority_frees (s s' : State) (p : Int)
    (h : thread_set_priority s p = .ok s') : frees_only_victims s s' := by
  unfold thread_set_priority at h
  split at h
  · cases h
  · dsimp only at h
    split at h
    · cases h
    · rename_i s2 h2
      have hsame := refresh_priority_same _ s2 h2
      refine frees_of_keeps_frees s s2 s' ?_ ?_ ?_ (test_max_priority_frees s2 s' h)
      · exact keeps_records_trans s _ s2 (keeps_records_modify s _ _)
          (keeps_records_of_same _ s2 hsame)
      · have hf := refresh_priority_fields _ s2 h2
        exact hf
      · exact hsame.1

theorem step_frees (E : Env) (s s' : State) (op : Op) (h : step E s op = .ok s') :
    frees_only_victims s s' := by
  cases op with
  | thread_tick =>
    exact frees_of_keeps _ _ (keeps_records_of_same s s' (thread_tick_same s s' h))
  | thread_create name priority function page =>
    have h0 : (match thread_create E s name priority function page with
        | .error e => .error e
        | .ok r => .ok r.1) = Except.ok s' := h
    cases h1 : thread_create E s name priority function page with
    | error e => rw [h1] at h0; cases h0
    | ok r =>
      rw [h1] at h0
      cases h0
      exact thread_create_frees E s r.1 name priority function page r.2 h1
  | thread_block => exact frees_of_keeps _ _ (thread_block_keeps s s' h)
  | thread_unblock t => exact frees_of_keeps _ _ (thread_unblock_keeps s s' t h)
  | thread_exit => exact thread_exit_frees s s' h
  | thread_yield => exact thread_yield_frees s s' h
  | thread_set_priority p => exact thread_set_priority_frees s s' p h
  | idle_entry =>
    exact frees_of_keeps _ _ (keeps_records_of_same s s' (idle_entry_same s s' h))
  | thread_sleep ticks => exact thread_sleep_frees s s' ticks h
  | thread_awake ticks =>
    have h0 : thread_awake_loop E ticks s.sleep_list
        { s with next_tick_to_awake := INT64_MAX } = .ok s' := h
    have k := thread_awake_loop_keeps E ticks _ _ s' h0
    exact frees_of_keeps _ _ (fun a ha => k a ha)
  | test_max_priority => exact test_max_priority_frees s s' h
  | donate_priority =>
    exact frees_of_keeps _ _ (keeps_records_of_same s s' (donate_priority_same s s' h))
  | remove_with_lock lock =>
    exact frees_of_keeps _ _ (keeps_records_of_same s s' (remove_with_lock_same s s' lock h))
  | refresh_priority =>
    exact frees_of_keeps _ _ (keeps_records_of_same s s' (refresh_priority_same s s' h))
  | intr_state l external =>
    cases h
    exact frees_of_keeps _ _ (keeps_records_of_mem _ _ rfl)
  | lock_contention lock =>
    exact frees_of_keeps _ _ (keeps_records_of_same s s' (lock_contention_same s s' lock h))
  | lock_acquired lock =>
    exact frees_of_keeps _ _ (keeps_records_of_same s s' (lock_acquired_same s s' lock h))
  | lock_released lock =>
    exact frees_of_keeps _ _ (keeps_records_of_same s s' (lock_released_same s s' lock h))
  | donor_recorded holder =>
    exact frees_of_keeps _ _ (keeps_records_of_same s s' (donor_recorded_same s s' holder h))

theorem step_keeps (E : Env) (s s' : State) (op : Op) (hop : reaches_do_schedule op = false)
    (h : step E s op = .ok s') : keeps_records s s' := by
  cases op with
  | thread_tick => exact keeps_records_of_same s s' (thread_tick_same s s' h)
  | thread_create name priority function page => cases hop
  | thread_block => exact thread_block_keeps s s' h
  | thread_unblock t => exact thread_unblock_keeps s s' t h
  | thread_exit => cases hop
  | thread_yield => cases hop
  | thread_set_priority p => cases hop
  | idle_entry => exact keeps_records_of_same s s' (idle_entry_same s s' h)
  | thread_sleep ticks => cases hop
  | thread_awake ticks =>
    have h0 : thread_awake_loop E ticks s.sleep_list
        { s with next_tick_to_awake := INT64_MAX } = .ok s' := h
    have k := thread_awake_loop_keeps E ticks _ _ s' h0
    exact fun a ha => k a ha
  | test_max_priority => cases hop
  | donate_priority => exact keeps_records_of_same s s' (donate_priority_same s s' h)
  | remove_with_lock lock =>
    exact keeps_records_of_same s s' (remove_with_lock_same s s' lock h)
  | refresh_priority => exact keeps_records_of_same s s' (refresh_priority_same s s' h)
  | intr_state l external =>
    cases h
    exact keeps_records_of_mem _ _ rfl
  | lock_contention lock =>
    exact keeps_records_of_same s s' (lock_contention_same s s' lock h)
  | lock_acquired lock => exact keeps_records_of_same s s' (lock_acquired_same s s' lock h)
  | lock_released lock => exact keeps_records_of_same s s' (lock_released_same s s' lock h)
  | donor_recorded holder =>
    exact keeps_records_of_same s s' (donor_recorded_same s s' holder h)

/-! ## The earliest-wake value -/

/-- The value `thread_awake`'s loop leaves in `next_tick_to_awake`: what
`update_next_tick_to_awake` computed for the last member it kept, and the value
on entry when it kept none. -/
theorem thread_awake_loop_next_tick (E : Env) (ticks : Int) :
    ∀ (l : List Nat) (s s' : State), thread_awake_loop E ticks l s = .ok s' →
      s'.next_tick_to_awake
        = ((l.filter (fun t => decide (wakeup_of s t > ticks))).getLast?.map
            (fun t => MIN_next_thread_to_run E (wakeup_of s t))).getD s.next_tick_to_awake := by
  intro l
  induction l with
  | nil =>
    intro s s' h
    cases h
    rfl
  | cons t rest ih =>
    intro s s' h
    unfold thread_awake_loop at h
    cases h1 : s.mem t with
    | none => rw [h1] at h; cases h
    | some th =>
      rw [h1] at h
      dsimp only at h
      have hw : wakeup_of s t = th.wakeup_tick := by simp [wakeup_of, h1]
      by_cases h2 : th.wakeup_tick ≤ ticks
      · rw [if_pos h2] at h
        cases h3 : thread_unblock { s with sleep_list := list_remove t s.sleep_list } t with
        | error e => rw [h3] at h; cases h
        | ok s1 =>
          rw [h3] at h
          obtain ⟨-, -, hs1⟩ := (thread_unblock_ok_iff _ s1 t).1 h3
          have hn1 : s1.next_tick_to_awake = s.next_tick_to_awake := by rw [hs1]; rfl
          have hwk1 : ∀ a, wakeup_of s1 a = wakeup_of s a := by
            intro a
            unfold wakeup_of
            have : s1.mem a = if a = t
                then (s.mem a).map (fun th => { th with status := THREAD_READY })
                else s.mem a := by rw [hs1]; rfl
            rw [this]
            split_ifs
            · cases s.mem a <;> rfl
            · rfl
          have hnot : ¬ wakeup_of s t > ticks := by rw [hw]; exact not_lt.2 h2
          rw [ih s1 s' h, hn1]
          simp only [List.filter_cons, hnot, decide_False, Bool.false_eq_true, if_false, hwk1]
      · rw [if_neg h2] at h
        have hgt : wakeup_of s t > ticks := by rw [hw]; exact not_le.1 h2
        have hwk1 : ∀ a, wakeup_of (update_next_tick_to_awake E s th.wakeup_tick) a
            = wakeup_of s a := fun _ => rfl
        have hn1 : (update_next_tick_to_awake E s th.wakeup_tick).next_tick_to_awake
            = MIN_next_thread_to_run E (wakeup_of s t) := by rw [hw]; rfl
        rw [ih _ s' h, hn1]
        simp only [List.filter_cons, hgt, decide_True, if_true, hwk1]
        cases hL : List.filter (fun t => decide (wakeup_of s t > ticks)) rest with
        | nil => rfl
        | cons x xs => rfl

/-- After `thread_awake (ticks)` on a sleep queue of distinct BLOCKED threads,
`next_tick_to_awake` holds what `update_next_tick_to_awake` computed for the
last member that stays, and `INT64_MAX` when none stays. -/
theorem thread_awake_next_tick (E : Env) (s : State) (ticks : Int)
    (hN : s.sleep_list.Nodup)
    (hB : ∀ t ∈ s.sleep_list, is_thread s t = true ∧ status_of s t = some THREAD_BLOCKED) :
    ∃ s', thread_awake E s ticks = .ok s' ∧
      s'.sleep_list = s.sleep_list.filter (fun t => decide (wakeup_of s t > ticks)) ∧
      get_next_tick_to_awake s'
        = (((s.sleep_list.filter (fun t => decide (wakeup_of s t > ticks))).getLast?).map
            (fun t => MIN_next_thread_to_run E (wakeup_of s t))).getD INT64_MAX := by
  obtain ⟨s', hrun, hsleep, -, -, -, -, -⟩ := thread_awake_spec E s ticks hN hB
  exact ⟨s', hrun, hsleep, thread_awake_loop_next_tick E ticks _ _ s' hrun⟩

/-- C5, the code at the failing input: in the reachable state
`state_two_sleepers` thread 1 sleeps until tick 3 and thread 2 until tick 10;
`thread_awake (0)` returns with both still in the sleep queue, and
`get_next_tick_to_awake ()` is then 10, not the minimum 3.  Wherever the
function `next_thread_to_run` is linked, the value is
`MIN (next_thread_to_run, 10)`, which is 3 only for a function at address 3. -/
theorem next_tick_to_awake_not_minimum :
    Reachable stdEnv state_two_sleepers ∧
      state_two_sleepers.sleep_list = [1, 2] ∧
      wakeup_of state_two_sleepers 1 = 3 ∧ wakeup_of state_two_sleepers 2 = 10 ∧
      (∃ s', thread_awake stdEnv state_two_sleepers 0 = .ok s' ∧
        s'.sleep_list = [1, 2] ∧ wakeup_of s' 1 = 3 ∧ wakeup_of s' 2 = 10 ∧
        get_next_tick_to_awake s' = 10) ∧
      (∀ E : Env, ∃ s', thread_awake E state_two_sleepers 0 = .ok s' ∧
        s'.sleep_list = [1, 2] ∧
        get_next_tick_to_awake s' = MIN_next_thread_to_run E 10 ∧
        (get_next_tick_to_awake s' = 3 → E.next_thread_to_run_addr % 2 ^ 64 = 3)) := by
  refine ⟨boot_run_reachable stdEnv 1 run_two_sleepers (by decide!), by decide!, by decide!,
    by decide!, ⟨outcome (thread_awake stdEnv state_two_sleepers 0),
    returned_eq_ok _ (by decide!), by decide!, by decide!, by decide!, by decide!⟩, ?_⟩
  intro E
  obtain ⟨s', hrun, hsleep, hnext⟩ :=
    thread_awake_next_tick E state_two_sleepers 0 (by decide!) (by decide!)
  have hf : List.filter (fun t => decide (wakeup_of state_two_sleepers t > 0))
      state_two_sleepers.sleep_list = [1, 2] := by decide!
  have hw2 : wakeup_of state_two_sleepers 2 = 10 := by decide!
  rw [hf] at hsleep hnext
  have hval : get_next_tick_to_awake s' = MIN_next_thread_to_run E 10 := by
    rw [hnext]
    simp only [List.getLast?, List.getLast, Option.map_some', Option.getD_some]
    rw [hw2]
  refine ⟨s', hrun, hsleep, hval, ?_⟩
  rw [hval]
  unfold MIN_next_thread_to_run
  have h10 : to_uint64 10 = 10 := by decide
  rw [h10]
  split_ifs with hlt
  · unfold to_int64
    have h63 : E.next_thread_to_run_addr % 2 ^ 64 < 2 ^ 63 := by omega
    rw [if_pos h63]
    intro h
    exact_mod_cast h
  · intro h
    norm_num at h

/-! ## thread_exit, whether or not it gets through -/

/-- The function `schedule` frees nothing, also when it stops the kernel. -/
theorem schedule_outcome_keeps (s : State) : keeps_records s (outcome (schedule s)) := by
  cases h : schedule s with
  | ok s' => exact schedule_keeps s s' h
  | error e =>
    have hm : (next_thread_to_run s).1.mem = s.mem := by
      unfold next_thread_to_run; cases s.ready_list <;> rfl
    have he : e.mem = s.mem := by
      unfold schedule at h
      dsimp only at h
      split at h
      · cases h; exact hm
      · split at h
        · cases h; exact hm
        · split at h
          · cases h; exact hm
          · split at h
            · cases h; exact hm
            · split at h
              · cases h
              · cases h
    exact keeps_records_of_mem s e he

/-- Whatever `thread_exit` does, a running thread that is not queued in
`destruction_req` still has its record in the state the call ends in. -/
theorem thread_exit_outcome_keeps_self (s : State)
    (hA : s.running_thread ∉ s.destruction_req) (hm : s.mem s.running_thread ≠ none) :
    (outcome (thread_exit s)).mem s.running_thread ≠ none := by
  have hP : (free_destruction_req (intr_disable s)).mem s.running_thread ≠ none := by
    have : (free_destruction_req (intr_disable s)).mem s.running_thread
        = s.mem s.running_thread := by
      simp [free_destruction_req, destroy_victims_apply, intr_disable, hA]
    rw [this]; exact hm
  have hdo : (outcome (do_schedule (intr_disable s) THREAD_DYING)).mem s.running_thread
      ≠ none := by
    unfold do_schedule
    split
    · exact hm
    · split
      · rename_i e he
        have : e = intr_disable s := by
          unfold thread_current at he
          dsimp only at he
          split at he
          · cases he; rfl
          · split at he
            · cases he; rfl
            · cases he
        rw [this]; exact hm
      · dsimp only
        split
        · rename_i e he
          have : e = free_destruction_req (intr_disable s) := by
            unfold thread_current at he
            dsimp only at he
            split at he
            · cases he; rfl
            · split at he
              · cases he; rfl
              · cases he
          show e.mem s.running_thread ≠ none
          rw [this]; exact hP
        · exact schedule_outcome_keeps _ _
            (keeps_records_modify (free_destruction_req (intr_disable s)) _ _ _ hP)
  unfold thread_exit
  split
  · exact hm
  · dsimp only
    cases hd : do_schedule (intr_disable s) THREAD_DYING with
    | error e =>
      rw [hd] at hdo
      exact hdo
    | ok s1 =>
      rw [hd] at hdo
      dsimp only
      split
      · exact hdo
      · exact hdo

/-- C8: when a running thread `T` other than the initial thread calls
`thread_exit ()` and the call gets through, the pages freed by the purge at the
head of `do_schedule` are exactly those of the threads that were queued in
`destruction_req`, `T` is not among them and keeps its record, now with status
THREAD_DYING, `T` is the one member of `destruction_req` afterwards, and another
thread runs.  Moreover any operation that frees the page of a thread `T` is one
that reaches `do_schedule`, finds `T` queued in `destruction_req`, and is run by
a thread other than `T`; `do_schedule` frees only queued threads; and whether
`thread_exit` gets through or stops the kernel, a caller that is not queued in
`destruction_req` still has its record in the state the call ends in. -/
theorem thread_exit_defers_free (E : Env) :
    (∀ s s', s.running_thread ≠ s.initial_thread → thread_exit s = .ok s' →
      (∀ a, s.mem a ≠ none → (s'.mem a = none ↔ a ∈ s.destruction_req)) ∧
      s.running_thread ∉ s.destruction_req ∧
      status_of s' s.running_thread = some THREAD_DYING ∧
      s'.destruction_req = [s.running_thread] ∧
      s'.running_thread ≠ s.running_thread) ∧
    (∀ s s' op T, step E s op = .ok s' → s.mem T ≠ none → s'.mem T = none →
      reaches_do_schedule op = true ∧ T ∈ s.destruction_req ∧ T ≠ s.running_thread) ∧
    (∀ s s' st T, do_schedule s st = .ok s' → s.mem T ≠ none → s'.mem T = none →
      T ∈ s.destruction_req ∧ T ≠ s.running_thread) ∧
    (∀ s, s.running_thread ∉ s.destruction_req → s.mem s.running_thread ≠ none →
      (outcome (thread_exit s)).mem s.running_thread ≠ none) := by
  refine ⟨?_, ?_, ?_, thread_exit_outcome_keeps_self⟩
  · intro s s' hinit h
    obtain ⟨-, hd, hne⟩ := (thread_exit_ok_iff s s').1 h
    obtain ⟨-, hc, hA, -, hn, hnd, hr, -, hdr, hm, -⟩ := do_schedule_inv _ s' _ hd
    obtain ⟨-, -, c, hcm, -, -⟩ := (thread_current_ok _ _).1 hc
    have e1 : (intr_disable s).running_thread = s.running_thread := rfl
    have e2 : (intr_disable s).destruction_req = s.destruction_req := rfl
    have e3 : (intr_disable s).mem = s.mem := rfl
    have e4 : (intr_disable s).initial_thread = s.initial_thread := rfl
    rw [e1, e2] at hA
    rw [e1, e4] at hdr
    simp only [e1, e2, e3] at hm hcm
    have hne' : s.running_thread ≠ (next_thread_to_run (intr_disable s)).2 := by
      rw [← hr]; exact fun e => hne e.symm
    refine ⟨?_, hA, ?_, ?_, hne⟩
    · intro a ha
      constructor
      · intro hn'
        exact (do_schedule_frees _ s' _ hd a ha hn').1
      · intro hmem
        rw [hm a]
        exact if_pos hmem
    · unfold status_of
      rw [hm, if_neg hA, if_neg hne', if_pos rfl, hcm]
      rfl
    · rw [hdr, if_pos ⟨hne', rfl, hinit⟩]
  · intro s s' op T h ha hn
    have hf := step_frees E s s' op h T ha hn
    refine ⟨?_, hf⟩
    by_contra hop
    have hop' : reaches_do_schedule op = false := by
      cases hb : reaches_do_schedule op
      · rfl
      · exact absurd hb hop
    exact step_keeps E s s' op hop' h T ha hn
  · intro s s' st T h ha hn
    exact do_schedule_frees s s' st h T ha hn

/-- Witness for C8: thread 2 of `state_second_runs` exits; it keeps its record,
is DYING, and is the one member of the destruction queue. -/
theorem thread_exit_defers_free_witness :
    ∃ s', thread_exit state_second_runs = .ok s' ∧
      status_of s' 2 = some THREAD_DYING ∧ s'.destruction_req = [2] ∧
      s'.running_thread ≠ 2 := by
  have h : thread_exit state_second_runs = .ok (outcome (thread_exit state_second_runs)) :=
    returned_eq_ok _ (by decide!)
  obtain ⟨-, -, h3, h4, h5⟩ :=
    (thread_exit_defers_free stdEnv).1 state_second_runs _ (by decide!) h
  exact ⟨_, h, h3, h4, h5⟩

/-! ## Picking the next thread -/

/-- C14: with an empty ready queue `next_thread_to_run ()` returns the idle
thread and changes nothing; with a non-empty ready queue sorted non-increasing
by priority it returns the head of the queue, whose priority is at least that
of every other ready thread, and the queue is left holding the remaining
entries in their order (nothing else in the state changes). -/
theorem next_thread_to_run_takes_head (s : State) :
    (s.ready_list = [] → next_thread_to_run s = (s, s.idle_thread)) ∧
    (s.ready_list ≠ [] → ready_sorted s →
      ∃ t rest, s.ready_list = t :: rest ∧
        next_thread_to_run s = ({ s with ready_list := rest }, t) ∧
        (∀ r ∈ rest, priority_of s r ≤ priority_of s t) ∧
        (∀ r ∈ s.ready_list, priority_of s r ≤ priority_of s t)) := by
  constructor
  · intro h
    unfold next_thread_to_run
    rw [h]
  · intro hne hs
    cases hl : s.ready_list with
    | nil => exact absurd hl hne
    | cons t rest =>
      have hr : ∀ r ∈ rest, priority_of s r ≤ priority_of s t := by
        unfold ready_sorted at hs
        rw [hl] at hs
        exact fun r hr => List.rel_of_sorted_cons hs r hr
      refine ⟨t, rest, rfl, ?_, hr, ?_⟩
      · unfold next_thread_to_run
        rw [hl]
      · intro r hr2
        rcases List.mem_cons.1 hr2 with rfl | h
        · exact le_refl _
        · exact hr r h

/-- Witness for C14: in `state_idle_runs` the ready queue is empty and the idle
thread 2 is returned; in `state_ready_queue` the ready queue is `[2, 3, 4]`
(priorities 30, 20, 10), thread 2 is returned and `[3, 4]` is left. -/
theorem next_thread_to_run_takes_head_witness :
    (next_thread_to_run state_idle_runs).2 = 2 ∧
      ∃ t rest, state_ready_queue.ready_list = t :: rest ∧
        next_thread_to_run state_ready_queue
          = ({ state_ready_queue with ready_list := rest }, t) ∧ t = 2 ∧ rest = [3, 4] := by
  have h1 := (next_thread_to_run_takes_head state_idle_runs).1 (by decide!)
  obtain ⟨t, rest, h2, h3, -, -⟩ :=
    (next_thread_to_run_takes_head state_ready_queue).2 (by decide!)
      (by unfold ready_sorted; decide!)
  have h4 : t :: rest = [2, 3, 4] := h2.symm.trans (by decide!)
  refine ⟨?_, t, rest, h2, h3, ?_, ?_⟩
  · rw [h1]; decide!
  · exact (List.cons.inj h4).1
  · exact (List.cons.inj h4).2

/-! ## What thread_unblock writes -/

/-- What `thread_unblock (t)` does to the sleep queue when the valid BLOCKED
thread `t` is still linked in it: read from its head, the sleep queue is cut
behind `t` and goes on with the members that follow `t` in the ready queue, and
`t` stands in both queues. -/
theorem thread_unblock_sleeper (s : State) (t : Nat)
    (ht : is_thread s t = true) (hb : status_of s t = some THREAD_BLOCKED)
    (hsl : t ∈ s.sleep_list) :
    ∃ s', thread_unblock s t = .ok s' ∧
      s'.sleep_list = s.sleep_list.takeWhile (fun e => e != t)
        ++ t :: list_behind (cmp_priority s) t s.ready_list ∧
      t ∈ s'.sleep_list ∧ t ∈ s'.ready_list := by
  refine ⟨_, thread_unblock_ok s t ht hb, ?_, ?_, ?_⟩
  · exact list_relinked_of_mem t _ _ hsl
  · have e : (intr_set_level (set_status (ready_list_insert (intr_disable s) t) t
        THREAD_READY) s.level).sleep_list
        = s.sleep_list.takeWhile (fun e => e != t)
          ++ t :: list_behind (cmp_priority s) t s.ready_list :=
      list_relinked_of_mem t _ _ hsl
    rw [e]
    exact List.mem_append_right _ (List.mem_cons_self _ _)
  · show t ∈ list_insert_ordered (cmp_priority (intr_disable s)) t s.ready_list
    rw [mem_list_insert_ordered]
    exact Or.inl rfl

/-- In a list sorted non-increasing by priority, `list_insert_ordered` with
`cmp_priority` puts the new member behind every member of priority at least
its own and in front of every member of lower priority. -/
theorem list_insert_ordered_split (s : State) (t : Nat) (l : List Nat)
    (hs : List.Sorted (fun a b => priority_of s a ≥ priority_of s b) l) :
    ∃ l1 l2, l = l1 ++ l2 ∧ list_insert_ordered (cmp_priority s) t l = l1 ++ t :: l2 ∧
      (∀ e ∈ l1, priority_of s e ≥ priority_of s t) ∧
      (∀ e ∈ l2, priority_of s e < priority_of s t) := by
  induction l with
  | nil => exact ⟨[], [], rfl, rfl, by simp, by simp⟩
  | cons e es ih =>
    by_cases hlt : priority_of s t > priority_of s e
    · refine ⟨[], e :: es, rfl, ?_, by simp, ?_⟩
      · unfold list_insert_ordered
        rw [if_pos (by simpa [cmp_priority] using hlt)]
        rfl
      · intro x hx
        rcases List.mem_cons.1 hx with rfl | hx
        · exact hlt
        · exact lt_of_le_of_lt (List.rel_of_sorted_cons hs x hx) hlt
    · obtain ⟨l1, l2, h1, h2, h3, h4⟩ := ih (List.Sorted.of_cons hs)
      refine ⟨e :: l1, l2, by rw [h1]; rfl, ?_, ?_, h4⟩
      · rw [list_insert_ordered_skip _ t e es (by simpa [cmp_priority] using hlt), h2]
        rfl
      · intro x hx
        rcases List.mem_cons.1 hx with rfl | hx
        · exact not_lt.1 hlt
        · exact h3 x hx

/-- C15: let the ready queue be sorted non-increasing by priority and `t` a
valid BLOCKED thread.  Then `thread_unblock (t)` returns with `t` READY and the
ready queue `l1 ++ t :: l2`, where `l1 ++ l2` is the queue as it was, every
member of `l1` has priority at least `t->priority` and every member of `l2` a
lower one; no priority changes, and the queue is sorted again. -/
theorem thread_unblock_position (s : State) (t : Nat)
    (hs : ready_sorted s) (ht : is_thread s t = true)
    (hb : status_of s t = some THREAD_BLOCKED) :
    ∃ s' l1 l2, thread_unblock s t = .ok s' ∧ status_of s' t = some THREAD_READY ∧
      s.ready_list = l1 ++ l2 ∧ s'.ready_list = l1 ++ t :: l2 ∧
      (∀ e ∈ l1, priority_of s e ≥ priority_of s t) ∧
      (∀ e ∈ l2, priority_of s e < priority_of s t) ∧
      (∀ a, priority_of s' a = priority_of s a) ∧
      ready_sorted s' := by
  obtain ⟨l1, l2, h1, h2, h3, h4⟩ := list_insert_ordered_split s t s.ready_list hs
  obtain ⟨-, th, hm, -⟩ := (is_thread_iff s t).1 ht
  have hp : ∀ a, priority_of
      (intr_set_level (set_status
        (ready_list_insert (intr_disable s) t)
        t THREAD_READY) s.level) a = priority_of s a := by
    intro a
    by_cases e : a = t
    · subst e
      simp [priority_of, set_status, intr_set_level, intr_disable, hm]
    · simp [priority_of, set_status, intr_set_level, intr_disable, e]
  refine ⟨_, l1, l2, thread_unblock_ok s t ht hb, ?_, h1, h2, h3, h4, hp, ?_⟩
  · simp [status_of, set_status, intr_set_level, intr_disable, hm]
  · unfold ready_sorted at hs ⊢
    have e1 : (fun a b => priority_of (intr_set_level (set_status
        (ready_list_insert (intr_disable s) t)
        t THREAD_READY) s.level) a ≥ priority_of (intr_set_level (set_status
        (ready_list_insert (intr_disable s) t)
        t THREAD_READY) s.level) b) = (fun a b => priority_of s a ≥ priority_of s b) := by
      funext a b
      rw [hp a, hp b]
    rw [e1]
    show List.Sorted _ (list_insert_ordered (cmp_priority s) t s.ready_list)
    rw [h2]
    rw [h1] at hs
    have hs2 := List.pairwise_append.1 hs
    unfold List.Sorted
    rw [List.pairwise_append]
    refine ⟨hs2.1, ?_, ?_⟩
    · rw [List.pairwise_cons]
      exact ⟨fun x hx => le_of_lt (h4 x hx), hs2.2.1⟩
    · intro a ha b hb2
      rcases List.mem_cons.1 hb2 with rfl | hb3
      · exact h3 a ha
      · exact hs2.2.2 a ha b hb3

/-- Witness for C15: in `state_ready_queue` the ready queue is `[2, 3, 4]` with
priorities 30, 20, 10 and thread 5 is BLOCKED with priority 20;
`thread_unblock (5)` leaves the queue `[2, 3, 5, 4]`: thread 5 stands behind
thread 3 of equal priority and in front of thread 4. -/
theorem thread_unblock_position_witness :
    ∃ s', thread_unblock state_ready_queue 5 = .ok s' ∧ s'.ready_list = [2, 3, 5, 4] ∧
      ready_sorted s' := by
  obtain ⟨s', l1, l2, h1, -, -, h2, -, -, -, h3⟩ :=
    thread_unblock_position state_ready_queue 5 (by unfold ready_sorted; decide!)
      (by decide!) (by decide!)
  refine ⟨s', h1, ?_, h3⟩
  have h5 : s' = outcome (thread_unblock state_ready_queue 5) := by
    rw [h1]; rfl
  rw [h5]
  decide!

/-! ## Yielding -/

theorem is_thread_congr (s s' : State) (h : s'.mem = s.mem) (a : Nat) :
    is_thread s' a = is_thread s a := by
  unfold is_thread; rw [h]

theorem thread_current_congr (s s' : State) (h : s'.mem = s.mem)
    (hr : s'.running_thread = s.running_thread) :
    thread_current s' = .ok s'.running_thread ↔ thread_current s = .ok s.running_thread := by
  rw [thread_current_ok_iff, thread_current_ok_iff, hr, is_thread_congr s s' h]
  unfold status_of
  rw [h]

theorem same_aside_trans (s1 s2 s3 : State) (h1 : same_aside s1 s2) (h2 : same_aside s2 s3) :
    same_aside s1 s3 := by
  obtain ⟨a1, a2, a3, a4, a5, a6, a7, a8, a9, a10⟩ := h1
  obtain ⟨b1, b2, b3, b4, b5, b6, b7, b8, b9, b10⟩ := h2
  exact ⟨b1.trans a1, b2.trans a2, b3.trans a3, b4.trans a4, b5.trans a5, b6.trans a6,
    b7.trans a7, b8.trans a8, b9.trans a9, b10.trans a10⟩

/-- The call `thread_yield ()` returns when it is made outside an interrupt handler by
a valid running thread that is not queued for destruction, and the thread to
run next is a valid thread not queued for destruction; the state it returns in
is described member by member (`N` is the thread picked to run). -/
theorem thread_yield_returns (s : State) (N : Nat)
    (hN : N = (next_thread_to_run (thread_yield_enter s s.running_thread)).2)
    (hcur : thread_current s = .ok s.running_thread) (hctx : intr_context s = false)
    (hAd : s.running_thread ∉ s.destruction_req)
    (hn : is_thread s N = true) (hnd : N ∉ s.destruction_req) :
    ∃ s', thread_yield s = .ok s' ∧ s'.running_thread = N ∧
      s'.ready_list = (thread_yield_enter s s.running_thread).ready_list.tail ∧
      s'.destruction_req = [] ∧
      (∀ a, s'.mem a =
        if a ∈ s.destruction_req then none
        else if a = N then (s.mem a).map (fun th => { th with status := THREAD_RUNNING })
        else if a = s.running_thread
          then (s.mem a).map (fun th => { th with status := THREAD_READY })
        else s.mem a) ∧
      s'.level = (if N = s.running_thread then s.level else INTR_OFF) ∧
      s'.thread_ticks = 0 ∧ same_aside s s' := by
  set Y := thread_yield_enter s s.running_thread with hY
  have hYm : Y.mem = s.mem := thread_yield_enter_mem s _
  have hYr : Y.running_thread = s.running_thread := thread_yield_enter_running s _
  have hYd : Y.destruction_req = s.destruction_req := thread_yield_enter_destruction_req s _
  have hcurY : thread_current Y = .ok Y.running_thread :=
    (thread_current_congr s Y hYm hYr).2 hcur
  obtain ⟨s1, hdo, hr1, hrl1, hd1, hm1, hl1, ht1, has1⟩ :=
    do_schedule_returns Y THREAD_READY (thread_yield_enter_level s _) hcurY
      (by rw [hYr, hYd]; exact hAd) (by decide)
      (by rw [← hN, is_thread_congr s Y hYm]; exact hn) (by rw [← hN, hYd]; exact hnd)
  rw [← hN] at hr1 hm1 hd1
  have hd1b : s1.destruction_req = [] := by
    rw [hd1, if_neg]
    rintro ⟨-, h, -⟩
    cases h
  have has : same_aside s s1 := same_aside_trans s Y s1 (thread_yield_enter_aside s _) has1
  have hm1b : ∀ a, s1.mem a =
      if a ∈ s.destruction_req then none
      else if a = N then (s.mem a).map (fun th => { th with status := THREAD_RUNNING })
      else if a = s.running_thread
        then (s.mem a).map (fun th => { th with status := THREAD_READY })
      else s.mem a := by
    intro a
    rw [hm1 a, hYd, hYr, hYm]
  by_cases e : s1.running_thread = s.running_thread
  · refine ⟨intr_set_level s1 s.level, ?_, hr1, hrl1, hd1b, hm1b, ?_, ht1, has⟩
    · rw [thread_yield_ok_iff]
      exact ⟨hcur, hctx, s1, hdo, by rw [if_pos e]⟩
    · rw [if_pos (hr1.symm.trans e)]
      rfl
  · refine ⟨s1, ?_, hr1, hrl1, hd1b, hm1b, ?_, ht1, has⟩
    · rw [thread_yield_ok_iff]
      exact ⟨hcur, hctx, s1, hdo, by rw [if_neg e]⟩
    · rw [if_neg (fun h => e (hr1.trans h))]
      exact hl1

/-! ## The check against the head of the ready queue -/

/-- The thread picked when a thread yields to a ready queue whose head has a
priority above its own is that head. -/
theorem thread_yield_enter_next (s : State) (head : Nat) (rest : List Nat)
    (hl : s.ready_list = head :: rest)
    (hgt : priority_of s head > priority_of s s.running_thread) :
    (next_thread_to_run (thread_yield_enter s s.running_thread)).2 = head ∧
      (thread_yield_enter s s.running_thread).ready_list.tail
        = (if s.running_thread ≠ s.idle_thread
            then list_insert_ordered (cmp_priority s) s.running_thread rest else rest) := by
  rw [next_thread_to_run_snd]
  by_cases hi : s.running_thread = s.idle_thread
  · rw [thread_yield_enter_ready_idle s _ hi, hl, if_neg (not_not.2 hi)]
    exact ⟨rfl, rfl⟩
  · rw [thread_yield_enter_ready s _ hi, hl, if_pos hi,
      list_insert_ordered_skip _ _ head rest
        (by simp only [cmp_priority, decide_eq_false_iff_not]; exact not_lt.2 (le_of_lt hgt))]
    exact ⟨rfl, rfl⟩

/-- C12: `test_max_priority ()` on an empty ready queue returns with the state
unchanged.  On a ready queue with head `head`, called by a valid running
thread: when `head->priority` is not above the running thread's priority it
returns with the state unchanged; when `head->priority` is above it, the call is
`thread_yield ()`, and (made outside an interrupt handler, with neither thread
queued for destruction) it returns with `head` RUNNING and the caller READY,
queued in the ready list unless it is the idle thread. -/
theorem test_max_priority_cases (s : State) :
    (s.ready_list = [] → test_max_priority s = .ok s) ∧
    (∀ head rest, s.ready_list = head :: rest → is_thread s head = true →
      thread_current s = .ok s.running_thread →
      (priority_of s head ≤ priority_of s s.running_thread → test_max_priority s = .ok s) ∧
      (priority_of s head > priority_of s s.running_thread →
        test_max_priority s = thread_yield s ∧
        (intr_context s = false → s.running_thread ∉ s.destruction_req →
          head ∉ s.destruction_req →
          ∃ s', test_max_priority s = .ok s' ∧ s'.running_thread = head ∧
            head ≠ s.running_thread ∧ status_of s' head = some THREAD_RUNNING ∧
            status_of s' s.running_thread = some THREAD_READY ∧
            (s.running_thread ≠ s.idle_thread → s.running_thread ∈ s'.ready_list)))) := by
  constructor
  · intro h
    unfold test_max_priority
    rw [h]
  · intro head rest hl hit hcur
    obtain ⟨-, h, hm, -⟩ := (is_thread_iff s head).1 hit
    have hp : priority_of s head = h.priority := by simp [priority_of, hm]
    have e : test_max_priority s
        = if h.priority > priority_of s s.running_thread then thread_yield s else .ok s := by
      unfold test_max_priority
      rw [hl]
      simp only [hm, hcur]
    constructor
    · intro hle
      rw [e, if_neg (by rw [← hp]; exact not_lt.2 hle)]
    · intro hgt
      have e2 : test_max_priority s = thread_yield s := by
        rw [e, if_pos (by rw [← hp]; exact hgt)]
      refine ⟨e2, ?_⟩
      intro hctx hAd hnd
      obtain ⟨hnext, htail⟩ := thread_yield_enter_next s head rest hl hgt
      obtain ⟨s', hy, hr, hrl, -, hmem, -, -, -⟩ :=
        thread_yield_returns s head hnext.symm hcur hctx hAd hit hnd
      have hne : head ≠ s.running_thread := by
        intro e3
        rw [e3] at hgt
        exact lt_irrefl _ hgt
      obtain ⟨-, -, c, hcm, -, -⟩ := (thread_current_ok s _).1 hcur
      refine ⟨s', e2.trans hy, hr, hne, ?_, ?_, ?_⟩
      · unfold status_of
        rw [hmem, if_neg hnd, if_pos rfl, hm]
        rfl
      · unfold status_of
        rw [hmem, if_neg hAd, if_neg (Ne.symm hne), if_pos rfl, hcm]
        rfl
      · intro hi
        rw [hrl, htail, if_pos hi, mem_list_insert_ordered]
        exact Or.inl rfl

/-- Witness for C12: in `state_ready_queue` thread 1 (priority 31) runs and the
head of the ready queue has priority 30, so `test_max_priority ()` changes
nothing; in `state_low_runs` thread 1 runs with priority 5 and the head of the
ready queue, thread 2, has priority 30, so thread 1 yields to thread 2. -/
theorem test_max_priority_cases_witness :
    test_max_priority state_ready_queue = .ok state_ready_queue ∧
      ∃ s', test_max_priority state_low_runs = .ok s' ∧ s'.running_thread = 2 ∧
        status_of s' 1 = some THREAD_READY ∧ 1 ∈ s'.ready_list := by
  constructor
  · exact ((test_max_priority_cases state_ready_queue).2 2 [3, 4] (by decide!) (by decide!)
      ((thread_current_ok_iff _ _).2 (by decide!))).1 (by decide!)
  · obtain ⟨s', h1, h2, -, -, h3, h4⟩ :=
      (((test_max_priority_cases state_low_runs).2 2 [3] (by decide!) (by decide!)
        ((thread_current_ok_iff _ _).2 (by decide!))).2 (by decide!)).2
        (by decide!) (by decide!) (by decide!)
    exact ⟨s', h1, h2, h3, h4 (by decide!)⟩

/-! ## Recomputing the priority of the running thread -/

/-- A store into the record at `t`, which holds `th`, leaves `f th` there. -/
theorem modify_of_mem (s : State) (t : Nat) (th : thread) (f : thread → thread)
    (h : s.mem t = some th) : modify s t f = store s t (f th) := by
  unfold modify store
  congr 1
  funext a
  by_cases e : a = t
  · subst e; simp [h]
  · simp [e]

@[simp] theorem store_mem (s : State) (t : Nat) (x : thread) (a : Nat) :
    (store s t x).mem a = if a = t then some x else s.mem a := rfl

theorem store_store (s : State) (t : Nat) (x y : thread) :
    store (store s t x) t y = store s t y := by
  unfold store
  dsimp only
  congr 1
  funext a
  by_cases e : a = t
  · simp [e]
  · simp [e]

/-- The function `refresh_priority ()`, called by the valid running thread `H` whose donors
are thread records other than `H`, returns; it writes nothing but the record
of `H`, whose priority becomes the greatest of `H->init_priority` and the
priorities of its donors and whose donor list is rearranged. -/
theorem refresh_priority_spec (s : State) (H : Nat) (h : thread)
    (hcur : thread_current s = .ok H) (hH : s.mem H = some h)
    (hrec : ∀ d ∈ h.donations, ∃ th, s.mem d = some th) (hself : H ∉ h.donations) :
    ∃ D, D.Perm h.donations ∧
      refresh_priority s = .ok (store s H
        { h with priority := max_priority s h.init_priority h.donations, donations := D }) := by
  have hs1 : set_priority s H h.init_priority
      = store s H { h with priority := h.init_priority } := modify_of_mem s H h _ hH
  by_cases hnil : h.donations = []
  · refine ⟨[], by rw [hnil], ?_⟩
    unfold refresh_priority
    simp only [hcur, hH, hnil, if_true]
    rw [hs1]
    have : ({ h with priority := h.init_priority } : thread)
        = { h with priority := max_priority s h.init_priority [], donations := [] } := by
      have e : max_priority s h.init_priority [] = h.init_priority := rfl
      rw [e]
      cases h
      simp only at hnil
      subst hnil
      rfl
    rw [this]
  · set s1 := set_priority s H h.init_priority with hs1d
    have hne : ∀ d ∈ h.donations, d ≠ H := fun d hd e => hself (e ▸ hd)
    have hp1 : ∀ d ∈ h.donations, priority_of s1 d = priority_of s d := by
      intro d hd
      simp [priority_of, hs1, hne d hd]
    cases hsort : list_sort (thread_compare_donate_priority s1) h.donations with
    | nil =>
      exfalso
      have := (list_sort_perm (thread_compare_donate_priority s1) h.donations)
      rw [hsort] at this
      exact hnil (List.Perm.eq_nil this.symm)
    | cons front rest =>
      have hperm : (front :: rest).Perm h.donations := by
        rw [← hsort]; exact list_sort_perm _ _
      have hfR : front ∈ h.donations := hperm.mem_iff.1 (List.mem_cons_self _ _)
      have hfH : front ≠ H := hne front hfR
      obtain ⟨f, hf⟩ := hrec front hfR
      have hfront := list_sort_front s1 h.donations front rest hsort
      have hfp : priority_of s front = f.priority := by simp [priority_of, hf]
      have hmax : ∀ d ∈ h.donations, priority_of s d ≤ f.priority := by
        intro d hd
        have := hfront d hd
        rw [hp1 d hd, hp1 front hfR, hfp] at this
        exact this
      have hs2 : modify s1 H (fun th => { th with donations := front :: rest })
          = store s H { h with priority := h.init_priority, donations := front :: rest } := by
        rw [modify_of_mem s1 H { h with priority := h.init_priority } _ (by simp [hs1]), hs1]
        exact store_store s H _ _
      refine ⟨front :: rest, hperm, ?_⟩
      unfold refresh_priority
      simp only [hcur, hH]
      simp only [← hs1d, hnil, if_false, hsort]
      rw [hs2]
      simp only [store_mem, if_neg hfH, hf]
      have hpH : priority_of
          (store s H { h with priority := h.init_priority, donations := front :: rest }) H
            = h.init_priority := by
        simp [priority_of]
      rw [hpH]
      by_cases hgt : f.priority > h.init_priority
      · rw [if_pos hgt]
        have hmx : f.priority = max_priority s h.init_priority h.donations :=
          eq_max_priority s _ _ _ (le_of_lt hgt) hmax (Or.inr ⟨front, hfR, hfp.symm⟩)
        rw [← hmx]
        unfold set_priority
        rw [modify_of_mem _ H { h with priority := h.init_priority, donations := front :: rest }
          _ (by simp)]
        rw [store_store]
      · rw [if_neg hgt]
        have hmx : h.init_priority = max_priority s h.init_priority h.donations :=
          eq_max_priority s _ _ _ (le_refl _)
            (fun d hd => le_trans (hmax d hd) (not_lt.1 hgt)) (Or.inl rfl)
        rw [← hmx]

/-- Whatever `thread_yield` returns from meets the conditions of
`thread_yield_returns`, so the state it returns in is the one described there. -/
theorem thread_yield_inv (s s' : State) (N : Nat)
    (hN : N = (next_thread_to_run (thread_yield_enter s s.running_thread)).2)
    (h : thread_yield s = .ok s') :
    thread_current s = .ok s.running_thread ∧ intr_context s = false ∧
      s.running_thread ∉ s.destruction_req ∧ is_thread s N = true ∧
      N ∉ s.destruction_req ∧ s'.running_thread = N ∧
      s'.ready_list = (thread_yield_enter s s.running_thread).ready_list.tail ∧
      s'.destruction_req = [] ∧
      (∀ a, s'.mem a =
        if a ∈ s.destruction_req then none
        else if a = N then (s.mem a).map (fun th => { th with status := THREAD_RUNNING })
        else if a = s.running_thread
          then (s.mem a).map (fun th => { th with status := THREAD_READY })
        else s.mem a) ∧
      s'.level = (if N = s.running_thread then s.level else INTR_OFF) ∧
      s'.thread_ticks = 0 ∧ same_aside s s' := by
  obtain ⟨hcur, hctx, s1, hd, -⟩ := (thread_yield_ok_iff s s').1 h
  obtain ⟨-, -, hA, -, hn, hnd, -⟩ := do_schedule_inv _ s1 _ hd
  rw [thread_yield_enter_running, thread_yield_enter_destruction_req] at hA
  rw [← hN, thread_yield_enter_destruction_req] at hnd
  rw [← hN, is_thread_congr s _ (thread_yield_enter_mem s _)] at hn
  obtain ⟨s2, h2, rest⟩ := thread_yield_returns s N hN hcur hctx hA hn hnd
  rw [h] at h2
  cases h2
  exact ⟨hcur, hctx, hA, hn, hnd, rest⟩

/-- A record that `thread_yield` does not free is changed in its status at
most. -/
theorem thread_yield_mem (s s' : State) (h : thread_yield s = .ok s') (a : Nat)
    (ha : a ∉ s.destruction_req) :
    (s'.mem a).map (fun th => { th with status := THREAD_RUNNING })
      = (s.mem a).map (fun th => { th with status := THREAD_RUNNING }) := by
  obtain ⟨-, -, -, -, -, -, -, -, hm, -⟩ := thread_yield_inv s s' _ rfl h
  rw [hm a, if_neg ha]
  split_ifs
  · cases s.mem a <;> rfl
  · cases s.mem a <;> rfl
  · rfl

/-- A record that `test_max_priority` does not free is changed in its status at
most, and the record of the caller is not freed. -/
theorem test_max_priority_mem (s s' : State) (h : test_max_priority s = .ok s') :
    (s' = s ∨ s.running_thread ∉ s.destruction_req) ∧
    ∀ a, s' = s ∨ a ∉ s.destruction_req →
      (s'.mem a).map (fun th => { th with status := THREAD_RUNNING })
        = (s.mem a).map (fun th => { th with status := THREAD_RUNNING }) := by
  unfold test_max_priority at h
  split at h
  · cases h
    exact ⟨Or.inl rfl, fun _ _ => rfl⟩
  · split at h
    · cases h
    · split at h
      · cases h
      · split at h
        · have hy := thread_yield_inv s s' _ rfl h
          refine ⟨Or.inr hy.2.2.1, ?_⟩
          intro a ha
          rcases ha with e | ha
          · rw [e]
          · exact thread_yield_mem s s' h a ha
        · cases h
          exact ⟨Or.inl rfl, fun _ _ => rfl⟩

/-- The call `test_max_priority ()` returns when it is made outside an interrupt handler
by a valid running thread that is not queued for destruction, and the head of
the ready queue (if there is one) is a valid thread not queued for
destruction. -/
theorem test_max_priority_returns (s : State)
    (hcur : thread_current s = .ok s.running_thread) (hctx : intr_context s = false)
    (hAd : s.running_thread ∉ s.destruction_req)
    (hhead : ∀ r ∈ s.ready_list.head?, is_thread s r = true ∧ r ∉ s.destruction_req) :
    ∃ s', test_max_priority s = .ok s' := by
  cases hl : s.ready_list with
  | nil =>
    refine ⟨s, ?_⟩
    unfold test_max_priority
    rw [hl]
  | cons head rest =>
    obtain ⟨hit, hnd⟩ := hhead head (by rw [hl]; rfl)
    obtain ⟨-, h, hm, -⟩ := (is_thread_iff s head).1 hit
    have hp : priority_of s head = h.priority := by simp [priority_of, hm]
    have e : test_max_priority s
        = if h.priority > priority_of s s.running_thread then thread_yield s else .ok s := by
      unfold test_max_priority
      rw [hl]
      simp only [hm, hcur]
    by_cases hgt : h.priority > priority_of s s.running_thread
    · obtain ⟨hnext, -⟩ := thread_yield_enter_next s head rest hl (by rw [hp]; exact hgt)
      obtain ⟨s', hy, -⟩ := thread_yield_returns s head hnext.symm hcur hctx hAd hit hnd
      exact ⟨s', by rw [e, if_pos hgt, hy]⟩
    · exact ⟨s, by rw [e, if_neg hgt]⟩

/-- C11: let the valid running thread `H` have donors that are thread records
other than `H`.  Whenever `thread_set_priority (p)` returns, `H->init_priority`
is `p` and `H->priority` is the greatest of `p` and the donors' priorities:
`p` when there is no donor, and the priority of the highest donor when `p` is
not above it.  The call returns when it is made outside an interrupt handler,
`H` is not queued for destruction and the head of the ready queue is a valid
thread not queued for destruction. -/
theorem thread_set_priority_donation (s : State) (p : Int) (H : Nat) (h : thread)
    (hcur : thread_current s = .ok H) (hH : s.mem H = some h)
    (hrec : ∀ d ∈ h.donations, ∃ th, s.mem d = some th) (hself : H ∉ h.donations) :
    (∀ s', thread_set_priority s p = .ok s' →
      ∃ h', s'.mem H = some h' ∧ h'.init_priority = p ∧
        h'.priority = max_priority s p h.donations ∧
        (h.donations = [] → h'.priority = p) ∧
        (∀ d ∈ h.donations, (∀ e ∈ h.donations, priority_of s e ≤ priority_of s d) →
          p ≤ priority_of s d → h'.priority = priority_of s d) ∧
        h'.donations.Perm h.donations) ∧
    (intr_context s = false → H ∉ s.destruction_req →
      (∀ r ∈ s.ready_list.head?, is_thread s r = true ∧ r ∉ s.destruction_req) →
      ∃ s', thread_set_priority s p = .ok s') := by
  have hHr : H = s.running_thread := ((thread_current_ok s H).1 hcur).1
  obtain ⟨-, hH0, -, -, -, -⟩ := (thread_current_ok s H).1 hcur
  have hs0 : modify s H (fun th => { th with init_priority := p })
      = store s H { h with init_priority := p } := modify_of_mem s H h _ hH
  have hcur0 : thread_current (store s H { h with init_priority := p }) = .ok H := by
    rw [← hs0]
    exact thread_current_modify s H _ H (fun _ => ⟨rfl, rfl⟩) hcur
  have hne : ∀ d ∈ h.donations, d ≠ H := fun d hd e => hself (e ▸ hd)
  obtain ⟨D, hperm, href⟩ := refresh_priority_spec (store s H { h with init_priority := p }) H
    { h with init_priority := p } hcur0 (by simp)
    (by
      intro d hd
      obtain ⟨th, hth⟩ := hrec d hd
      exact ⟨th, by simp [hne d hd, hth]⟩) hself
  have hmp : max_priority (store s H { h with init_priority := p }) p h.donations
      = max_priority s p h.donations := by
    apply max_priority_congr
    intro d hd
    simp [priority_of, hne d hd]
  dsimp only at href
  rw [hmp, store_store] at href
  set M := max_priority s p h.donations with hM
  set s2 := store s H { h with init_priority := p, priority := M, donations := D } with hs2
  have heq : thread_set_priority s p = test_max_priority s2 := by
    unfold thread_set_priority
    simp only [hcur, hs0, href]
  have hm2 : s2.mem H = some { h with init_priority := p, priority := M, donations := D } := by
    simp [hs2]
  constructor
  · intro s' hs'
    rw [heq] at hs'
    obtain ⟨hfree, hmem⟩ := test_max_priority_mem s2 s' hs'
    have hmH := hmem H (hfree.imp id (fun hx => by rw [hHr]; exact hx))
    rw [hm2] at hmH
    cases hx : s'.mem H with
    | none => rw [hx] at hmH; cases hmH
    | some h' =>
      rw [hx] at hmH
      simp only [Option.map_some', Option.some.injEq] at hmH
      have e1 : h'.init_priority = p := congrArg thread.init_priority hmH
      have e2 : h'.priority = M := congrArg thread.priority hmH
      have e3 : h'.donations = D := congrArg thread.donations hmH
      refine ⟨h', rfl, e1, e2, ?_, ?_, by rw [e3]; exact hperm⟩
      · intro hnil
        rw [e2, hM, hnil]
        rfl
      · intro d hd hmax hle
        rw [e2]
        exact (eq_max_priority s p h.donations _ hle hmax (Or.inr ⟨d, hd, rfl⟩)).symm
  · intro hctx hAd hhead
    rw [heq]
    have hmag : ∀ a, is_thread s2 a = is_thread s a := by
      intro a
      unfold is_thread
      by_cases e : a = H
      · subst e
        rw [hm2, hH]
      · simp [hs2, e]
    apply test_max_priority_returns s2
    · rw [thread_current_ok_iff]
      obtain ⟨-, hit, hst⟩ := (thread_current_ok_iff s H).1 hcur
      refine ⟨rfl, ?_, ?_⟩
      · rw [hmag]; exact hHr ▸ hit
      · have : s2.running_thread = H := hHr.symm
        rw [this]
        simp only [status_of, hH, Option.map_some'] at hst
        simp [status_of, hm2]
        exact Option.some.inj hst
    · exact hctx
    · exact hHr ▸ hAd
    · intro r hr
      have := hhead r hr
      rw [hmag]
      exact this

/-- Witness for C11: the holder of `state_two_donors` has base priority 1 and
donors of priority 5 and 3; `thread_set_priority (0)` returns and leaves it
with base priority 0 and priority 5. -/
theorem thread_set_priority_donation_witness :
    ∃ s' h', thread_set_priority state_two_donors 0 = .ok s' ∧ s'.mem 1 = some h' ∧
      h'.init_priority = 0 ∧ h'.priority = 5 := by
  have hrec : ∀ d ∈ [2, 3], ∃ th, state_two_donors.mem d = some th := by
    intro d hd
    simp only [List.mem_cons, List.mem_singleton, List.not_mem_nil, or_false] at hd
    rcases hd with rfl | rfl
    · exact ⟨_, rfl⟩
    · exact ⟨_, rfl⟩
  have T := thread_set_priority_donation state_two_donors 0 1
    { mk_thread 1 THREAD_RUNNING 1 with priority := 5, donations := [2, 3] }
    rfl rfl hrec (by decide)
  obtain ⟨s', hs'⟩ := T.2 (by decide!) (by decide!) (fun r hr => by cases hr)
  obtain ⟨h', a, b, c, -⟩ := T.1 s' hs'
  exact ⟨s', h', hs', a, b, c.trans (by decide!)⟩

/-! ## Going to sleep -/

theorem thread_sleep_enter_level (s : State) (curr : Nat) (ticks : Int) :
    (thread_sleep_enter s curr ticks).level = INTR_OFF := by
  unfold thread_sleep_enter; dsimp only; split_ifs <;> rfl

theorem thread_sleep_enter_ready (s : State) (curr : Nat) (ticks : Int) :
    (thread_sleep_enter s curr ticks).ready_list = s.ready_list := by
  unfold thread_sleep_enter; dsimp only; split_ifs <;> rfl

theorem thread_sleep_enter_sleep_list (s : State) (curr : Nat) (ticks : Int) :
    (thread_sleep_enter s curr ticks).sleep_list
      = if curr ≠ s.idle_thread then s.sleep_list ++ [curr] else s.sleep_list := by
  unfold thread_sleep_enter; dsimp only
  have e : (modify (intr_disable s) curr fun th => { th with wakeup_tick := ticks }).idle_thread
      = s.idle_thread := rfl
  rw [e]
  split_ifs <;> rfl

theorem thread_sleep_enter_next_tick (s : State) (curr : Nat) (ticks : Int) :
    (thread_sleep_enter s curr ticks).next_tick_to_awake = MIN s.next_tick_to_awake ticks := by
  unfold thread_sleep_enter; dsimp only; split_ifs <;> rfl

theorem thread_sleep_enter_fields (s : State) (curr : Nat) (ticks : Int) :
    (thread_sleep_enter s curr ticks).lock_holder = s.lock_holder ∧
      (thread_sleep_enter s curr ticks).idle_thread = s.idle_thread ∧
      (thread_sleep_enter s curr ticks).initial_thread = s.initial_thread ∧
      (thread_sleep_enter s curr ticks).next_tid = s.next_tid ∧
      (thread_sleep_enter s curr ticks).in_external_intr = s.in_external_intr ∧
      (thread_sleep_enter s curr ticks).yield_on_return = s.yield_on_return ∧
      (thread_sleep_enter s curr ticks).idle_ticks = s.idle_ticks ∧
      (thread_sleep_enter s curr ticks).kernel_ticks = s.kernel_ticks := by
  unfold thread_sleep_enter; dsimp only
  split_ifs <;> exact ⟨rfl, rfl, rfl, rfl, rfl, rfl, rfl, rfl⟩

theorem thread_sleep_enter_current (s : State) (ticks : Int)
    (h : thread_current s = .ok s.running_thread) :
    thread_current (thread_sleep_enter s s.running_thread ticks)
      = .ok (thread_sleep_enter s s.running_thread ticks).running_thread := by
  have h2 := thread_current_modify s s.running_thread
    (fun th => { th with wakeup_tick := ticks }) _ (fun _ => ⟨rfl, rfl⟩) h
  rw [thread_current_ok_iff] at h2 ⊢
  rw [thread_sleep_enter_running]
  refine ⟨rfl, ?_, ?_⟩
  · have := h2.2.1
    unfold is_thread at this ⊢
    rw [thread_sleep_enter_mem]
    exact this
  · have := h2.2.2
    unfold status_of at this ⊢
    rw [thread_sleep_enter_mem]
    exact this

theorem thread_sleep_enter_is_thread (s : State) (curr : Nat) (ticks : Int) (a : Nat) :
    is_thread (thread_sleep_enter s curr ticks) a = is_thread s a := by
  unfold is_thread
  rw [thread_sleep_enter_mem, modify_mem]
  by_cases e : a = curr
  · rw [if_pos e]
    cases s.mem a <;> rfl
  · rw [if_neg e]

/-- The call `thread_sleep (ticks)` returns when it is made outside an interrupt
handler by a valid running thread that is not queued for destruction, and the
thread to run next is a valid thread not queued for destruction; the state it
returns in is described member by member (`N` is the thread picked to run). -/
theorem thread_sleep_returns (s : State) (ticks : Int) (N : Nat)
    (hN : N = (next_thread_to_run s).2)
    (hcur : thread_current s = .ok s.running_thread) (hctx : intr_context s = false)
    (hAd : s.running_thread ∉ s.destruction_req)
    (hn : is_thread s N = true) (hnd : N ∉ s.destruction_req) :
    ∃ s', thread_sleep s ticks = .ok s' ∧ s'.running_thread = N ∧
      s'.ready_list = s.ready_list.tail ∧ s'.destruction_req = [] ∧
      (∀ a, s'.mem a =
        if a ∈ s.destruction_req then none
        else if a = N then
          ((modify s s.running_thread (fun th => { th with wakeup_tick := ticks })).mem a).map
            (fun th => { th with status := THREAD_RUNNING })
        else if a = s.running_thread then
          (s.mem a).map (fun th => { th with wakeup_tick := ticks, status := THREAD_BLOCKED })
        else s.mem a) ∧
      s'.sleep_list = (if s.running_thread ≠ s.idle_thread
        then s.sleep_list ++ [s.running_thread] else s.sleep_list) ∧
      s'.next_tick_to_awake = MIN s.next_tick_to_awake ticks ∧
      s'.level = (if N = s.running_thread then s.level else INTR_OFF) ∧
      s'.thread_ticks = 0 := by
  set Y := thread_sleep_enter s s.running_thread ticks with hY
  have hYm : Y.mem = (modify s s.running_thread (fun th => { th with wakeup_tick := ticks })).mem :=
    thread_sleep_enter_mem s _ _
  have hYr : Y.running_thread = s.running_thread := thread_sleep_enter_running s _ _
  have hYd : Y.destruction_req = s.destruction_req := thread_sleep_enter_destruction_req s _ _
  have hYn : (next_thread_to_run Y).2 = N := by
    rw [hN, next_thread_to_run_snd, next_thread_to_run_snd, hY, thread_sleep_enter_ready,
      (thread_sleep_enter_fields s _ _).2.1]
  obtain ⟨s1, hdo, hr1, hrl1, hd1, hm1, hl1, ht1, has1⟩ :=
    do_schedule_returns Y THREAD_BLOCKED (thread_sleep_enter_level s _ _)
      (thread_sleep_enter_current s ticks hcur)
      (by rw [hYr, hYd]; exact hAd) (by decide)
      (by rw [hYn, hY, thread_sleep_enter_is_thread]; exact hn) (by rw [hYn, hYd]; exact hnd)
  rw [hYn] at hr1 hm1 hd1
  have hd1b : s1.destruction_req = [] := by
    rw [hd1, if_neg]
    rintro ⟨-, h, -⟩
    cases h
  have hm1b : ∀ a, s1.mem a =
      if a ∈ s.destruction_req then none
      else if a = N then
        ((modify s s.running_thread (fun th => { th with wakeup_tick := ticks })).mem a).map
          (fun th => { th with status := THREAD_RUNNING })
      else if a = s.running_thread then
        (s.mem a).map (fun th => { th with wakeup_tick := ticks, status := THREAD_BLOCKED })
      else s.mem a := by
    intro a
    rw [hm1 a, hYd, hYr, hYm]
    by_cases e1 : a ∈ s.destruction_req
    · rw [if_pos e1, if_pos e1]
    · rw [if_neg e1, if_neg e1]
      by_cases e2 : a = N
      · rw [if_pos e2, if_pos e2]
      · rw [if_neg e2, if_neg e2]
        by_cases e3 : a = s.running_thread
        · rw [if_pos e3, if_pos e3, modify_mem, if_pos e3]
          cases s.mem a <;> rfl
        · rw [if_neg e3, if_neg e3, modify_mem, if_neg e3]
  have hsl : s1.sleep_list = (if s.running_thread ≠ s.idle_thread
      then s.sleep_list ++ [s.running_thread] else s.sleep_list) := by
    rw [has1.2.1, hY, thread_sleep_enter_sleep_list]
  have hnt : s1.next_tick_to_awake = MIN s.next_tick_to_awake ticks := by
    rw [has1.2.2.1, hY, thread_sleep_enter_next_tick]
  have hrl1b : s1.ready_list = s.ready_list.tail := by
    rw [hrl1, hY, thread_sleep_enter_ready]
  by_cases e : s1.running_thread = s.running_thread
  · refine ⟨intr_set_level s1 s.level, ?_, hr1, hrl1b, hd1b, hm1b, hsl, hnt, ?_, ht1⟩
    · rw [thread_sleep_ok_iff]
      exact ⟨hcur, hctx, s1, hdo, by rw [if_pos e]⟩
    · rw [if_pos (hr1.symm.trans e)]
      rfl
  · refine ⟨s1, ?_, hr1, hrl1b, hd1b, hm1b, hsl, hnt, ?_, ht1⟩
    · rw [thread_sleep_ok_iff]
      exact ⟨hcur, hctx, s1, hdo, by rw [if_neg e]⟩
    · rw [if_neg (fun h => e (hr1.trans h))]
      exact hl1

/-- Whatever `thread_sleep` returns from meets the conditions of
`thread_sleep_returns`. -/
theorem thread_sleep_inv (s s' : State) (ticks : Int) (N : Nat)
    (hN : N = (next_thread_to_run s).2) (h : thread_sleep s ticks = .ok s') :
    thread_current s = .ok s.running_thread ∧ intr_context s = false ∧
      s.running_thread ∉ s.destruction_req ∧ is_thread s N = true ∧
      N ∉ s.destruction_req := by
  obtain ⟨hcur, hctx, s1, hd, -⟩ := (thread_sleep_ok_iff s s' ticks).1 h
  obtain ⟨-, -, hA, -, hn, hnd, -⟩ := do_schedule_inv _ s1 _ hd
  have hYn : (next_thread_to_run (thread_sleep_enter s s.running_thread ticks)).2 = N := by
    rw [hN, next_thread_to_run_snd, next_thread_to_run_snd, thread_sleep_enter_ready,
      (thread_sleep_enter_fields s _ _).2.1]
  rw [thread_sleep_enter_running, thread_sleep_enter_destruction_req] at hA
  rw [hYn, thread_sleep_enter_destruction_req] at hnd
  rw [hYn, thread_sleep_enter_is_thread] at hn
  exact ⟨hcur, hctx, hA, hn, hnd⟩

theorem MIN_eq_min (a b : Int) : MIN a b = min a b := by
  unfold MIN
  by_cases h : a < b
  · rw [if_pos h, min_eq_left (le_of_lt h)]
  · rw [if_neg h, min_eq_right (not_lt.1 h)]

/-- C13: let `X` be the valid running thread, not the idle thread and not in the
ready queue.  Whenever `thread_sleep (t)` returns (in the state at the switch
to the next thread), `X` is BLOCKED with `wakeup_tick = t`, it is the last
member of the sleep queue, it is not in the ready queue, another thread runs,
and `next_tick_to_awake` is the minimum of its previous value and `t`.  The
call returns when it is made outside an interrupt handler, `X` is not queued
for destruction and the thread to run next (the head of the ready queue, or
the idle thread when the queue is empty) is a valid thread not queued for
destruction. -/
theorem thread_sleep_blocks_caller (s : State) (t : Int) (X : Nat)
    (hcur : thread_current s = .ok X) (hidle : X ≠ s.idle_thread)
    (hXr : X ∉ s.ready_list) :
    (∀ s', thread_sleep s t = .ok s' →
      status_of s' X = some THREAD_BLOCKED ∧ wakeup_of s' X = t ∧
      s'.sleep_list = s.sleep_list ++ [X] ∧ s'.sleep_list.getLast? = some X ∧
      X ∉ s'.ready_list ∧ s'.running_thread ≠ X ∧
      s'.next_tick_to_awake = min s.next_tick_to_awake t) ∧
    (intr_context s = false → X ∉ s.destruction_req →
      is_thread s (s.ready_list.headD s.idle_thread) = true →
      s.ready_list.headD s.idle_thread ∉ s.destruction_req →
      ∃ s', thread_sleep s t = .ok s') := by
  obtain ⟨hXe, -, c, hcm, -, -⟩ := (thread_current_ok s X).1 hcur
  subst hXe
  have hNX : (next_thread_to_run s).2 ≠ s.running_thread := by
    rw [next_thread_to_run_snd]
    cases hl : s.ready_list with
    | nil => exact fun e => hidle e.symm
    | cons r rest =>
      intro e
      apply hXr
      rw [hl]
      exact e ▸ List.mem_cons_self _ _
  constructor
  · intro s' h
    obtain ⟨-, hctx, hAd, hn, hnd⟩ := thread_sleep_inv s s' t _ rfl h
    obtain ⟨s2, h2, hr, hrl, -, hm, hsl, hnt, -, -⟩ :=
      thread_sleep_returns s t _ rfl hcur hctx hAd hn hnd
    rw [h] at h2
    cases h2
    have hmX : s'.mem s.running_thread
        = some { c with wakeup_tick := t, status := THREAD_BLOCKED } := by
      rw [hm, if_neg hAd, if_neg (Ne.symm hNX), if_pos rfl, hcm]
      rfl
    rw [if_pos hidle] at hsl
    refine ⟨?_, ?_, hsl, ?_, ?_, ?_, ?_⟩
    · simp [status_of, hmX]
    · simp [wakeup_of, hmX]
    · rw [hsl]; simp
    · rw [hrl]
      exact fun hx => hXr (List.mem_of_mem_tail hx)
    · rw [hr]; exact hNX
    · rw [hnt, MIN_eq_min]
  · intro hctx hAd hn hnd
    rw [← next_thread_to_run_snd] at hn hnd
    obtain ⟨s', h, -⟩ := thread_sleep_returns s t _ rfl hcur hctx hAd hn hnd
    exact ⟨s', h⟩

/-- Witness for C13: in `state_ready_queue` thread 1 runs and `next_tick_to_awake`
is `INT64_MAX`; `thread_sleep (7)` returns with thread 1 BLOCKED, due at tick 7,
alone in the sleep queue, and the earliest-wake value 7. -/
theorem thread_sleep_blocks_caller_witness :
    ∃ s', thread_sleep state_ready_queue 7 = .ok s' ∧
      status_of s' 1 = some THREAD_BLOCKED ∧ wakeup_of s' 1 = 7 ∧ s'.sleep_list = [1] ∧
      1 ∉ s'.ready_list ∧ s'.next_tick_to_awake = 7 := by
  have T := thread_sleep_blocks_caller state_ready_queue 7 1 rfl (by decide!) (by decide!)
  obtain ⟨s', hs'⟩ := T.2 (by decide!) (by decide!) (by decide!) (by decide!)
  obtain ⟨a, b, c, -, d, -, e⟩ := T.1 s' hs'
  exact ⟨s', hs', a, b, c.trans (by decide!), d, e.trans (by decide!)⟩

/-! ## When the calls into the scheduler core return -/

theorem thread_yield_returns_iff (s : State) :
    (∃ s', thread_yield s = .ok s') ↔
      (thread_current s = .ok s.running_thread ∧ intr_context s = false ∧
        s.running_thread ∉ s.destruction_req ∧
        is_thread s (next_thread_to_run (thread_yield_enter s s.running_thread)).2 = true ∧
        (next_thread_to_run (thread_yield_enter s s.running_thread)).2 ∉ s.destruction_req) := by
  constructor
  · rintro ⟨s', h⟩
    obtain ⟨a, b, c, d, e, -⟩ := thread_yield_inv s s' _ rfl h
    exact ⟨a, b, c, d, e⟩
  · rintro ⟨a, b, c, d, e⟩
    obtain ⟨s', h, -⟩ := thread_yield_returns s _ rfl a b c d e
    exact ⟨s', h⟩

theorem thread_sleep_returns_iff (s : State) (ticks : Int) :
    (∃ s', thread_sleep s ticks = .ok s') ↔
      (thread_current s = .ok s.running_thread ∧ intr_context s = false ∧
        s.running_thread ∉ s.destruction_req ∧
        is_thread s (next_thread_to_run s).2 = true ∧
        (next_thread_to_run s).2 ∉ s.destruction_req) := by
  constructor
  · rintro ⟨s', h⟩
    exact thread_sleep_inv s s' ticks _ rfl h
  · rintro ⟨a, b, c, d, e⟩
    obtain ⟨s', h, -⟩ := thread_sleep_returns s ticks _ rfl a b c d e
    exact ⟨s', h⟩

/-- The call `thread_exit ()` gets through (another thread is switched to) exactly when
it is made outside an interrupt handler by a valid running thread that is not
queued for destruction, and the thread to run next is another valid thread,
not queued for destruction. -/
theorem thread_exit_returns_iff (s : State) :
    (∃ s', thread_exit s = .ok s') ↔
      (thread_current s = .ok s.running_thread ∧ intr_context s = false ∧
        s.running_thread ∉ s.destruction_req ∧
        is_thread s (next_thread_to_run s).2 = true ∧
        (next_thread_to_run s).2 ∉ s.destruction_req ∧
        (next_thread_to_run s).2 ≠ s.running_thread) := by
  have e1 : thread_current (intr_disable s) = .ok (intr_disable s).running_thread ↔
      thread_current s = .ok s.running_thread := thread_current_congr s (intr_disable s) rfl rfl
  have e2 : (next_thread_to_run (intr_disable s)).2 = (next_thread_to_run s).2 := by
    rw [next_thread_to_run_snd, next_thread_to_run_snd]; rfl
  have e3 : ∀ a, is_thread (intr_disable s) a = is_thread s a := fun _ => rfl
  have e4 : (intr_disable s).destruction_req = s.destruction_req := rfl
  have e5 : (intr_disable s).running_thread = s.running_thread := rfl
  constructor
  · rintro ⟨s', h⟩
    obtain ⟨hctx, hd, hne⟩ := (thread_exit_ok_iff s s').1 h
    obtain ⟨-, hc, hA, -, hn, hnd, hr, -⟩ := do_schedule_inv _ s' _ hd
    rw [e1] at hc
    rw [e4, e5] at hA
    rw [e2, e3] at hn
    rw [e2, e4] at hnd
    rw [e2] at hr
    exact ⟨hc, hctx, hA, hn, hnd, hr ▸ hne⟩
  · rintro ⟨hc, hctx, hA, hn, hnd, hne⟩
    obtain ⟨s', hd, hr, -⟩ := do_schedule_returns (intr_disable s) THREAD_DYING rfl
      (e1.2 hc) (by rw [e4, e5]; exact hA) (by decide)
      (by rw [e2, e3]; exact hn) (by rw [e2, e4]; exact hnd)
    refine ⟨s', (thread_exit_ok_iff s s').2 ⟨hctx, hd, ?_⟩⟩
    rw [hr, e2]
    exact hne

theorem thread_block_ok_iff (s s' : State) :
    thread_block s = .ok s' ↔
      (intr_context s = false ∧ s.level = INTR_OFF ∧
        thread_current s = .ok s.running_thread ∧
        schedule (set_status s s.running_thread THREAD_BLOCKED) = .ok s') := by
  unfold thread_block
  by_cases h1 : intr_context s = true
  · rw [if_pos h1]
    constructor
    · intro h; cases h
    · rintro ⟨h, -⟩; rw [h1] at h; cases h
  · rw [if_neg h1]
    have h1f : intr_context s = false := by simpa using h1
    by_cases h2 : s.level = INTR_OFF
    · rw [if_neg (not_not.2 h2)]
      cases h3 : thread_current s with
      | error e =>
        constructor
        · intro h; cases h
        · rintro ⟨-, -, h, -⟩; cases h
      | ok t =>
        have ht : t = s.running_thread := ((thread_current_ok s t).1 h3).1
        subst ht
        dsimp only
        constructor
        · intro h; exact ⟨h1f, h2, rfl, h⟩
        · rintro ⟨-, -, -, h⟩; exact h
    · rw [if_pos h2]
      constructor
      · intro h; cases h
      · rintro ⟨-, h, -⟩; exact absurd h h2

/-- The call `thread_block ()` returns (in the state at the switch) exactly when it is
made outside an interrupt handler, with interrupts off, by a valid running
thread, and the thread to run next is a valid thread. -/
theorem thread_block_returns_iff (s : State) :
    (∃ s', thread_block s = .ok s') ↔
      (intr_context s = false ∧ s.level = INTR_OFF ∧
        thread_current s = .ok s.running_thread ∧
        is_thread s (next_thread_to_run s).2 = true) := by
  have hit : ∀ a, is_thread (set_status s s.running_thread THREAD_BLOCKED) a = is_thread s a := by
    intro a
    unfold is_thread set_status
    rw [modify_mem]
    by_cases e : a = s.running_thread
    · rw [if_pos e]; cases s.mem a <;> rfl
    · rw [if_neg e]
  have hnx : (next_thread_to_run (set_status s s.running_thread THREAD_BLOCKED)).2
      = (next_thread_to_run s).2 := by
    rw [next_thread_to_run_snd, next_thread_to_run_snd]; rfl
  constructor
  · rintro ⟨s', h⟩
    obtain ⟨a, b, c, d⟩ := (thread_block_ok_iff s s').1 h
    obtain ⟨-, -, hn, -⟩ := (schedule_ok_iff _ s').1 d
    rw [hnx, hit] at hn
    exact ⟨a, b, c, hn⟩
  · rintro ⟨a, b, c, d⟩
    obtain ⟨-, -, th, hm, -, -⟩ := (thread_current_ok s _).1 c
    refine ⟨_, (thread_block_ok_iff s _).2 ⟨a, b, c, (schedule_ok_iff _ _).2 ⟨b, ?_, ?_, rfl⟩⟩⟩
    · refine ⟨{ th with status := THREAD_BLOCKED }, ?_, by simp⟩
      simp [set_status, hm]
    · rw [hnx, hit]; exact d

/-! ## The interrupt level on the paths into the scheduler core -/

/-- C17: `thread_yield`, `thread_sleep` and `thread_exit` hand to `do_schedule`
a state with interrupts off, whatever the level they were called at, and from
a state with interrupts off `do_schedule` reaches the assertion of `schedule`
with interrupts off.  So whether these calls return does not depend on the
caller's interrupt level: each returns exactly under conditions on the threads
involved (made outside an interrupt handler by a valid running thread not
queued for destruction, with a valid next thread not queued for destruction),
and returns at level `l` exactly when it returns at the level of `s`.
`thread_block` stops at its entry assertions when called inside an interrupt
handler or with interrupts on, and otherwise passes them and goes on to
`thread_current` and `schedule`; called by a valid running thread with a valid
next thread, it returns exactly when it is called outside an interrupt handler
with interrupts off. -/
theorem intr_off_on_scheduler_paths (s : State) :
    (∀ curr ticks, (thread_yield_enter s curr).level = INTR_OFF ∧
      (thread_sleep_enter s curr ticks).level = INTR_OFF ∧
      (intr_disable s).level = INTR_OFF) ∧
    (∀ (x : State) (t : Nat) (st : thread_status), x.level = INTR_OFF →
      (next_thread_to_run (set_status (free_destruction_req x) t st)).1.level = INTR_OFF) ∧
    ((∃ s', thread_yield s = .ok s') ↔
      (thread_current s = .ok s.running_thread ∧ intr_context s = false ∧
        s.running_thread ∉ s.destruction_req ∧
        is_thread s (next_thread_to_run (thread_yield_enter s s.running_thread)).2 = true ∧
        (next_thread_to_run (thread_yield_enter s s.running_thread)).2
          ∉ s.destruction_req)) ∧
    (∀ ticks, (∃ s', thread_sleep s ticks = .ok s') ↔
      (thread_current s = .ok s.running_thread ∧ intr_context s = false ∧
        s.running_thread ∉ s.destruction_req ∧
        is_thread s (next_thread_to_run s).2 = true ∧
        (next_thread_to_run s).2 ∉ s.destruction_req)) ∧
    ((∃ s', thread_exit s = .ok s') ↔
      (thread_current s = .ok s.running_thread ∧ intr_context s = false ∧
        s.running_thread ∉ s.destruction_req ∧
        is_thread s (next_thread_to_run s).2 = true ∧
        (next_thread_to_run s).2 ∉ s.destruction_req ∧
        (next_thread_to_run s).2 ≠ s.running_thread)) ∧
    (∀ l ticks,
      ((∃ s', thread_yield { s with level := l } = .ok s') ↔ ∃ s', thread_yield s = .ok s') ∧
      ((∃ s', thread_sleep { s with level := l } ticks = .ok s') ↔
        ∃ s', thread_sleep s ticks = .ok s') ∧
      ((∃ s', thread_exit { s with level := l } = .ok s') ↔ ∃ s', thread_exit s = .ok s')) ∧
    (intr_context s = true ∨ s.level ≠ INTR_OFF → thread_block s = .error s) ∧
    (intr_context s = false → s.level = INTR_OFF →
      thread_block s = match thread_current s with
        | .error e => .error e
        | .ok t => schedule (set_status s t THREAD_BLOCKED)) ∧
    (thread_current s = .ok s.running_thread → is_thread s (next_thread_to_run s).2 = true →
      ((∃ s', thread_block s = .ok s') ↔ (intr_context s = false ∧ s.level = INTR_OFF))) := by
  refine ⟨fun curr ticks => ⟨thread_yield_enter_level s curr,
      thread_sleep_enter_level s curr ticks, rfl⟩, ?_, thread_yield_returns_iff s,
    thread_sleep_returns_iff s, thread_exit_returns_iff s, ?_, ?_, ?_, ?_⟩
  · intro x t st hx
    have : (next_thread_to_run (set_status (free_destruction_req x) t st)).1.level = x.level := by
      unfold next_thread_to_run
      cases (set_status (free_destruction_req x) t st).ready_list <;> rfl
    rw [this, hx]
  · intro l ticks
    have hc : thread_current { s with level := l } = .ok ({ s with level := l } : State).running_thread
        ↔ thread_current s = .ok s.running_thread :=
      thread_current_congr s { s with level := l } rfl rfl
    have hy : thread_yield_enter { s with level := l } s.running_thread
        = thread_yield_enter s s.running_thread := rfl
    have hn : (next_thread_to_run { s with level := l }).2 = (next_thread_to_run s).2 := by
      rw [next_thread_to_run_snd, next_thread_to_run_snd]
    have hi : ∀ a, is_thread { s with level := l } a = is_thread s a := fun _ => rfl
    refine ⟨?_, ?_, ?_⟩
    · rw [thread_yield_returns_iff, thread_yield_returns_iff, hc]
      show (_ ∧ _ ∧ _ ∧ is_thread _ (next_thread_to_run
        (thread_yield_enter { s with level := l } s.running_thread)).2 = true ∧
        (next_thread_to_run (thread_yield_enter { s with level := l } s.running_thread)).2
          ∉ s.destruction_req) ↔ _
      rw [hy, hi]
      rfl
    · rw [thread_sleep_returns_iff, thread_sleep_returns_iff, hc, hn, hi]
      rfl
    · rw [thread_exit_returns_iff, thread_exit_returns_iff, hc, hn, hi]
      rfl
  · intro h
    unfold thread_block
    by_cases h1 : intr_context s = true
    · rw [if_pos h1]
    · rw [if_neg h1]
      rcases h with h | h
      · exact absurd h h1
      · rw [if_pos h]
  · intro h1 h2
    unfold thread_block
    rw [if_neg (by rw [h1]; simp), if_neg (not_not.2 h2)]
  · intro hc hn
    rw [thread_block_returns_iff]
    constructor
    · rintro ⟨a, b, -, -⟩; exact ⟨a, b⟩
    · rintro ⟨a, b⟩; exact ⟨a, b, hc, hn⟩

/-- Witness for C17: from `state_ready_queue` with interrupts on, `thread_yield ()`
returns; `thread_block ()` returns when called with interrupts off and stops at
its assertion when called with interrupts on. -/
theorem intr_off_on_scheduler_paths_witness :
    (∃ s', thread_yield { state_ready_queue with level := INTR_ON } = .ok s') ∧
      (∃ s', thread_block state_ready_queue = .ok s') ∧
      thread_block { state_ready_queue with level := INTR_ON }
        = .error { state_ready_queue with level := INTR_ON } ∧
      (next_thread_to_run
        (set_status (free_destruction_req state_ready_queue) 1 THREAD_READY)).1.level
          = INTR_OFF := by
  obtain ⟨-, hs, hy, -, -, hl, -, -, hb⟩ := intr_off_on_scheduler_paths state_ready_queue
  refine ⟨?_, ?_, ?_, hs state_ready_queue 1 THREAD_READY (by decide!)⟩
  · exact (hl INTR_ON 0).1.2 (hy.2 ⟨(thread_current_ok_iff _ _).2 (by decide!), by decide!,
      by decide!, by decide!, by decide!⟩)
  · exact (hb ((thread_current_ok_iff _ _).2 (by decide!)) (by decide!)).2
      ⟨by decide!, by decide!⟩
  · exact (intr_off_on_scheduler_paths { state_ready_queue with level := INTR_ON }).2.2.2.2.2.2.1
      (Or.inr (by decide!))

/-! ## The time slice -/

/-- One call of `thread_tick` by the timer interrupt handler: the counter is
incremented as a 32-bit unsigned, and a yield on return is requested exactly
when the counter then is at least `TIME_SLICE`. -/
theorem thread_tick_spec (s : State) (hcur : thread_current s = .ok s.running_thread)
    (hctx : s.in_external_intr = true) :
    ∃ s', thread_tick s = .ok s' ∧ s'.thread_ticks = (s.thread_ticks + 1) % 2 ^ 32 ∧
      (s'.yield_on_return = true ↔
        (s.yield_on_return = true ∨ (s.thread_ticks + 1) % 2 ^ 32 ≥ TIME_SLICE)) ∧
      s'.mem = s.mem ∧ s'.running_thread = s.running_thread ∧
      s'.in_external_intr = true := by
  have key : ∀ X : State, X.mem = s.mem → X.running_thread = s.running_thread →
      X.in_external_intr = true → X.yield_on_return = s.yield_on_return →
      X.thread_ticks = (s.thread_ticks + 1) % 2 ^ 32 →
      ∃ s', (if (s.thread_ticks + 1) % 2 ^ 32 ≥ TIME_SLICE then intr_yield_on_return X
          else .ok X) = .ok s' ∧
        s'.thread_ticks = (s.thread_ticks + 1) % 2 ^ 32 ∧
        (s'.yield_on_return = true ↔
          (s.yield_on_return = true ∨ (s.thread_ticks + 1) % 2 ^ 32 ≥ TIME_SLICE)) ∧
        s'.mem = s.mem ∧ s'.running_thread = s.running_thread ∧
        s'.in_external_intr = true := by
    intro X hm hr hx hy ht
    by_cases hge : (s.thread_ticks + 1) % 2 ^ 32 ≥ TIME_SLICE
    · rw [if_pos hge]
      have hi : intr_yield_on_return X = .ok { X with yield_on_return := true } := by
        unfold intr_yield_on_return
        rw [if_neg]
        unfold intr_context
        simp [hx]
      rw [hi]
      refine ⟨_, rfl, ht, ?_, hm, hr, hx⟩
      constructor
      · intro _; exact Or.inr hge
      · intro _; rfl
    · rw [if_neg hge]
      refine ⟨X, rfl, ht, ?_, hm, hr, hx⟩
      rw [hy]
      constructor
      · intro h; exact Or.inl h
      · rintro (h | h)
        · exact h
        · exact absurd h hge
  by_cases e : s.running_thread = s.idle_thread
  · have h1 : thread_tick s
        = (if (s.thread_ticks + 1) % 2 ^ 32 ≥ TIME_SLICE
            then intr_yield_on_return
              { s with idle_ticks := s.idle_ticks + 1,
                       thread_ticks := (s.thread_ticks + 1) % 2 ^ 32 }
            else .ok { s with idle_ticks := s.idle_ticks + 1,
                              thread_ticks := (s.thread_ticks + 1) % 2 ^ 32 }) := by
      unfold thread_tick
      rw [hcur]
      dsimp only
      rw [if_pos e]
    rw [h1]
    exact key _ rfl rfl hctx rfl rfl
  · have h1 : thread_tick s
        = (if (s.thread_ticks + 1) % 2 ^ 32 ≥ TIME_SLICE
            then intr_yield_on_return
              { s with kernel_ticks := s.kernel_ticks + 1,
                       thread_ticks := (s.thread_ticks + 1) % 2 ^ 32 }
            else .ok { s with kernel_ticks := s.kernel_ticks + 1,
                              thread_ticks := (s.thread_ticks + 1) % 2 ^ 32 }) := by
      unfold thread_tick
      rw [hcur]
      dsimp only
      rw [if_neg e]
    rw [h1]
    exact key _ rfl rfl hctx rfl rfl

/-- After `k` calls of `thread_tick` in a row by the timer interrupt handler the
counter has advanced by `k`, as a 32-bit unsigned. -/
theorem thread_tick_run (E : Env) (k : Nat) :
    ∀ s : State, thread_current s = .ok s.running_thread → s.in_external_intr = true →
      s.thread_ticks < 2 ^ 32 →
      ∃ s', run E s (List.replicate k Op.thread_tick) = .ok s' ∧
        s'.thread_ticks = (s.thread_ticks + k) % 2 ^ 32 ∧
        thread_current s' = .ok s'.running_thread ∧ s'.in_external_intr = true := by
  induction k with
  | zero =>
    intro s hcur hctx hlt
    exact ⟨s, rfl, by rw [Nat.add_zero, Nat.mod_eq_of_lt hlt], hcur, hctx⟩
  | succ k ih =>
    intro s hcur hctx hlt
    obtain ⟨s1, h1, ht1, -, hm1, hr1, hx1⟩ := thread_tick_spec s hcur hctx
    obtain ⟨s2, h2, ht2, hc2, hx2⟩ := ih s1 ((thread_current_congr s s1 hm1 hr1).2 hcur) hx1
      (by rw [ht1]; exact Nat.mod_lt _ (by norm_num))
    refine ⟨s2, ?_, ?_, hc2, hx2⟩
    · rw [List.replicate_succ]
      unfold run
      rw [if_pos (show admissible s Op.thread_tick from trivial)]
      have : step E s Op.thread_tick = thread_tick s := rfl
      rw [this, h1]
      exact h2
    · rw [ht2, ht1]
      omega

/-- The call of `thread_tick` that follows `k` calls since the counter was reset: with
the request flag cleared before it, the flag is set after it exactly when
`(k + 1) mod 2^32` is at least `TIME_SLICE`. -/
theorem thread_tick_kth (E : Env) (s : State) (k : Nat)
    (hcur : thread_current s = .ok s.running_thread) (hctx : s.in_external_intr = true)
    (h0 : s.thread_ticks = 0) :
    ∃ s1 s2, run E s (List.replicate k Op.thread_tick) = .ok s1 ∧
      thread_tick { s1 with yield_on_return := false } = .ok s2 ∧
      s2.thread_ticks = (k + 1) % 2 ^ 32 ∧
      (s2.yield_on_return = true ↔ (k + 1) % 2 ^ 32 ≥ TIME_SLICE) := by
  obtain ⟨s1, h1, ht1, hc1, hx1⟩ := thread_tick_run E k s hcur hctx (by rw [h0]; norm_num)
  obtain ⟨s2, h2, ht2, hy2, -⟩ := thread_tick_spec { s1 with yield_on_return := false }
    ((thread_current_congr s1 { s1 with yield_on_return := false } rfl rfl).2 hc1) hx1
  have e : ({ s1 with yield_on_return := false } : State).thread_ticks = k % 2 ^ 32 := by
    rw [← Nat.zero_add k, ← h0]; exact ht1
  rw [e] at ht2 hy2
  have e2 : (k % 2 ^ 32 + 1) % 2 ^ 32 = (k + 1) % 2 ^ 32 := by omega
  rw [e2] at ht2 hy2
  refine ⟨s1, s2, h1, h2, ht2, ?_⟩
  rw [hy2]
  constructor
  · rintro (h | h)
    · cases h
    · exact h
  · intro h; exact Or.inr h

/-- C18 as amended: `TIME_SLICE` is 4.  Let `schedule` have reset `thread_ticks`
to 0 and let the timer interrupt handler call `thread_tick` for the `k`-th time
since, with no dispatch in between and the request flag cleared before the
call.  The call returns with `thread_ticks = k mod 2^32` and has requested a
yield on return exactly when `k mod 2^32 >= TIME_SLICE`; for `k < 2^32` that is
exactly when `k >= TIME_SLICE`.  Every `schedule` that returns leaves
`thread_ticks = 0`. -/
theorem thread_tick_time_slice (E : Env) (s : State) (k : Nat)
    (hcur : thread_current s = .ok s.running_thread) (hctx : s.in_external_intr = true)
    (h0 : s.thread_ticks = 0) (hk : 1 ≤ k) :
    TIME_SLICE = 4 ∧
    (∃ s1 s2, run E s (List.replicate (k - 1) Op.thread_tick) = .ok s1 ∧
      thread_tick { s1 with yield_on_return := false } = .ok s2 ∧
      s2.thread_ticks = k % 2 ^ 32 ∧
      (s2.yield_on_return = true ↔ k % 2 ^ 32 ≥ TIME_SLICE) ∧
      (k < 2 ^ 32 → (s2.yield_on_return = true ↔ k ≥ TIME_SLICE))) ∧
    (∀ x x', schedule x = .ok x' → x'.thread_ticks = 0) := by
  refine ⟨rfl, ?_, ?_⟩
  · obtain ⟨s1, s2, h1, h2, h3, h4⟩ := thread_tick_kth E s (k - 1) hcur hctx h0
    have e : k - 1 + 1 = k := Nat.sub_add_cancel hk
    rw [e] at h3 h4
    refine ⟨s1, s2, h1, h2, h3, h4, ?_⟩
    intro hlt
    rw [h4, Nat.mod_eq_of_lt hlt]
  · intro x x' h
    obtain ⟨-, -, -, hx⟩ := (schedule_ok_iff x x').1 h
    rw [hx]

/-- Witness for C18: in `state_timer` the main thread has just been dispatched;
the fourth call of `thread_tick` since then requests a yield on return. -/
theorem thread_tick_time_slice_witness :
    ∃ s1 s2, run stdEnv state_timer (List.replicate 3 Op.thread_tick) = .ok s1 ∧
      thread_tick { s1 with yield_on_return := false } = .ok s2 ∧
      s2.thread_ticks = 4 ∧ s2.yield_on_return = true := by
  obtain ⟨-, ⟨s1, s2, h1, h2, h3, h4, -⟩, -⟩ :=
    thread_tick_time_slice stdEnv state_timer 4
      ((thread_current_ok_iff _ _).2 (by decide!)) (by decide!) (by decide!) (by decide)
  exact ⟨s1, s2, h1, h2, h3, h4.2 (by decide)⟩

/-- C18, counterexample to the claim as stated: `state_timer` is reached by a
run from `thread_init` and has `thread_ticks = 0` after a dispatch; the
4294967296-th call of `thread_tick` since then (4294967296 >= `TIME_SLICE`)
wraps the 32-bit counter to 0 and requests no yield. -/
theorem thread_tick_counter_wraps :
    Reachable stdEnv state_timer ∧ state_timer.thread_ticks = 0 ∧
      4294967296 ≥ TIME_SLICE ∧
      ∃ s1 s2, run stdEnv state_timer (List.replicate 4294967295 Op.thread_tick) = .ok s1 ∧
        Reachable stdEnv s1 ∧
        thread_tick { s1 with yield_on_return := false } = .ok s2 ∧
        s2.thread_ticks = 0 ∧ s2.yield_on_return = false := by
  have hr : Reachable stdEnv state_timer := boot_run_reachable stdEnv 1 run_timer (by decide!)
  obtain ⟨s1, s2, h1, h2, h3, h4⟩ := thread_tick_kth stdEnv state_timer 4294967295
    ((thread_current_ok_iff _ _).2 (by decide!)) (by decide!) (by decide!)
  have e : (4294967295 + 1) % 2 ^ 32 = 0 := by norm_num
  rw [e] at h3 h4
  refine ⟨hr, by decide!, by decide, s1, s2, h1, run_reachable stdEnv _ _ _ hr h1, h2, h3, ?_⟩
  cases hy : s2.yield_on_return with
  | false => rfl
  | true =>
    have := h4.1 hy
    exact absurd this (by decide)

/-! ## The depth of a donation -/

theorem donation_chain_length (s : State) (n : Nat) :
    ∀ curr, (donation_chain s n curr).length ≤ n := by
  induction n with
  | zero => intro curr; simp [donation_chain]
  | succ n ih =>
    intro curr
    unfold donation_chain
    cases s.mem curr with
    | none => simp
    | some c =>
      dsimp only
      split_ifs
      · simp
      · simp only [List.length_cons]
        exact Nat.succ_le_succ (ih _)

theorem donation_chain_congr (s s' : State) (hl : s'.lock_holder = s.lock_holder)
    (hw : ∀ a, (s'.mem a).map thread.wait_on_lock = (s.mem a).map thread.wait_on_lock)
    (n : Nat) : ∀ curr, donation_chain s' n curr = donation_chain s n curr := by
  induction n with
  | zero => intro curr; rfl
  | succ n ih =>
    intro curr
    unfold donation_chain
    have h := hw curr
    cases h1 : s.mem curr with
    | none =>
      rw [h1] at h
      cases h2 : s'.mem curr with
      | none => rfl
      | some c' => rw [h2] at h; cases h
    | some c =>
      rw [h1] at h
      cases h2 : s'.mem curr with
      | none => rw [h2] at h; cases h
      | some c' =>
        rw [h2] at h
        have e : c'.wait_on_lock = c.wait_on_lock := by simpa using h
        dsimp only
        rw [e, hl, ih]

theorem with_priority_nil (s : State) (p : Int) : with_priority s [] p = s := by
  unfold with_priority
  simp

theorem with_priority_cons (s : State) (h : Nat) (l : List Nat) (p : Int) :
    with_priority (set_priority s h p) l p = with_priority s (h :: l) p := by
  unfold with_priority set_priority modify
  dsimp only
  congr 1
  funext a
  by_cases e : a = h
  · subst e
    cases s.mem a <;> simp
  · simp [e]

/-- The loop of `donate_priority`, entered at a thread of priority `p` with `n`
iterations left: when every holder on the chain is a thread record, the loop
ends and has set to `p` the priority of exactly the holders on the chain. -/
theorem donate_priority_loop_spec (n : Nat) :
    ∀ (curr : Nat) (s : State) (c : thread), s.mem curr = some c →
      (∀ h ∈ donation_chain s n curr, h ≠ 0 ∧ s.mem h ≠ none) →
      donate_priority_loop n curr s
        = .ok (with_priority s (donation_chain s n curr) c.priority) := by
  induction n with
  | zero =>
    intro curr s c _ _
    unfold donate_priority_loop donation_chain
    rw [with_priority_nil]
  | succ n ih =>
    intro curr s c hc hwf
    unfold donate_priority_loop
    rw [hc]
    dsimp only
    by_cases hw : c.wait_on_lock = 0
    · rw [if_pos hw]
      have : donation_chain s (n + 1) curr = [] := by
        unfold donation_chain
        rw [hc]
        dsimp only
        rw [if_pos hw]
      rw [this, with_priority_nil]
    · rw [if_neg hw]
      have hch : donation_chain s (n + 1) curr
          = s.lock_holder c.wait_on_lock
            :: donation_chain s n (s.lock_holder c.wait_on_lock) := by
        conv_lhs => unfold donation_chain
        rw [hc]
        dsimp only
        rw [if_neg hw]
      rw [hch] at hwf ⊢
      obtain ⟨h0, hrec⟩ := hwf _ (List.mem_cons_self _ _)
      cases hm : s.mem (s.lock_holder c.wait_on_lock) with
      | none => exact absurd hm hrec
      | some hr =>
        dsimp only
        rw [if_neg h0]
        have hcg : ∀ k, donation_chain (set_priority s (s.lock_holder c.wait_on_lock) c.priority)
            n k = donation_chain s n k := by
          refine donation_chain_congr s
            (set_priority s (s.lock_holder c.wait_on_lock) c.priority) rfl ?_ n
          intro a
          unfold set_priority
          rw [modify_mem]
          split_ifs
          · cases s.mem a <;> rfl
          · rfl
        have hm1 : (set_priority s (s.lock_holder c.wait_on_lock) c.priority).mem
            (s.lock_holder c.wait_on_lock) = some { hr with priority := c.priority } := by
          simp [set_priority, hm]
        rw [ih _ _ _ hm1 (by
          intro h hh
          rw [hcg] at hh
          obtain ⟨a, b⟩ := hwf h (List.mem_cons_of_mem _ hh)
          refine ⟨a, ?_⟩
          unfold set_priority
          rw [modify_mem]
          split_ifs
          · cases hx : s.mem h with
            | none => exact absurd hx b
            | some _ => simp
          · exact b), hcg]
        exact congrArg Except.ok (with_priority_cons s _ _ c.priority)

/-- The bound of `donate_priority` where every lock on the chain has a
holder: let the valid running thread `H` have priority `p`, and let every holder
reached from `H` by following `wait_on_lock -> holder` for at most 8 links be a
thread record (the graph may have cycles, the chain may go on beyond 8 links).
Then `donate_priority ()` returns after at most 8 assignments; in the state it
returns in, exactly these holders have had their priority set to `p`, every
other thread record is as before, and nothing but thread records has
changed. -/
theorem donate_priority_bounded (s : State) (H : Nat) (c : thread)
    (hcur : thread_current s = .ok H) (hH : s.mem H = some c)
    (hwf : ∀ h ∈ donation_chain s 8 H, h ≠ 0 ∧ s.mem h ≠ none) :
    (donation_chain s 8 H).length ≤ 8 ∧
    ∃ s', donate_priority s = .ok s' ∧
      s' = with_priority s (donation_chain s 8 H) c.priority ∧
      (∀ a ∈ donation_chain s 8 H, priority_of s' a = c.priority) ∧
      (∀ a, a ∉ donation_chain s 8 H → s'.mem a = s.mem a) ∧
      (∀ a, (s'.mem a).map (fun th => { th with priority := 0 })
        = (s.mem a).map (fun th => { th with priority := 0 })) ∧
      s' = { s with mem := s'.mem } := by
  refine ⟨donation_chain_length s 8 H, _, ?_, rfl, ?_, ?_, ?_, rfl⟩
  · unfold donate_priority
    rw [hcur]
    exact donate_priority_loop_spec 8 H s c hH hwf
  · intro a ha
    obtain ⟨-, hm⟩ := hwf a ha
    cases hx : s.mem a with
    | none => exact absurd hx hm
    | some th => simp [priority_of, with_priority, ha, hx]
  · intro a ha
    simp [with_priority, ha]
  · intro a
    by_cases ha : a ∈ donation_chain s 8 H
    · cases hx : s.mem a <;> simp [with_priority, ha, hx]
    · simp [with_priority, ha]

/-- The bound of `donate_priority` on two graphs: in `state_nine_holders` thread
1 (priority 50) heads a chain of nine holders, threads 2 to 10;
`donate_priority ()` returns with threads 2 to 9 at priority 50 and thread 10,
the ninth holder, still at priority 10.  In `state_wait_cycle` threads 1 and 2
wait for each other; `donate_priority ()` returns with both at priority 50. -/
theorem donate_priority_bounded_witness :
    (∃ s', donate_priority state_nine_holders = .ok s' ∧
      donation_chain state_nine_holders 8 1 = [2, 3, 4, 5, 6, 7, 8, 9] ∧
      priority_of s' 2 = 50 ∧ priority_of s' 9 = 50 ∧ priority_of s' 10 = 10) ∧
    (∃ s', donate_priority state_wait_cycle = .ok s' ∧
      donation_chain state_wait_cycle 8 1 = [2, 1, 2, 1, 2, 1, 2, 1] ∧
      priority_of s' 1 = 50 ∧ priority_of s' 2 = 50) := by
  constructor
  · obtain ⟨-, s', h1, -, h2, h3, -, -⟩ :=
      donate_priority_bounded state_nine_holders 1
        { mk_thread 1 THREAD_RUNNING 50 with wait_on_lock := 101 }
        ((thread_current_ok_iff _ _).2 (by decide!)) (by decide!) (by decide!)
    refine ⟨s', h1, by decide!, h2 2 (by decide!), h2 9 (by decide!), ?_⟩
    have := h3 10 (by decide!)
    unfold priority_of
    rw [this]
    decide!
  · obtain ⟨-, s', h1, -, h2, -, -, -⟩ :=
      donate_priority_bounded state_wait_cycle 1
        { mk_thread 1 THREAD_RUNNING 50 with wait_on_lock := 101 }
        ((thread_current_ok_iff _ _).2 (by decide!)) (by decide!) (by decide!)
    exact ⟨s', h1, by decide!, h2 1 (by decide!), h2 2 (by decide!)⟩

/-- C19, the code at the failing input: `state_lock_released` is reached by a
run from `thread_init` in which a lock is released while its waiter has not run
yet.  Thread 1 (priority 40) runs and waits on lock 100; its holder, thread 2
(priority 31), is READY and its `wait_on_lock` still names lock 200, which has
no holder: following `wait_on_lock -> holder` from thread 1 gives thread 2 and
then the null pointer.  `donate_priority ()` does not return: it sets the
priority of thread 2 to 40, goes on to thread 2, reads the null `holder` of
lock 200 and writes through it, where no thread record is; the kernel stops
with thread 2 already at priority 40. -/
theorem donate_priority_null_holder :
    Reachable stdEnv state_lock_released ∧
      thread_current state_lock_released = .ok 1 ∧
      priority_of state_lock_released 1 = 40 ∧
      wait_on_lock_of state_lock_released 1 = 100 ∧
      state_lock_released.lock_holder 100 = 2 ∧
      status_of state_lock_released 2 = some THREAD_READY ∧
      priority_of state_lock_released 2 = 31 ∧
      wait_on_lock_of state_lock_released 2 = 200 ∧
      state_lock_released.lock_holder 200 = 0 ∧ state_lock_released.mem 0 = none ∧
      donation_chain state_lock_released 8 1 = [2, 0] ∧
      returned (donate_priority state_lock_released) = false ∧
      (∀ s', donate_priority state_lock_released ≠ .ok s') ∧
      priority_of (outcome (donate_priority state_lock_released)) 2 = 40 :=
  ⟨boot_run_reachable stdEnv 1 run_lock_released (by decide!),
    (thread_current_ok_iff _ _).2 (by decide!), by decide!, by decide!, by decide!, by decide!,
    by decide!, by decide!, by decide!, by decide!, by decide!, by decide!,
    (fun s' h => by
      have hr : returned (donate_priority state_lock_released) = false := by decide!
      rw [h] at hr
      cases hr),
    by decide!⟩

/-! ## Purging the destruction queue -/

/-- What `do_schedule` does before it calls `schedule`: the state `schedule`
starts from (and picks the next thread in) has an empty destruction queue, and
no page that was queued holds a thread record any more. -/
theorem do_schedule_purge (s s' : State) (st : thread_status)
    (h : do_schedule s st = .ok s') :
    ∃ P, P.destruction_req = [] ∧ (∀ v ∈ s.destruction_req, P.mem v = none) ∧
      P.ready_list = s.ready_list ∧ schedule P = .ok s' ∧
      (∀ v ∈ s.destruction_req, s'.mem v = none) := by
  obtain ⟨-, -, -, hs⟩ := (do_schedule_ok_iff s s' st).1 h
  obtain ⟨-, -, hA, -, -, -, -, -, -, hm, -⟩ := do_schedule_inv s s' st h
  refine ⟨set_status (free_destruction_req s) s.running_thread st, rfl, ?_, rfl, hs, ?_⟩
  · intro v hv
    have hne : v ≠ s.running_thread := fun e => hA (e ▸ hv)
    simp [set_status, free_destruction_req, destroy_victims_apply, hv, hne]
  · intro v hv
    rw [hm v, if_pos hv]

/-- Where the purge is: `do_schedule`, entered with interrupts off by a valid running
thread that is not itself queued for destruction, is `schedule` run on the
state in which the destruction queue is empty and every page that was queued
holds no thread record.  So every pass through `do_schedule`, whether entered
from `thread_yield`, `thread_sleep` or `thread_exit`, first empties the
destruction queue and frees every thread record queued there, and only then
calls `schedule`, which chooses the next thread to run; when the call returns
no page that was queued holds a thread record.  `thread_block` calls `schedule`
directly: the destruction queue is as it was and no thread record is freed. -/
theorem destruction_queue_purge (s s' : State) :
    (∀ st, s.level = INTR_OFF → thread_current s = .ok s.running_thread →
      s.running_thread ∉ s.destruction_req →
      (free_destruction_req s).destruction_req = [] ∧
      (∀ v, (free_destruction_req s).mem v = if v ∈ s.destruction_req then none else s.mem v) ∧
      do_schedule s st
        = schedule (set_status (free_destruction_req s) s.running_thread st)) ∧
    (thread_yield s = .ok s' →
      ∃ P s1, P.destruction_req = [] ∧ (∀ v ∈ s.destruction_req, P.mem v = none) ∧
        schedule P = .ok s1 ∧ (s' = s1 ∨ s' = intr_set_level s1 s.level) ∧
        ∀ v ∈ s.destruction_req, s'.mem v = none) ∧
    (∀ ticks, thread_sleep s ticks = .ok s' →
      ∃ P s1, P.destruction_req = [] ∧ (∀ v ∈ s.destruction_req, P.mem v = none) ∧
        schedule P = .ok s1 ∧ (s' = s1 ∨ s' = intr_set_level s1 s.level) ∧
        ∀ v ∈ s.destruction_req, s'.mem v = none) ∧
    (thread_exit s = .ok s' →
      ∃ P, P.destruction_req = [] ∧ (∀ v ∈ s.destruction_req, P.mem v = none) ∧
        schedule P = .ok s' ∧ ∀ v ∈ s.destruction_req, s'.mem v = none) ∧
    (thread_block s = .ok s' →
      s'.destruction_req = s.destruction_req ∧ keeps_records s s' ∧
        schedule (set_status s s.running_thread THREAD_BLOCKED) = .ok s') := by
  refine ⟨?_, ?_, ?_, ?_, ?_⟩
  · intro st hl hc hA
    refine ⟨rfl, fun v => destroy_victims_apply _ _ v, ?_⟩
    have hm : (free_destruction_req s).mem s.running_thread = s.mem s.running_thread := by
      simp [free_destruction_req, destroy_victims_apply, hA]
    have hc2 : thread_current (free_destruction_req s) = .ok s.running_thread := by
      rw [thread_current_ok_iff] at hc ⊢
      obtain ⟨-, h1, h2⟩ := hc
      refine ⟨rfl, ?_, ?_⟩
      · unfold is_thread at h1 ⊢
        rw [hm]; exact h1
      · unfold status_of at h2 ⊢
        rw [hm]; exact h2
    unfold do_schedule
    rw [if_neg (not_not.2 hl), hc]
    dsimp only
    rw [hc2]
  · intro h
    obtain ⟨-, -, s1, hd, he⟩ := (thread_yield_ok_iff s s').1 h
    obtain ⟨P, h1, h2, -, h3, h4⟩ := do_schedule_purge _ s1 _ hd
    rw [thread_yield_enter_destruction_req] at h2 h4
    refine ⟨P, s1, h1, h2, h3, ?_, ?_⟩
    · rw [he]; split_ifs
      · exact Or.inr rfl
      · exact Or.inl rfl
    · intro v hv
      rw [he]
      split_ifs
      · exact h4 v hv
      · exact h4 v hv
  · intro ticks h
    obtain ⟨-, -, s1, hd, he⟩ := (thread_sleep_ok_iff s s' ticks).1 h
    obtain ⟨P, h1, h2, -, h3, h4⟩ := do_schedule_purge _ s1 _ hd
    rw [thread_sleep_enter_destruction_req] at h2 h4
    refine ⟨P, s1, h1, h2, h3, ?_, ?_⟩
    · rw [he]; split_ifs
      · exact Or.inr rfl
      · exact Or.inl rfl
    · intro v hv
      rw [he]
      split_ifs
      · exact h4 v hv
      · exact h4 v hv
  · intro h
    obtain ⟨-, hd, -⟩ := (thread_exit_ok_iff s s').1 h
    obtain ⟨P, h1, h2, -, h3, h4⟩ := do_schedule_purge _ s' _ hd
    exact ⟨P, h1, h2, h3, h4⟩
  · intro h
    obtain ⟨-, -, hc, hs⟩ := (thread_block_ok_iff s s').1 h
    refine ⟨?_, thread_block_keeps s s' h, hs⟩
    obtain ⟨-, -, -, hx⟩ := (schedule_ok_iff _ s').1 hs
    rw [hx]
    dsimp only
    rw [if_neg]
    · rfl
    · rintro ⟨-, -, hst, -⟩
      obtain ⟨-, -, th, hm, -, -⟩ := (thread_current_ok s _).1 hc
      simp [status_of, set_status, hm] at hst

/-- The purge on the way through `do_schedule`: in `state_after_exit` the DYING
thread 2 is queued in `destruction_req`; `thread_yield ()` returns, and page 2
holds no thread record any more. -/
theorem destruction_queue_purge_witness :
    state_after_exit.destruction_req = [2] ∧ state_after_exit.mem 2 ≠ none ∧
      do_schedule state_after_exit THREAD_READY
        = schedule (set_status (free_destruction_req state_after_exit)
            state_after_exit.running_thread THREAD_READY) ∧
      ∃ s', thread_yield state_after_exit = .ok s' ∧ s'.mem 2 = none ∧
        s'.destruction_req = [] := by
  have h := returned_eq_ok (thread_yield state_after_exit) (by decide!)
  obtain ⟨P, s1, -, -, -, -, h5⟩ := (destruction_queue_purge state_after_exit _).2.1 h
  have h0 := ((destruction_queue_purge state_after_exit state_after_exit).1 THREAD_READY
    (by decide!) ((thread_current_ok_iff _ _).2 (by decide!)) (by decide!)).2.2
  exact ⟨by decide!, by decide!, h0, _, h, h5 2 (by decide!), by decide!⟩

/-- C20, the code at the failing input: `state_after_exit` is reached by a run
from `thread_init`; thread 1 runs with interrupts off and the DYING thread 2 is
queued in `destruction_req`.  `thread_block ()` passes through `schedule`, which
picks thread 3 to run, and thread 2 is still queued and its record is not
freed.  From the same state `thread_yield ()`, which enters through
`do_schedule`, returns with the queue empty and the record of thread 2
freed. -/
theorem thread_block_skips_purge :
    Reachable stdEnv state_after_exit ∧ state_after_exit.running_thread = 1 ∧
      state_after_exit.destruction_req = [2] ∧
      status_of state_after_exit 2 = some THREAD_DYING ∧
      (∃ s', thread_block state_after_exit = .ok s' ∧ s'.running_thread = 3 ∧
        s'.destruction_req = [2] ∧ status_of s' 2 = some THREAD_DYING) ∧
      (∃ s', thread_yield state_after_exit = .ok s' ∧ s'.destruction_req = [] ∧
        s'.mem 2 = none) :=
  ⟨boot_run_reachable stdEnv 1 run_exit (by decide!), by decide!, by decide!, by decide!,
    ⟨outcome (thread_block state_after_exit), returned_eq_ok _ (by decide!), by decide!,
      by decide!, by decide!⟩,
    ⟨outcome (thread_yield state_after_exit), returned_eq_ok _ (by decide!), by decide!,
      by decide!⟩⟩

/-! ## thread_yield -/

/-- C21: let `C` be the valid running thread, not the idle thread, not in the
ready queue and not queued for destruction, let the ready queue be sorted
non-increasing by priority and its head (if any) a valid thread not queued for
destruction, and let `thread_yield ()` be called outside an interrupt handler.
`C` is inserted into the ready queue behind every member of priority at least
`C->priority` and in front of every member of lower priority.  If the queue was
not empty and its head had priority at least `C->priority`, the call returns
with that head RUNNING and `C` READY in the ready queue.  If the queue was
empty or its head had a lower priority, the call returns with `C` RUNNING
again, the ready queue as before, no other thread switched to, and the
interrupt level as on entry. -/
theorem thread_yield_reinserts (s : State) (C : Nat)
    (hcur : thread_current s = .ok C) (hidle : C ≠ s.idle_thread)
    (hCr : C ∉ s.ready_list) (hs : ready_sorted s) (hctx : intr_context s = false)
    (hAd : C ∉ s.destruction_req)
    (hhead : ∀ r ∈ s.ready_list.head?, is_thread s r = true ∧ r ∉ s.destruction_req) :
    (∃ l1 l2, s.ready_list = l1 ++ l2 ∧
      (thread_yield_enter s C).ready_list = l1 ++ C :: l2 ∧
      (∀ e ∈ l1, priority_of s e ≥ priority_of s C) ∧
      (∀ e ∈ l2, priority_of s e < priority_of s C)) ∧
    (∀ head rest, s.ready_list = head :: rest → priority_of s head ≥ priority_of s C →
      ∃ s', thread_yield s = .ok s' ∧ s'.running_thread = head ∧
        status_of s' head = some THREAD_RUNNING ∧ status_of s' C = some THREAD_READY ∧
        s'.ready_list = list_insert_ordered (cmp_priority s) C rest ∧
        C ∈ s'.ready_list) ∧
    ((s.ready_list = [] ∨
        ∃ head rest, s.ready_list = head :: rest ∧ priority_of s head < priority_of s C) →
      ∃ s', thread_yield s = .ok s' ∧ s'.running_thread = C ∧
        status_of s' C = some THREAD_RUNNING ∧ s'.ready_list = s.ready_list ∧
        s'.level = s.level ∧
        (∀ a, a ∉ s.destruction_req → s'.mem a = s.mem a)) := by
  obtain ⟨hCe, hC0, c, hcm, hcmag, hcst⟩ := (thread_current_ok s C).1 hcur
  subst hCe
  have hitC : is_thread s s.running_thread = true :=
    (is_thread_iff s _).2 ⟨hC0, c, hcm, hcmag⟩
  have hrl := thread_yield_enter_ready s s.running_thread hidle
  refine ⟨?_, ?_, ?_⟩
  · obtain ⟨l1, l2, h1, h2, h3, h4⟩ := list_insert_ordered_split s s.running_thread s.ready_list hs
    exact ⟨l1, l2, h1, hrl.trans h2, h3, h4⟩
  · intro head rest hl hge
    have hskip : list_insert_ordered (cmp_priority s) s.running_thread (head :: rest)
        = head :: list_insert_ordered (cmp_priority s) s.running_thread rest :=
      list_insert_ordered_skip _ _ head rest
        (by simp only [cmp_priority, decide_eq_false_iff_not]; exact not_lt.2 hge)
    have hne : head ≠ s.running_thread := by
      intro e
      apply hCr
      rw [hl, e]
      exact List.mem_cons_self _ _
    obtain ⟨hit, hnd⟩ := hhead head (by rw [hl]; rfl)
    have hN : head = (next_thread_to_run (thread_yield_enter s s.running_thread)).2 := by
      rw [next_thread_to_run_snd, hrl, hl, hskip]; rfl
    obtain ⟨s', hy, hr, hrl2, -, hm, -, -, -⟩ :=
      thread_yield_returns s head hN hcur hctx hAd hit hnd
    obtain ⟨-, hth, hmh, -⟩ := (is_thread_iff s head).1 hit
    have hrl3 : s'.ready_list = list_insert_ordered (cmp_priority s) s.running_thread rest := by
      rw [hrl2, hrl, hl, hskip]; rfl
    refine ⟨s', hy, hr, ?_, ?_, hrl3, ?_⟩
    · unfold status_of
      rw [hm, if_neg hnd, if_pos rfl, hmh]; rfl
    · unfold status_of
      rw [hm, if_neg hAd, if_neg (Ne.symm hne), if_pos rfl, hcm]; rfl
    · rw [hrl3, mem_list_insert_ordered]
      exact Or.inl rfl
  · intro hcase
    have hfront : list_insert_ordered (cmp_priority s) s.running_thread s.ready_list
        = s.running_thread :: s.ready_list := by
      rcases hcase with h | ⟨head, rest, hl, hlt⟩
      · rw [h]; rfl
      · rw [hl]
        unfold list_insert_ordered
        rw [if_pos (by simp only [cmp_priority, decide_eq_true_eq]; exact hlt)]
    have hN : s.running_thread
        = (next_thread_to_run (thread_yield_enter s s.running_thread)).2 := by
      rw [next_thread_to_run_snd, hrl, hfront]; rfl
    obtain ⟨s', hy, hr, hrl2, -, hm, hlv, -, -⟩ :=
      thread_yield_returns s s.running_thread hN hcur hctx hAd hitC hAd
    have hcc : ({ c with status := THREAD_RUNNING } : thread) = c := by
      cases c
      simp only at hcst
      subst hcst
      rfl
    refine ⟨s', hy, hr, ?_, ?_, ?_, ?_⟩
    · unfold status_of
      rw [hm, if_neg hAd, if_pos rfl, hcm]; rfl
    · rw [hrl2, hrl, hfront]; rfl
    · rw [hlv, if_pos rfl]
    · intro a ha
      rw [hm, if_neg ha]
      by_cases e : a = s.running_thread
      · rw [if_pos e, e, hcm]
        simp only [Option.map_some', hcc]
      · rw [if_neg e, if_neg e]

/-- Witness for C21: in `state_ready_queue` thread 1 (priority 31) runs and the
ready queue is `[2, 3, 4]` with priorities 30, 20, 10: `thread_yield ()` picks
thread 1 again and leaves the queue as it is.  In `state_low_runs` thread 1 has
priority 5 and the ready queue is `[2, 3]` with priorities 30 and 20:
`thread_yield ()` makes thread 2 run and leaves the queue `[3, 1]`. -/
theorem thread_yield_reinserts_witness :
    (∃ s', thread_yield state_ready_queue = .ok s' ∧ s'.running_thread = 1 ∧
      s'.ready_list = [2, 3, 4]) ∧
    (∃ s', thread_yield state_low_runs = .ok s' ∧ s'.running_thread = 2 ∧
      status_of s' 1 = some THREAD_READY ∧ s'.ready_list = [3, 1]) := by
  constructor
  · obtain ⟨s', h1, h2, -, h3, -, -⟩ :=
      (thread_yield_reinserts state_ready_queue 1 rfl (by decide!) (by decide!)
        (by unfold ready_sorted; decide!) (by decide!) (by decide!) (by decide!)).2.2
        (Or.inr ⟨2, [3, 4], by decide!, by decide!⟩)
    exact ⟨s', h1, h2, h3.trans (by decide!)⟩
  · obtain ⟨s', h1, h2, -, h3, h4, -⟩ :=
      (thread_yield_reinserts state_low_runs 1 rfl (by decide!) (by decide!)
        (by unfold ready_sorted; decide!) (by decide!) (by decide!) (by decide!)).2.1
        2 [3] (by decide!) (by decide!)
    exact ⟨s', h1, h2, h3, h4.trans (by decide!)⟩

/-! ## Operations that leave the queues alone -/

theorem same_queues_refl (s : State) : same_queues s s := ⟨rfl, rfl, rfl, rfl, rfl⟩

theorem same_queues_trans (s1 s2 s3 : State) (h1 : same_queues s1 s2)
    (h2 : same_queues s2 s3) : same_queues s1 s3 :=
  ⟨h2.1.trans h1.1, h2.2.1.trans h1.2.1, h2.2.2.1.trans h1.2.2.1,
    h2.2.2.2.1.trans h1.2.2.2.1, h2.2.2.2.2.trans h1.2.2.2.2⟩

theorem same_queues_modify (s : State) (t : Nat) (f : thread → thread) :
    same_queues s (modify s t f) := ⟨rfl, rfl, rfl, rfl, rfl⟩

theorem refresh_priority_queues (s s' : State) (h : refresh_priority s = .ok s') :
    same_queues s s' := by
  unfold refresh_priority at h
  split at h
  · cases h
  · split at h
    · cases h
    · dsimp only at h
      split at h
      · cases h; exact ⟨rfl, rfl, rfl, rfl, rfl⟩
      · split at h
        · cases h; exact ⟨rfl, rfl, rfl, rfl, rfl⟩
        · split at h
          · cases h
          · split at h
            · cases h; exact ⟨rfl, rfl, rfl, rfl, rfl⟩
            · cases h; exact ⟨rfl, rfl, rfl, rfl, rfl⟩

theorem donate_priority_loop_queues :
    ∀ (n curr : Nat) (s s' : State), donate_priority_loop n curr s = .ok s' →
      same_queues s s' := by
  intro n
  induction n with
  | zero =>
    intro curr s s' h
    cases h
    exact same_queues_refl s
  | succ n ih =>
    intro curr s s' h
    unfold donate_priority_loop at h
    split at h
    · cases h
    · dsimp only at h
      split at h
      · cases h; exact same_queues_refl s
      · split at h
        · cases h
        · split at h
          · cases h
          · exact same_queues_trans s _ s' (same_queues_modify s _ _) (ih _ _ s' h)

theorem donate_priority_queues (s s' : State) (h : donate_priority s = .ok s') :
    same_queues s s' := by
  unfold donate_priority at h
  split at h
  · cases h
  · exact donate_priority_loop_queues 8 _ s s' h

theorem remove_with_lock_queues (s s' : State) (lock : Nat)
    (h : remove_with_lock s lock = .ok s') : same_queues s s' := by
  unfold remove_with_lock at h
  split at h
  · cases h
  · split at h
    · cases h
    · split at h
      · cases h
      · cases h; exact same_queues_modify s _ _

theorem thread_tick_queues (s s' : State) (h : thread_tick s = .ok s') :
    same_queues s s' := by
  have key : ∀ X : State, same_queues s X →
      (if X.thread_ticks ≥ TIME_SLICE then intr_yield_on_return X else .ok X) = .ok s' →
      same_queues s s' := by
    intro X hX h2
    split at h2
    · unfold intr_yield_on_return at h2
      split at h2
      · cases h2
      · cases h2
        exact hX
    · cases h2
      exact hX
  unfold thread_tick at h
  split at h
  · cases h
  · rename_i t _
    by_cases e : t = s.idle_thread
    · exact key _ (by simp [e, same_queues]) h
    · exact key _ (by simp [e, same_queues]) h

theorem lock_contention_queues (s s' : State) (lock : Nat)
    (h : lock_contention s lock = .ok s') : same_queues s s' := by
  unfold lock_contention at h
  split at h
  · cases h
  · cases h; exact same_queues_modify s _ _

theorem lock_acquired_queues (s s' : State) (lock : Nat)
    (h : lock_acquired s lock = .ok s') : same_queues s s' := by
  unfold lock_acquired at h
  split at h
  · cases h
  · cases h; exact ⟨rfl, rfl, rfl, rfl, rfl⟩

theorem lock_released_queues (s s' : State) (lock : Nat)
    (h : lock_released s lock = .ok s') : same_queues s s' := by
  unfold lock_released at h
  split at h
  · cases h
  · cases h; exact ⟨rfl, rfl, rfl, rfl, rfl⟩

theorem donor_recorded_queues (s s' : State) (holder : Nat)
    (h : donor_recorded s holder = .ok s') : same_queues s s' := by
  unfold donor_recorded at h
  split at h
  · cases h
  · split at h
    · cases h
    · cases h; exact same_queues_modify s _ _

/-! ## What the operations that pass through schedule leave behind -/

/-- Whatever `schedule` returns from, member by member (`N` is the thread picked
to run). -/
theorem schedule_inv (s s' : State) (N : Nat) (hN : N = (next_thread_to_run s).2)
    (h : schedule s = .ok s') :
    is_thread s N = true ∧ s'.running_thread = N ∧ s'.ready_list = s.ready_list.tail ∧
      s'.destruction_req =
        (if s.running_thread ≠ N ∧ s.running_thread ≠ 0 ∧
            status_of s s.running_thread = some THREAD_DYING ∧
            s.running_thread ≠ s.initial_thread
          then s.destruction_req ++ [s.running_thread] else s.destruction_req) ∧
      (∀ a, s'.mem a = if a = N
        then (s.mem a).map (fun th => { th with status := THREAD_RUNNING }) else s.mem a) ∧
      same_aside s s' := by
  obtain ⟨-, -, hit, hs'⟩ := (schedule_ok_iff s s').1 h
  have hf : (next_thread_to_run s).1.ready_list = s.ready_list.tail ∧
      (next_thread_to_run s).1.mem = s.mem ∧ same_aside s (next_thread_to_run s).1 := by
    unfold next_thread_to_run
    cases hl : s.ready_list with
    | nil => exact ⟨hl.trans (by rfl), rfl, rfl, rfl, rfl, rfl, rfl, rfl, rfl, rfl, rfl, rfl⟩
    | cons t rest => exact ⟨rfl, rfl, rfl, rfl, rfl, rfl, rfl, rfl, rfl, rfl, rfl, rfl⟩
  have hit2 : is_thread s N = true := by
    rw [hN, ← hit]
  rw [← hN] at hs'
  refine ⟨hit2, ?_, ?_, ?_, ?_, ?_⟩
  · rw [hs']
  · rw [hs']; exact hf.1
  · rw [hs']
  · intro a
    rw [hs']
    simp only [set_status, modify_mem, hf.2.1]
  · rw [hs']
    exact hf.2.2

/-- Whatever `thread_block` returns from, member by member. -/
theorem thread_block_inv (s s' : State) (N : Nat) (hN : N = (next_thread_to_run s).2)
    (h : thread_block s = .ok s') :
    thread_current s = .ok s.running_thread ∧ is_thread s N = true ∧
      s'.running_thread = N ∧ s'.ready_list = s.ready_list.tail ∧
      s'.destruction_req = s.destruction_req ∧
      (∀ a, s'.mem a =
        if a = N then (s.mem a).map (fun th => { th with status := THREAD_RUNNING })
        else if a = s.running_thread
          then (s.mem a).map (fun th => { th with status := THREAD_BLOCKED })
        else s.mem a) ∧
      same_aside s s' := by
  obtain ⟨-, -, hc, hs⟩ := (thread_block_ok_iff s s').1 h
  obtain ⟨-, -, th, hm, -, -⟩ := (thread_current_ok s _).1 hc
  have hN2 : N = (next_thread_to_run (set_status s s.running_thread THREAD_BLOCKED)).2 := by
    rw [hN, next_thread_to_run_snd, next_thread_to_run_snd]; rfl
  obtain ⟨hit, hr, hrl, hd, hmem, has⟩ := schedule_inv _ s' N hN2 hs
  refine ⟨hc, ?_, hr, hrl, ?_, ?_, has⟩
  · rw [← hit]
    unfold is_thread set_status
    rw [modify_mem]
    by_cases e : N = s.running_thread
    · rw [if_pos e]; cases s.mem N <;> rfl
    · rw [if_neg e]
  · have hno : ¬ (s.running_thread ≠ N ∧ s.running_thread ≠ 0 ∧
        status_of (set_status s s.running_thread THREAD_BLOCKED) s.running_thread
          = some THREAD_DYING ∧ s.running_thread ≠ s.initial_thread) := by
      rintro ⟨-, -, hst, -⟩
      simp [status_of, set_status, hm] at hst
    rw [hd]
    exact if_neg hno
  · intro a
    rw [hmem a]
    simp only [set_status, modify_mem]
    by_cases e1 : a = N
    · rw [if_pos e1, if_pos e1]
      by_cases e2 : a = s.running_thread
      · rw [if_pos e2]; cases s.mem a <;> rfl
      · rw [if_neg e2]
    · rw [if_neg e1, if_neg e1]

/-- Whatever `thread_exit` gets through, member by member. -/
theorem thread_exit_inv (s s' : State) (N : Nat) (hN : N = (next_thread_to_run s).2)
    (h : thread_exit s = .ok s') :
    thread_current s = .ok s.running_thread ∧ s.running_thread ∉ s.destruction_req ∧
      is_thread s N = true ∧ N ∉ s.destruction_req ∧ N ≠ s.running_thread ∧
      s'.running_thread = N ∧ s'.ready_list = s.ready_list.tail ∧
      s'.destruction_req
        = (if s.running_thread ≠ s.initial_thread then [s.running_thread] else []) ∧
      (∀ a, s'.mem a =
        if a ∈ s.destruction_req then none
        else if a = N then (s.mem a).map (fun th => { th with status := THREAD_RUNNING })
        else if a = s.running_thread
          then (s.mem a).map (fun th => { th with status := THREAD_DYING })
        else s.mem a) ∧
      same_aside s s' := by
  obtain ⟨-, hd, hne⟩ := (thread_exit_ok_iff s s').1 h
  have hN2 : (next_thread_to_run (intr_disable s)).2 = N := by
    rw [hN, next_thread_to_run_snd, next_thread_to_run_snd]; rfl
  obtain ⟨-, hc, hA, -, hn, hnd, hr, hrl, hdr, hm, -, -, has⟩ := do_schedule_inv _ s' _ hd
  rw [hN2] at hn hnd hr hdr hm
  have hne2 : N ≠ s.running_thread := by rw [← hr]; exact hne
  refine ⟨(thread_current_congr s (intr_disable s) rfl rfl).1 hc, hA, hn, hnd, hne2, hr, hrl,
    ?_, hm, has⟩
  rw [hdr]
  by_cases e : s.running_thread = s.initial_thread
  · rw [if_neg (not_not.2 e)]
    apply if_neg
    rintro ⟨-, -, h3⟩
    exact h3 e
  · rw [if_pos e]
    exact if_pos ⟨Ne.symm hne2, rfl, e⟩

/-- Whatever `thread_sleep` returns from, member by member. -/
theorem thread_sleep_inv_full (s s' : State) (ticks : Int) (N : Nat)
    (hN : N = (next_thread_to_run s).2) (h : thread_sleep s ticks = .ok s') :
    thread_current s = .ok s.running_thread ∧ s.running_thread ∉ s.destruction_req ∧
      is_thread s N = true ∧ N ∉ s.destruction_req ∧
      s'.running_thread = N ∧ s'.ready_list = s.ready_list.tail ∧
      s'.destruction_req = [] ∧
      (∀ a, s'.mem a =
        if a ∈ s.destruction_req then none
        else if a = N then
          ((modify s s.running_thread (fun th => { th with wakeup_tick := ticks })).mem a).map
            (fun th => { th with status := THREAD_RUNNING })
        else if a = s.running_thread then
          (s.mem a).map (fun th => { th with wakeup_tick := ticks, status := THREAD_BLOCKED })
        else s.mem a) ∧
      s'.sleep_list = (if s.running_thread ≠ s.idle_thread
        then s.sleep_list ++ [s.running_thread] else s.sleep_list) ∧
      s'.idle_thread = s.idle_thread ∧ s'.initial_thread = s.initial_thread := by
  obtain ⟨hcur, hctx, hAd, hn, hnd⟩ := thread_sleep_inv s s' ticks N hN h
  obtain ⟨s2, h2, hr, hrl, hd, hm, hsl, -, -, -⟩ :=
    thread_sleep_returns s ticks N hN hcur hctx hAd hn hnd
  rw [h] at h2
  cases h2
  obtain ⟨-, -, s1, hdo, he⟩ := (thread_sleep_ok_iff s s' ticks).1 h
  obtain ⟨-, -, -, -, -, -, -, -, -, -, -, -, has⟩ := do_schedule_inv _ s1 _ hdo
  have hf := thread_sleep_enter_fields s s.running_thread ticks
  have hi : s'.idle_thread = s.idle_thread := by
    rw [he]
    split_ifs
    · exact has.2.2.2.1.trans hf.2.1
    · exact has.2.2.2.1.trans hf.2.1
  have hin : s'.initial_thread = s.initial_thread := by
    rw [he]
    split_ifs
    · exact has.2.2.2.2.1.trans hf.2.2.1
    · exact has.2.2.2.2.1.trans hf.2.2.1
  exact ⟨hcur, hAd, hn, hnd, hr, hrl, hd, hm, hsl, hi, hin⟩

/-- What a returning `thread_create` went through, member by member: either no
page was allocated, or the caller is a valid running thread in another page,
the new record was stored in `page` and unblocked (state `s3`), and then the
caller either returned or yielded. -/
theorem thread_create_inv_full (E : Env) (s s' : State) (name : Nat) (priority : Int)
    (function page : Nat) (tid : Int)
    (h : thread_create E s name priority function page = .ok (s', tid)) :
    (page = 0 ∧ s' = s) ∨
      (page ≠ 0 ∧ s.running_thread ≠ page ∧ thread_current s = .ok s.running_thread ∧
        ∃ s3, s3.running_thread = s.running_thread ∧
          (∀ a, s3.mem a = if a = page
            then some { blank_thread priority with tid := s.next_tid, status := THREAD_READY }
            else s.mem a) ∧
          s3.ready_list = list_insert_ordered (cmp_priority s3) page s.ready_list ∧
          s3.destruction_req = s.destruction_req ∧
          same_aside { s with next_tid := s.next_tid + 1, sleep_list := s3.sleep_list } s3 ∧
          s3.sleep_list
            = list_relinked page (list_behind (cmp_priority s3) page s.ready_list)
                s.sleep_list ∧
          (s' = s3 ∨ thread_yield s3 = .ok s')) := by
  have h0 := h
  unfold thread_create at h
  by_cases h1 : function = 0
  · rw [if_pos h1] at h; cases h
  rw [if_neg h1] at h
  dsimp only at h
  by_cases h2 : page = 0
  · rw [if_pos h2] at h
    cases h
    exact Or.inl ⟨h2, rfl⟩
  rw [if_neg h2] at h
  right
  cases h3 : init_thread E s page name priority with
  | error e => rw [h3] at h; cases h
  | ok s1 =>
    rw [h3] at h
    dsimp only at h
    obtain ⟨-, hmin, hmax, hname, rfl⟩ := init_thread_ok E s s1 page name priority h3
    cases h4 : thread_unblock (modify (allocate_tid
        { s with mem := fun a => if a = page then some (blank_thread priority) else s.mem a }).1
        page (fun th => { th with tid := (allocate_tid
          { s with mem := fun a => if a = page then some (blank_thread priority)
                                   else s.mem a }).2 })) page with
    | error e => rw [h4] at h; cases h
    | ok s3 =>
      rw [h4] at h
      dsimp only at h
      obtain ⟨-, -, hs3⟩ := (thread_unblock_ok_iff _ s3 page).1 h4
      cases h5 : thread_current s3 with
      | error e => rw [h5] at h; cases h
      | ok cur =>
        obtain ⟨hc1, hc0, th, hth, hmag, hthst⟩ := (thread_current_ok s3 cur).1 h5
        have hrun : s3.running_thread = s.running_thread := by rw [hs3]; rfl
        have hmp : (s3.mem page).map thread.status = some THREAD_READY := by
          rw [hs3]
          simp [intr_set_level, set_status, intr_disable, allocate_tid]
        have hne : s.running_thread ≠ page := by
          intro e
          rw [hc1, hrun, e] at hth
          rw [hth] at hmp
          simp [hthst] at hmp
        have hmem : s3.mem s.running_thread = s.mem s.running_thread := by
          rw [hs3]
          simp [intr_set_level, set_status, intr_disable, allocate_tid, hne]
        have hcur : thread_current s = .ok s.running_thread := by
          rw [thread_current_ok]
          refine ⟨rfl, ?_, th, ?_, hmag, hthst⟩
          · rw [← hrun, ← hc1]; exact hc0
          · rw [← hmem, ← hrun, ← hc1]; exact hth
        obtain ⟨t3, hr3, hm3, hrl3, hd3, -, -, has3, hsl3, heq⟩ :=
          thread_create_eq E s name priority function page h1 hname hmin hmax h2 hcur hne
        refine ⟨h2, hne, hcur, t3, hr3, hm3, hrl3, hd3, has3, hsl3, ?_⟩
        rw [heq] at h0
        split_ifs at h0
        · cases h6 : thread_yield t3 with
          | error e => rw [h6] at h0; cases h0
          | ok s4 =>
            rw [h6] at h0
            cases h0
            exact Or.inr rfl
        · cases h0
          exact Or.inl rfl

/-! ## The idle thread stays out of the queues -/

theorem idle_settled_of_same (s s' : State) (h1 : same_threads s s')
    (h2 : same_queues s s') (hs : idle_settled s) :
    idle_settled s' ∧ s'.idle_thread = s.idle_thread := by
  obtain ⟨a, b, c, d, -⟩ := h2
  obtain ⟨k1, k2, k3, k4⟩ := hs
  refine ⟨⟨?_, ?_, ?_, ?_⟩, d⟩
  · rw [d]
    intro hn
    have := h1.2 s.idle_thread
    rw [hn] at this
    cases hx : s.mem s.idle_thread with
    | none => exact k1 hx
    | some th => rw [hx] at this; cases this
  · rw [d, a]; exact k2
  · rw [d, b]; exact k3
  · rw [d, c]; exact k4

theorem thread_unblock_idle (s s' : State) (t : Nat) (h : thread_unblock s t = .ok s')
    (ht : t ≠ s.idle_thread) (hs : idle_settled s) :
    idle_settled s' ∧ s'.idle_thread = s.idle_thread := by
  obtain ⟨-, -, rfl⟩ := (thread_unblock_ok_iff s s' t).1 h
  obtain ⟨k1, k2, k3, k4⟩ := hs
  refine ⟨⟨?_, ?_, ?_, k4⟩, rfl⟩
  · have : (intr_set_level (set_status
        (ready_list_insert (intr_disable s) t)
        t THREAD_READY) s.level).mem s.idle_thread = s.mem s.idle_thread := by
      simp [intr_set_level, set_status, intr_disable, Ne.symm ht]
    intro hn
    exact k1 (this ▸ hn)
  · intro hm
    have hm2 : s.idle_thread ∈ list_insert_ordered (cmp_priority (intr_disable s)) t
        s.ready_list := hm
    rw [mem_list_insert_ordered] at hm2
    rcases hm2 with e | e
    · exact ht e.symm
    · exact k2 e
  · intro hm
    have hm2 : s.idle_thread ∈ (ready_list_insert (intr_disable s) t).sleep_list := hm
    rcases mem_ready_list_insert_sleep_list _ _ _ hm2 with e | e
    · exact k3 e
    · exact k2 e

/-- A thread that yields hands the processor to the idle thread only when it is
the idle thread itself and the ready queue is empty. -/
theorem thread_yield_picks_idle (s s' : State) (h : thread_yield s = .ok s')
    (hi : s.idle_thread ∉ s.ready_list) (hr : s'.running_thread = s.idle_thread) :
    s.ready_list = [] ∧ s.running_thread = s.idle_thread := by
  obtain ⟨-, -, -, -, -, hrun, -⟩ := thread_yield_inv s s' _ rfl h
  rw [next_thread_to_run_snd] at hrun
  by_cases e : s.running_thread = s.idle_thread
  · rw [thread_yield_enter_ready_idle s _ e] at hrun
    refine ⟨?_, e⟩
    cases hl : s.ready_list with
    | nil => rfl
    | cons x rest =>
      exfalso
      rw [hl] at hrun
      have : x = s.idle_thread := hrun.symm.trans hr
      exact hi (by rw [hl, this]; exact List.mem_cons_self _ _)
  · exfalso
    rw [thread_yield_enter_ready s _ e] at hrun
    have hmem : s'.running_thread
        ∈ list_insert_ordered (cmp_priority s) s.running_thread s.ready_list := by
      rw [hrun]
      cases hl : list_insert_ordered (cmp_priority s) s.running_thread s.ready_list with
      | nil =>
        have := (list_insert_ordered_perm (cmp_priority s) s.running_thread s.ready_list)
        rw [hl] at this
        exact absurd this.symm.eq_nil (by simp)
      | cons x rest => exact List.mem_cons_self _ _
    rw [mem_list_insert_ordered, hr] at hmem
    rcases hmem with h1 | h1
    · exact e h1.symm
    · exact hi h1

theorem thread_yield_idle (s s' : State) (h : thread_yield s = .ok s')
    (hs : idle_settled s) : idle_settled s' ∧ s'.idle_thread = s.idle_thread := by
  obtain ⟨-, -, -, -, -, -, hrl, hd, hm, -, -, has⟩ := thread_yield_inv s s' _ rfl h
  obtain ⟨k1, k2, k3, k4⟩ := hs
  have hi : s'.idle_thread = s.idle_thread := has.2.2.2.1
  refine ⟨⟨?_, ?_, ?_, ?_⟩, hi⟩
  · rw [hi, hm, if_neg k4]
    split_ifs
    · cases hx : s.mem s.idle_thread with
      | none => exact absurd hx k1
      | some th => simp
    · cases hx : s.mem s.idle_thread with
      | none => exact absurd hx k1
      | some th => simp
    · exact k1
  · rw [hi, hrl]
    intro hm2
    have hm3 := List.mem_of_mem_tail hm2
    by_cases e : s.running_thread = s.idle_thread
    · rw [thread_yield_enter_ready_idle s _ e] at hm3
      exact k2 hm3
    · rw [thread_yield_enter_ready s _ e, mem_list_insert_ordered] at hm3
      rcases hm3 with h1 | h1
      · exact e h1.symm
      · exact k2 h1
  · rw [hi, has.2.1]; exact k3
  · rw [hd]; simp

theorem thread_block_idle (s s' : State) (h : thread_block s = .ok s')
    (hs : idle_settled s) : idle_settled s' ∧ s'.idle_thread = s.idle_thread := by
  obtain ⟨-, -, -, hrl, hd, hm, has⟩ := thread_block_inv s s' _ rfl h
  obtain ⟨k1, k2, k3, k4⟩ := hs
  have hi : s'.idle_thread = s.idle_thread := has.2.2.2.1
  refine ⟨⟨?_, ?_, ?_, ?_⟩, hi⟩
  · rw [hi, hm]
    split_ifs
    · cases hx : s.mem s.idle_thread with
      | none => exact absurd hx k1
      | some th => simp
    · cases hx : s.mem s.idle_thread with
      | none => exact absurd hx k1
      | some th => simp
    · exact k1
  · rw [hi, hrl]
    exact fun hm2 => k2 (List.mem_of_mem_tail hm2)
  · rw [hi, has.2.1]; exact k3
  · rw [hi, hd]; exact k4

theorem thread_sleep_idle (s s' : State) (ticks : Int) (h : thread_sleep s ticks = .ok s')
    (hs : idle_settled s) : idle_settled s' ∧ s'.idle_thread = s.idle_thread := by
  obtain ⟨-, -, -, -, -, hrl, hd, hm, hsl, hi, -⟩ := thread_sleep_inv_full s s' ticks _ rfl h
  obtain ⟨k1, k2, k3, k4⟩ := hs
  refine ⟨⟨?_, ?_, ?_, ?_⟩, hi⟩
  · rw [hi, hm, if_neg k4]
    split_ifs
    · rw [modify_mem]
      cases hx : s.mem s.idle_thread with
      | none => exact absurd hx k1
      | some th => split_ifs <;> simp
    · cases hx : s.mem s.idle_thread with
      | none => exact absurd hx k1
      | some th => simp
    · exact k1
  · rw [hi, hrl]
    exact fun hm2 => k2 (List.mem_of_mem_tail hm2)
  · rw [hi, hsl]
    split_ifs with e
    · intro hm2
      rcases List.mem_append.1 hm2 with h1 | h1
      · exact k3 h1
      · exact e (List.mem_singleton.1 h1).symm
    · exact k3
  · rw [hd]; simp

theorem thread_exit_idle (s s' : State) (h : thread_exit s = .ok s')
    (hne : s.running_thread ≠ s.idle_thread) (hs : idle_settled s) :
    idle_settled s' ∧ s'.idle_thread = s.idle_thread := by
  obtain ⟨-, -, -, -, -, -, hrl, hd, hm, has⟩ := thread_exit_inv s s' _ rfl h
  obtain ⟨k1, k2, k3, k4⟩ := hs
  have hi : s'.idle_thread = s.idle_thread := has.2.2.2.1
  refine ⟨⟨?_, ?_, ?_, ?_⟩, hi⟩
  · rw [hi, hm, if_neg k4]
    split_ifs
    · cases hx : s.mem s.idle_thread with
      | none => exact absurd hx k1
      | some th => simp
    · cases hx : s.mem s.idle_thread with
      | none => exact absurd hx k1
      | some th => simp
    · exact k1
  · rw [hi, hrl]
    exact fun hm2 => k2 (List.mem_of_mem_tail hm2)
  · rw [hi, has.2.1]; exact k3
  · rw [hi, hd]
    split_ifs
    · intro hm2
      exact hne (List.mem_singleton.1 hm2).symm
    · simp

theorem thread_awake_loop_idle (E : Env) (ticks : Int) :
    ∀ (l : List Nat) (s s' : State), thread_awake_loop E ticks l s = .ok s' →
      (∀ t ∈ l, t ≠ s.idle_thread) → idle_settled s →
      idle_settled s' ∧ s'.idle_thread = s.idle_thread := by
  intro l
  induction l with
  | nil =>
    intro s s' h _ hs
    cases h
    exact ⟨hs, rfl⟩
  | cons t rest ih =>
    intro s s' h hl hs
    unfold thread_awake_loop at h
    cases h1 : s.mem t with
    | none => rw [h1] at h; cases h
    | some th =>
      rw [h1] at h
      dsimp only at h
      by_cases h2 : th.wakeup_tick ≤ ticks
      · rw [if_pos h2] at h
        cases h3 : thread_unblock { s with sleep_list := list_remove t s.sleep_list } t with
        | error e => rw [h3] at h; cases h
        | ok s1 =>
          rw [h3] at h
          have hs0 : idle_settled { s with sleep_list := list_remove t s.sleep_list } :=
            ⟨hs.1, hs.2.1, fun hm => hs.2.2.1 (List.mem_of_mem_erase hm), hs.2.2.2⟩
          obtain ⟨k1, k2⟩ := thread_unblock_idle _ s1 t h3 (hl t (List.mem_cons_self _ _)) hs0
          have k2b : s1.idle_thread = s.idle_thread := k2
          obtain ⟨k3, k4⟩ := ih s1 s' h
            (fun x hx => by rw [k2b]; exact hl x (List.mem_cons_of_mem _ hx)) k1
          exact ⟨k3, k4.trans k2b⟩
      · rw [if_neg h2] at h
        have hs0 : idle_settled (update_next_tick_to_awake E s th.wakeup_tick) := hs
        exact ih (update_next_tick_to_awake E s th.wakeup_tick) s' h
          (fun x hx => hl x (List.mem_cons_of_mem _ hx)) hs0

theorem thread_awake_idle (E : Env) (s s' : State) (ticks : Int)
    (h : thread_awake E s ticks = .ok s') (hs : idle_settled s) :
    idle_settled s' ∧ s'.idle_thread = s.idle_thread := by
  have hs0 : idle_settled { s with next_tick_to_awake := INT64_MAX } := hs
  exact thread_awake_loop_idle E ticks s.sleep_list { s with next_tick_to_awake := INT64_MAX }
    s' h (fun t ht e => hs.2.2.1 (e ▸ ht)) hs0

theorem thread_create_idle (E : Env) (s s' : State) (name : Nat) (priority : Int)
    (function page : Nat) (tid : Int)
    (h : thread_create E s name priority function page = .ok (s', tid))
    (ha : page = 0 ∨ s.mem page = none) (hs : idle_settled s) :
    (idle_settled s' ∧ s'.idle_thread = s.idle_thread) ∧
      (s'.running_thread = s.idle_thread → s.running_thread = s.idle_thread) := by
  rcases thread_create_inv_full E s s' name priority function page tid h with
    ⟨-, rfl⟩ | ⟨hp, -, -, s3, hr3, hm3, hrl3, hd3, has3, hsl3, hs'⟩
  · exact ⟨⟨hs, rfl⟩, fun h => h⟩
  · have hfresh : s.mem page = none := ha.resolve_left hp
    obtain ⟨k1, k2, k3, k4⟩ := hs
    have hne : s.idle_thread ≠ page := by
      intro e
      rw [e] at k1
      exact k1 hfresh
    have hi3 : s3.idle_thread = s.idle_thread := has3.2.2.2.1
    have hs3 : idle_settled s3 := by
      refine ⟨?_, ?_, ?_, ?_⟩
      · rw [hi3, hm3, if_neg hne]; exact k1
      · rw [hi3, hrl3, mem_list_insert_ordered]
        rintro (e | e)
        · exact hne e
        · exact k2 e
      · rw [hi3, hsl3]
        intro hm
        rcases mem_list_relinked _ _ _ _ hm with e | e
        · exact k3 e
        · exact k2 (mem_list_behind _ _ _ _ e)
      · rw [hi3, hd3]; exact k4
    rcases hs' with rfl | hy
    · exact ⟨⟨hs3, hi3⟩, fun h => hr3 ▸ h⟩
    · obtain ⟨j1, j2⟩ := thread_yield_idle s3 s' hy hs3
      refine ⟨⟨j1, j2.trans hi3⟩, ?_⟩
      intro hrun
      exfalso
      have := (thread_yield_picks_idle s3 s' hy hs3.2.1 (by rw [hi3]; exact hrun)).1
      have hmem : page ∈ s3.ready_list := by
        rw [hrl3, mem_list_insert_ordered]; exact Or.inl rfl
      rw [this] at hmem
      cases hmem

theorem test_max_priority_idle (s s' : State) (h : test_max_priority s = .ok s')
    (hs : idle_settled s) :
    (idle_settled s' ∧ s'.idle_thread = s.idle_thread) ∧
      (s'.running_thread = s.idle_thread → s.running_thread = s.idle_thread) := by
  unfold test_max_priority at h
  split at h
  · cases h
    exact ⟨⟨hs, rfl⟩, fun h => h⟩
  · rename_i hd tl hl
    split at h
    · cases h
    · split at h
      · cases h
      · split at h
        · refine ⟨thread_yield_idle s s' h hs, ?_⟩
          intro hrun
          exfalso
          have := (thread_yield_picks_idle s s' h hs.2.1 hrun).1
          rw [this] at hl
          cases hl
        · cases h
          exact ⟨⟨hs, rfl⟩, fun h => h⟩

theorem thread_set_priority_idle (s s' : State) (p : Int)
    (h : thread_set_priority s p = .ok s') (hs : idle_settled s) :
    (idle_settled s' ∧ s'.idle_thread = s.idle_thread) ∧
      (s'.running_thread = s.idle_thread → s.running_thread = s.idle_thread) := by
  unfold thread_set_priority at h
  split at h
  · cases h
  · dsimp only at h
    split at h
    · cases h
    · rename_i x1 cur hcur x2 s2 h2
      have k1 := idle_settled_of_same s
        (modify s cur (fun th => { th with init_priority := p }))
        (same_threads_modify s cur (fun th => { th with init_priority := p })
          (fun _ => ⟨rfl, rfl⟩))
        (same_queues_modify s _ _) hs
      have hst := refresh_priority_same _ s2 h2
      obtain ⟨k2, k3⟩ := idle_settled_of_same _ s2 hst (refresh_priority_queues _ s2 h2) k1.1
      have k3b : s2.idle_thread = s.idle_thread := k3
      have hr2 : s2.running_thread = s.running_thread := hst.1
      obtain ⟨⟨j1, j2⟩, j3⟩ := test_max_priority_idle s2 s' h k2
      refine ⟨⟨j1, j2.trans k3b⟩, ?_⟩
      intro hrun
      rw [← hr2, ← k3b]
      exact j3 (by rw [k3b]; exact hrun)

theorem thread_awake_loop_running (E : Env) (ticks : Int) :
    ∀ (l : List Nat) (s s' : State), thread_awake_loop E ticks l s = .ok s' →
      s'.running_thread = s.running_thread := by
  intro l
  induction l with
  | nil =>
    intro s s' h
    cases h
    rfl
  | cons t rest ih =>
    intro s s' h
    unfold thread_awake_loop at h
    cases h1 : s.mem t with
    | none => rw [h1] at h; cases h
    | some th =>
      rw [h1] at h
      dsimp only at h
      by_cases h2 : th.wakeup_tick ≤ ticks
      · rw [if_pos h2] at h
        cases h3 : thread_unblock { s with sleep_list := list_remove t s.sleep_list } t with
        | error e => rw [h3] at h; cases h
        | ok s1 =>
          rw [h3] at h
          obtain ⟨-, -, hs1⟩ := (thread_unblock_ok_iff _ s1 t).1 h3
          have : s1.running_thread = s.running_thread := by rw [hs1]; rfl
          exact (ih s1 s' h).trans this
      · rw [if_neg h2] at h
        exact ih (update_next_tick_to_awake E s th.wakeup_tick) s' h

theorem headD_idle (s : State) (hi : s.idle_thread ∉ s.ready_list)
    (h : (next_thread_to_run s).2 = s.idle_thread) : s.ready_list = [] := by
  rw [next_thread_to_run_snd] at h
  cases hl : s.ready_list with
  | nil => rfl
  | cons x rest =>
    exfalso
    rw [hl] at h
    have : x = s.idle_thread := h
    exact hi (by rw [hl, this]; exact List.mem_cons_self _ _)

/-- One operation from a state in which the idle thread is set up, made under
the discipline: the idle thread is still set up, and if it runs afterwards,
then either the operation passed through `schedule` with the ready queue empty
or the idle thread ran before and was not switched away from. -/
theorem step_idle (E : Env) (s s' : State) (op : Op) (ha : admissible s op)
    (hd : idle_discipline s op) (h : step E s op = .ok s') (hs : idle_settled s) :
    (idle_settled s' ∧ s'.idle_thread = s.idle_thread) ∧
      (s'.running_thread = s.idle_thread →
        (always_schedules op = true → s.ready_list = []) ∧
        (always_schedules op = false → s.running_thread = s.idle_thread)) := by
  have same : ∀ (_ : same_threads s s') (_ : same_queues s s')
      (_ : always_schedules op = false),
      (idle_settled s' ∧ s'.idle_thread = s.idle_thread) ∧
      (s'.running_thread = s.idle_thread →
        (always_schedules op = true → s.ready_list = []) ∧
        (always_schedules op = false → s.running_thread = s.idle_thread)) := by
    intro h1 h2 h3
    refine ⟨idle_settled_of_same s s' h1 h2 hs, fun hr => ⟨fun h4 => ?_, fun _ => ?_⟩⟩
    · rw [h3] at h4; cases h4
    · rw [← h1.1]; exact hr
  cases op with
  | thread_tick => exact same (thread_tick_same s s' h) (thread_tick_queues s s' h) rfl
  | thread_create name priority function page =>
    have h0 : (match thread_create E s name priority function page with
        | .error e => .error e
        | .ok r => .ok r.1) = Except.ok s' := h
    cases h1 : thread_create E s name priority function page with
    | error e => rw [h1] at h0; cases h0
    | ok r =>
      rw [h1] at h0
      cases h0
      obtain ⟨k1, k2⟩ := thread_create_idle E s r.1 name priority function page r.2 h1 ha hs
      exact ⟨k1, fun hr => ⟨fun h4 => (by cases h4), fun _ => k2 hr⟩⟩
  | thread_block =>
    refine ⟨thread_block_idle s s' h hs, fun hr => ⟨fun _ => ?_, fun h4 => (by cases h4)⟩⟩
    obtain ⟨-, -, hrun, -⟩ := thread_block_inv s s' _ rfl h
    exact headD_idle s hs.2.1 (hrun.symm.trans hr)
  | thread_unblock t =>
    refine ⟨thread_unblock_idle s s' t h hd hs, fun hr => ⟨fun h4 => (by cases h4), fun _ => ?_⟩⟩
    obtain ⟨-, -, hs'⟩ := (thread_unblock_ok_iff s s' t).1 h
    rw [hs'] at hr
    exact hr
  | thread_exit =>
    refine ⟨thread_exit_idle s s' h hd hs, fun hr => ⟨fun _ => ?_, fun h4 => (by cases h4)⟩⟩
    obtain ⟨-, -, -, -, -, hrun, -⟩ := thread_exit_inv s s' _ rfl h
    exact headD_idle s hs.2.1 (hrun.symm.trans hr)
  | thread_yield =>
    refine ⟨thread_yield_idle s s' h hs, fun hr => ⟨fun _ => ?_, fun h4 => (by cases h4)⟩⟩
    exact (thread_yield_picks_idle s s' h hs.2.1 hr).1
  | thread_set_priority p =>
    obtain ⟨k1, k2⟩ := thread_set_priority_idle s s' p h hs
    exact ⟨k1, fun hr => ⟨fun h4 => (by cases h4), fun _ => k2 hr⟩⟩
  | idle_entry =>
    have h0 : idle_entry s = .ok s' := h
    have hd0 : s.running_thread = s.idle_thread := hd
    unfold idle_entry at h0
    split at h0
    · cases h0
    · rename_i t ht
      cases h0
      have e : t = s.idle_thread := ((thread_current_ok s t).1 ht).1.trans hd0
      subst e
      exact ⟨⟨hs, rfl⟩, fun hr => ⟨fun h4 => (by cases h4), fun _ => hr⟩⟩
  | thread_sleep ticks =>
    refine ⟨thread_sleep_idle s s' ticks h hs,
      fun hr => ⟨fun _ => ?_, fun h4 => (by cases h4)⟩⟩
    obtain ⟨-, -, -, -, hrun, -⟩ := thread_sleep_inv_full s s' ticks _ rfl h
    exact headD_idle s hs.2.1 (hrun.symm.trans hr)
  | thread_awake ticks =>
    refine ⟨thread_awake_idle E s s' ticks h hs,
      fun hr => ⟨fun h4 => (by cases h4), fun _ => ?_⟩⟩
    have := thread_awake_loop_running E ticks s.sleep_list
      { s with next_tick_to_awake := INT64_MAX } s' h
    rw [this] at hr
    exact hr
  | test_max_priority =>
    obtain ⟨k1, k2⟩ := test_max_priority_idle s s' h hs
    exact ⟨k1, fun hr => ⟨fun h4 => (by cases h4), fun _ => k2 hr⟩⟩
  | donate_priority =>
    exact same (donate_priority_same s s' h) (donate_priority_queues s s' h) rfl
  | remove_with_lock lock =>
    exact same (remove_with_lock_same s s' lock h) (remove_with_lock_queues s s' lock h) rfl
  | refresh_priority =>
    exact same (refresh_priority_same s s' h) (refresh_priority_queues s s' h) rfl
  | intr_state l external =>
    cases h
    exact same (same_threads_of_mem _ _ rfl rfl) ⟨rfl, rfl, rfl, rfl, rfl⟩ rfl
  | lock_contention lock =>
    exact same (lock_contention_same s s' lock h) (lock_contention_queues s s' lock h) rfl
  | lock_acquired lock =>
    exact same (lock_acquired_same s s' lock h) (lock_acquired_queues s s' lock h) rfl
  | lock_released lock =>
    exact same (lock_released_same s s' lock h) (lock_released_queues s s' lock h) rfl
  | donor_recorded holder =>
    exact same (donor_recorded_same s s' holder h) (donor_recorded_queues s s' holder h) rfl

theorem runs_idle (E : Env) (s0 s : State) (h : RunsTo E idle_discipline s0 s)
    (h0 : idle_settled s0) : idle_settled s ∧ s.idle_thread = s0.idle_thread := by
  induction h with
  | refl => exact ⟨h0, rfl⟩
  | step s1 s2 op _ ha hd hstep ih =>
    obtain ⟨k1, k2⟩ := (step_idle E s1 s2 op ha hd hstep ih.1).1
    exact ⟨k1, k2.trans ih.2⟩

/-- A run that `run_under` gets through is a run under the discipline. -/
theorem run_under_runs_to (E : Env) (allowed : State → Op → Prop)
    [∀ s op, Decidable (allowed s op)] (ops : List Op) :
    ∀ (s0 s s' : State), RunsTo E allowed s0 s → run_under E allowed s ops = .ok s' →
      RunsTo E allowed s0 s' := by
  induction ops with
  | nil =>
    intro s0 s s' hs h
    have : s = s' := by simpa [run_under] using h
    exact this ▸ hs
  | cons op ops ih =>
    intro s0 s s' hs h
    unfold run_under at h
    by_cases ha : admissible s op ∧ allowed s op
    · rw [if_pos ha] at h
      cases hst : step E s op with
      | error e => rw [hst] at h; cases h
      | ok s1 =>
        rw [hst] at h
        exact ih s0 s1 s' (RunsTo.step s0 s s1 op hs ha.1 ha.2 hst) h
    · rw [if_neg ha] at h
      cases h

/-- C22 as amended: let the idle thread be set up in `s0` (`idle_thread`
addresses a thread record that is in none of the queues), and let `s` be
reached from `s0` by operations of thread.c called by any running thread, the
idle thread included, except that `thread_unblock` is not applied to the idle
thread, the idle thread does not call `thread_exit`, and no other thread runs
the function `idle`.  Then `idle_thread` is as in `s0`, it still addresses a
thread record, and it is a member of neither the ready queue nor the sleep
queue (nor the destruction queue).  `next_thread_to_run` returns the idle thread
only for an empty ready queue; and if the idle thread runs after a further
operation, then either the operation passed through `schedule` with the ready
queue empty, or the idle thread ran before the operation and was not switched
away from. -/
theorem idle_thread_out_of_queues (E : Env) (s0 s : State) (h0 : idle_settled s0)
    (hrun : RunsTo E idle_discipline s0 s) :
    s.idle_thread = s0.idle_thread ∧ s.mem s.idle_thread ≠ none ∧
    s.idle_thread ∉ s.ready_list ∧ s.idle_thread ∉ s.sleep_list ∧
    s.idle_thread ∉ s.destruction_req ∧
    ((next_thread_to_run s).2 = s.idle_thread → s.ready_list = []) ∧
    ∀ op s', admissible s op → idle_discipline s op → step E s op = .ok s' →
      s'.running_thread = s.idle_thread →
      (always_schedules op = true → s.ready_list = []) ∧
      (always_schedules op = false → s.running_thread = s.idle_thread) := by
  obtain ⟨⟨k1, k2, k3, k4⟩, k5⟩ := runs_idle E s0 s hrun h0
  refine ⟨k5, k1, k2, k3, k4, headD_idle s k2, ?_⟩
  intro op s' ha hd hstep hr
  exact (step_idle E s s' op ha hd hstep ⟨k1, k2, k3, k4⟩).2 hr

/-- Witness for C22: in `state_idle_runs` the idle thread 2 is set up; after the
run `run_with_idle` (the idle thread unblocks the main thread and yields, the
main thread creates a thread that goes to sleep, and blocks) the idle thread
runs again, the ready queue is empty, the sleep queue holds thread 3, and the
idle thread is in neither. -/
theorem idle_thread_out_of_queues_witness :
    state_with_idle.idle_thread = 2 ∧ state_with_idle.running_thread = 2 ∧
      state_with_idle.sleep_list = [3] ∧
      state_with_idle.idle_thread ∉ state_with_idle.ready_list ∧
      state_with_idle.idle_thread ∉ state_with_idle.sleep_list := by
  have hr : RunsTo stdEnv idle_discipline state_idle_runs state_with_idle :=
    run_under_runs_to stdEnv idle_discipline run_with_idle state_idle_runs state_idle_runs _
      (RunsTo.refl _) (returned_eq_ok _ (by decide!))
  obtain ⟨h1, -, h2, h3, -⟩ :=
    idle_thread_out_of_queues stdEnv state_idle_runs state_with_idle
      (by unfold idle_settled; decide!) hr
  exact ⟨h1.trans (by decide!), by decide!, by decide!, h2, h3⟩

/-- C22, counterexample to the claim as stated: `state_idle_runs` is reached by
a run from `thread_init`; the idle thread 2 is set up, runs, and is in none of
the queues.  In the run `run_idle_exit` (the idle thread unblocks thread 1 and
calls `thread_exit`; thread 1 yields and creates a thread, for which the
allocator hands out the freed page 2) `thread_unblock` is never applied to the
idle thread; in the state it ends in, `idle_thread` is still 2 and is a member
of the ready queue. -/
theorem idle_thread_exit_reenters_ready_queue :
    Reachable stdEnv state_idle_runs ∧ state_idle_runs.idle_thread = 2 ∧
      state_idle_runs.running_thread = 2 ∧ idle_settled state_idle_runs ∧
      run stdEnv state_idle_runs run_idle_exit = .ok state_idle_exit ∧
      Reachable stdEnv state_idle_exit ∧
      state_idle_exit.idle_thread = 2 ∧ state_idle_exit.ready_list = [2] ∧
      state_idle_exit.idle_thread ∈ state_idle_exit.ready_list := by
  have h1 : Reachable stdEnv state_idle_runs :=
    boot_run_reachable stdEnv 1 run_idle (by decide!)
  have h2 : run stdEnv state_idle_runs run_idle_exit = .ok state_idle_exit :=
    returned_eq_ok _ (by decide!)
  exact ⟨h1, by decide!, by decide!, by unfold idle_settled; decide!, h2,
    run_reachable stdEnv run_idle_exit _ _ h1 h2, by decide!, by decide!, by decide!⟩

/-! ## Queue membership -/

theorem well_queued_of_same (s s' : State) (h1 : same_threads s s')
    (h2 : same_queues s s') (hs : well_queued s) : well_queued s' := by
  obtain ⟨a, b, c, d, -⟩ := h2
  obtain ⟨w1, w2, w3, w4, w5, w6, w7, w8⟩ := hs
  have hst : ∀ x, status_of s' x = status_of s x := same_threads_status s s' h1
  refine ⟨?_, ?_, ?_, ?_, ?_, ?_, ?_, ?_⟩
  · intro r hr; rw [hst]; exact w1 r (a ▸ hr)
  · intro r hr; rw [hst]; exact w2 r (b ▸ hr)
  · intro r hr; rw [hst]; exact w3 r (c ▸ hr)
  · rw [a]; exact w4
  · rw [b]; exact w5
  · rw [c]; exact w6
  · rw [d, b]; exact w7
  · rw [d, c]; exact w8

theorem thread_unblock_queued (s s' : State) (t : Nat) (h : thread_unblock s t = .ok s')
    (ht : t ∉ s.sleep_list) (hs : well_queued s) : well_queued s' := by
  obtain ⟨-, hb, rfl⟩ := (thread_unblock_ok_iff s s' t).1 h
  obtain ⟨w1, w2, w3, w4, w5, w6, w7, w8⟩ := hs
  have hst : ∀ x, x ≠ t → status_of (intr_set_level (set_status
      (ready_list_insert (intr_disable s) t)
      t THREAD_READY) s.level) x = status_of s x := by
    intro x hx
    simp [status_of, intr_set_level, set_status, intr_disable, hx]
  have hstt : status_of (intr_set_level (set_status
      (ready_list_insert (intr_disable s) t)
      t THREAD_READY) s.level) t = some THREAD_READY := by
    cases hx : s.mem t with
    | none => simp [status_of, hx] at hb
    | some th => simp [status_of, intr_set_level, set_status, intr_disable, hx]
  have htr : t ∉ s.ready_list := by
    intro hm
    have := w1 t hm
    rw [hb] at this
    cases this
  have hsl : (intr_set_level (set_status
      (ready_list_insert (intr_disable s) t)
      t THREAD_READY) s.level).sleep_list = s.sleep_list :=
    ready_list_insert_sleep_list (intr_disable s) t ht
  refine ⟨?_, ?_, ?_, ?_, by rw [hsl]; exact w5, w6, by rw [hsl]; exact w7, w8⟩
  · intro r hr
    have hr2 : r ∈ list_insert_ordered (cmp_priority (intr_disable s)) t s.ready_list := hr
    rw [mem_list_insert_ordered] at hr2
    by_cases e : r = t
    · rw [e]; exact hstt
    · rw [hst r e]
      exact w1 r (hr2.resolve_left e)
  · intro r hr
    have hr2 : r ∈ s.sleep_list := by rw [← hsl]; exact hr
    have e : r ≠ t := fun e => ht (e ▸ hr2)
    rw [hst r e]
    exact w2 r hr2
  · intro r hr
    have hr2 : r ∈ s.destruction_req := hr
    have e : r ≠ t := by
      intro e
      have := w3 r hr2
      rw [e, hb] at this
      cases this
    rw [hst r e]
    exact w3 r hr2
  · have hp := list_insert_ordered_perm (cmp_priority (intr_disable s)) t s.ready_list
    exact (hp.nodup_iff).2 (List.nodup_cons.2 ⟨htr, w4⟩)

/-- The pass through `do_schedule (st)` restores the typing of the queues: on
entry the running thread may already stand in the ready queue (when `st` is
THREAD_READY) or in the sleep queue (when `st` is THREAD_BLOCKED); the idle
thread does not enter with THREAD_DYING. -/
theorem do_schedule_queued (x s' : State) (st : thread_status)
    (h : do_schedule x st = .ok s')
    (p1 : ∀ r ∈ x.ready_list, status_of x r = some THREAD_READY ∨
      (r = x.running_thread ∧ st = THREAD_READY))
    (p2 : ∀ r ∈ x.sleep_list, status_of x r = some THREAD_BLOCKED ∨
      (r = x.running_thread ∧ st = THREAD_BLOCKED))
    (p3 : ∀ r ∈ x.destruction_req, status_of x r = some THREAD_DYING)
    (p4 : x.ready_list.Nodup) (p5 : x.sleep_list.Nodup)
    (p6 : x.idle_thread ∉ x.sleep_list)
    (p8 : st = THREAD_DYING → x.running_thread ≠ x.idle_thread) :
    well_queued s' := by
  obtain ⟨-, hc, hA, hst, hn, hnd, hr, hrl, hd, hm, -, -, has⟩ := do_schedule_inv x s' st h
  obtain ⟨-, -, c, hcm, -, hcst⟩ := (thread_current_ok x _).1 hc
  have hrun : status_of x x.running_thread = some THREAD_RUNNING := by
    simp [status_of, hcm, hcst]
  set N := (next_thread_to_run x).2 with hN
  have hNh : N = x.ready_list.headD x.idle_thread := next_thread_to_run_snd x
  -- the status of a record after the pass
  have hs1 : ∀ a, a ∉ x.destruction_req → a ≠ N → a ≠ x.running_thread →
      status_of s' a = status_of x a := by
    intro a h1 h2 h3
    unfold status_of
    rw [hm, if_neg h1, if_neg h2, if_neg h3]
  have hs2 : N ≠ x.running_thread → status_of s' x.running_thread = some st := by
    intro h2
    unfold status_of
    rw [hm, if_neg hA, if_neg (Ne.symm h2), if_pos rfl, hcm]
    rfl
  -- a member of the ready or sleep queue is not queued for destruction
  have hnr : ∀ r ∈ x.ready_list, r ∉ x.destruction_req := by
    intro r hr1 hr2
    have h3 := p3 r hr2
    rcases p1 r hr1 with h1 | ⟨h1, -⟩
    · rw [h1] at h3; cases h3
    · rw [h1, hrun] at h3; cases h3
  have hns : ∀ r ∈ x.sleep_list, r ∉ x.destruction_req := by
    intro r hr1 hr2
    have h3 := p3 r hr2
    rcases p2 r hr1 with h1 | ⟨h1, -⟩
    · rw [h1] at h3; cases h3
    · rw [h1, hrun] at h3; cases h3
  -- the thread picked is not in the sleep queue
  have hNs : N ∉ x.sleep_list := by
    intro hNm
    cases hl : x.ready_list with
    | nil =>
      rw [hl] at hNh
      exact p6 (by rw [← (show N = x.idle_thread from hNh)]; exact hNm)
    | cons y rest =>
      rw [hl] at hNh
      have hy : N = y := hNh
      have hyr : N ∈ x.ready_list := by rw [hl, hy]; exact List.mem_cons_self _ _
      rcases p1 N hyr with h1 | ⟨h1, h1s⟩
      · rcases p2 N hNm with h2 | ⟨h2, -⟩
        · rw [h1] at h2; cases h2
        · rw [h2, hrun] at h1; cases h1
      · rcases p2 N hNm with h2 | ⟨-, h2s⟩
        · rw [h1, hrun] at h2; cases h2
        · rw [h1s] at h2s; cases h2s
  refine ⟨?_, ?_, ?_, ?_, ?_, ?_, ?_, ?_⟩
  · intro r hr1
    rw [hrl] at hr1
    have hr2 : r ∈ x.ready_list := List.mem_of_mem_tail hr1
    have hrN : r ≠ N := by
      cases hl : x.ready_list with
      | nil => rw [hl] at hr1; cases hr1
      | cons y rest =>
        rw [hl] at hNh hr1 p4
        have hy : N = y := hNh
        rw [hy]
        intro e
        exact (List.nodup_cons.1 p4).1 (e ▸ hr1)
    by_cases e : r = x.running_thread
    · rcases p1 r hr2 with h1 | ⟨-, h1⟩
      · rw [e, hrun] at h1; cases h1
      · rw [e, hs2 (fun h2 => hrN (e.trans h2.symm)), h1]
    · rw [hs1 r (hnr r hr2) hrN e]
      exact (p1 r hr2).resolve_right (fun h1 => e h1.1)
  · intro r hr1
    rw [has.2.1] at hr1
    have hrN : r ≠ N := fun e => hNs (e ▸ hr1)
    by_cases e : r = x.running_thread
    · rcases p2 r hr1 with h1 | ⟨-, h1⟩
      · rw [e, hrun] at h1; cases h1
      · rw [e, hs2 (fun h2 => hrN (e.trans h2.symm)), h1]
    · rw [hs1 r (hns r hr1) hrN e]
      exact (p2 r hr1).resolve_right (fun h1 => e h1.1)
  · intro r hr1
    rw [hd] at hr1
    split_ifs at hr1 with hc1
    · have e : r = x.running_thread := List.mem_singleton.1 hr1
      rw [e, hs2 (Ne.symm hc1.1), hc1.2.1]
    · cases hr1
  · rw [hrl]
    exact p4.sublist (List.tail_sublist _)
  · rw [has.2.1]; exact p5
  · rw [hd]
    split_ifs
    · exact List.nodup_singleton _
    · exact List.nodup_nil
  · rw [has.2.2.2.1, has.2.1]; exact p6
  · rw [has.2.2.2.1, hd]
    split_ifs with hc1
    · intro hm1
      exact p8 hc1.2.1 (List.mem_singleton.1 hm1).symm
    · simp

theorem well_queued_level (s : State) (l : intr_level) (h : well_queued s) :
    well_queued (intr_set_level s l) := h

theorem thread_yield_queued (s s' : State) (h : thread_yield s = .ok s')
    (hs : well_queued s) : well_queued s' := by
  obtain ⟨hcur, -, s1, hd, he⟩ := (thread_yield_ok_iff s s').1 h
  obtain ⟨w1, w2, w3, w4, w5, w6, w7, w8⟩ := hs
  obtain ⟨-, -, c, hcm, -, hcst⟩ := (thread_current_ok s _).1 hcur
  have hrun : status_of s s.running_thread = some THREAD_RUNNING := by
    simp [status_of, hcm, hcst]
  have hnr : s.running_thread ∉ s.ready_list := by
    intro hm
    have := w1 _ hm
    rw [hrun] at this
    cases this
  have hst : ∀ a, status_of (thread_yield_enter s s.running_thread) a = status_of s a := by
    intro a
    unfold status_of
    rw [thread_yield_enter_mem]
  have hrl : ∀ r ∈ (thread_yield_enter s s.running_thread).ready_list,
      r = s.running_thread ∨ r ∈ s.ready_list := by
    intro r hr
    by_cases e : s.running_thread = s.idle_thread
    · rw [thread_yield_enter_ready_idle s _ e] at hr
      exact Or.inr hr
    · rw [thread_yield_enter_ready s _ e, mem_list_insert_ordered] at hr
      exact hr
  have hnd : (thread_yield_enter s s.running_thread).ready_list.Nodup := by
    by_cases e : s.running_thread = s.idle_thread
    · rw [thread_yield_enter_ready_idle s _ e]; exact w4
    · rw [thread_yield_enter_ready s _ e]
      exact ((list_insert_ordered_perm _ _ _).nodup_iff).2 (List.nodup_cons.2 ⟨hnr, w4⟩)
  have has := thread_yield_enter_aside s s.running_thread
  have k : well_queued s1 := by
    apply do_schedule_queued _ s1 _ hd
    · intro r hr
      rcases hrl r hr with e | e
      · exact Or.inr ⟨e.trans (thread_yield_enter_running s _).symm, rfl⟩
      · exact Or.inl ((hst r).trans (w1 r e))
    · intro r hr
      rw [has.2.1] at hr
      exact Or.inl ((hst r).trans (w2 r hr))
    · intro r hr
      rw [thread_yield_enter_destruction_req] at hr
      exact (hst r).trans (w3 r hr)
    · exact hnd
    · rw [has.2.1]; exact w5
    · rw [has.2.2.2.1, has.2.1]; exact w7
    · intro h2; cases h2
  rw [he]
  split_ifs
  · exact well_queued_level s1 _ k
  · exact k

theorem thread_sleep_queued (s s' : State) (ticks : Int)
    (h : thread_sleep s ticks = .ok s') (hs : well_queued s) : well_queued s' := by
  obtain ⟨hcur, -, s1, hd, he⟩ := (thread_sleep_ok_iff s s' ticks).1 h
  obtain ⟨w1, w2, w3, w4, w5, w6, w7, w8⟩ := hs
  obtain ⟨-, -, c, hcm, -, hcst⟩ := (thread_current_ok s _).1 hcur
  have hrun : status_of s s.running_thread = some THREAD_RUNNING := by
    simp [status_of, hcm, hcst]
  have hns : s.running_thread ∉ s.sleep_list := by
    intro hm
    have := w2 _ hm
    rw [hrun] at this
    cases this
  have hst : ∀ a, status_of (thread_sleep_enter s s.running_thread ticks) a
      = status_of s a := by
    intro a
    unfold status_of
    rw [thread_sleep_enter_mem, modify_mem]
    split_ifs
    · cases s.mem a <;> rfl
    · rfl
  have hf := thread_sleep_enter_fields s s.running_thread ticks
  have hsl := thread_sleep_enter_sleep_list s s.running_thread ticks
  have k : well_queued s1 := by
    apply do_schedule_queued _ s1 _ hd
    · intro r hr
      rw [thread_sleep_enter_ready] at hr
      exact Or.inl ((hst r).trans (w1 r hr))
    · intro r hr
      rw [hsl] at hr
      split_ifs at hr with e
      · rcases List.mem_append.1 hr with h1 | h1
        · exact Or.inl ((hst r).trans (w2 r h1))
        · exact Or.inr ⟨(List.mem_singleton.1 h1).trans
            (thread_sleep_enter_running s _ _).symm, rfl⟩
      · exact Or.inl ((hst r).trans (w2 r hr))
    · intro r hr
      rw [thread_sleep_enter_destruction_req] at hr
      exact (hst r).trans (w3 r hr)
    · rw [thread_sleep_enter_ready]; exact w4
    · rw [hsl]
      split_ifs
      · exact List.Nodup.append w5 (List.nodup_singleton _)
          (by
            intro a ha hb
            exact hns ((List.mem_singleton.1 hb) ▸ ha))
      · exact w5
    · rw [hf.2.1, hsl]
      split_ifs with e
      · intro hm
        rcases List.mem_append.1 hm with h1 | h1
        · exact w7 h1
        · exact e (List.mem_singleton.1 h1).symm
      · exact w7
    · intro h2; cases h2
  rw [he]
  split_ifs
  · exact well_queued_level s1 _ k
  · exact k

theorem thread_exit_queued (s s' : State) (h : thread_exit s = .ok s')
    (hne : s.running_thread ≠ s.idle_thread) (hs : well_queued s) : well_queued s' := by
  obtain ⟨-, hd, -⟩ := (thread_exit_ok_iff s s').1 h
  obtain ⟨w1, w2, w3, w4, w5, w6, w7, w8⟩ := hs
  exact do_schedule_queued _ s' _ hd (fun r hr => Or.inl (w1 r hr))
    (fun r hr => Or.inl (w2 r hr)) w3 w4 w5 w7 (fun _ => hne)

theorem thread_block_queued (s s' : State) (h : thread_block s = .ok s')
    (hs : well_queued s) : well_queued s' := by
  obtain ⟨hcur, -, -, hrl, hd, hm, has⟩ := thread_block_inv s s' _ rfl h
  obtain ⟨w1, w2, w3, w4, w5, w6, w7, w8⟩ := hs
  obtain ⟨-, -, c, hcm, -, hcst⟩ := (thread_current_ok s _).1 hcur
  have hrun : status_of s s.running_thread = some THREAD_RUNNING := by
    simp [status_of, hcm, hcst]
  set N := (next_thread_to_run s).2 with hN
  have hNh : N = s.ready_list.headD s.idle_thread := next_thread_to_run_snd s
  have hs1 : ∀ a, a ≠ N → a ≠ s.running_thread → status_of s' a = status_of s a := by
    intro a h2 h3
    unfold status_of
    rw [hm, if_neg h2, if_neg h3]
  have hNcase : N = s.idle_thread ∨ status_of s N = some THREAD_READY := by
    cases hl : s.ready_list with
    | nil => rw [hl] at hNh; exact Or.inl hNh
    | cons y rest =>
      rw [hl] at hNh
      have hy : N = y := hNh
      exact Or.inr (w1 N (by rw [hl, hy]; exact List.mem_cons_self _ _))
  refine ⟨?_, ?_, ?_, ?_, ?_, ?_, ?_, ?_⟩
  · intro r hr1
    rw [hrl] at hr1
    have hr2 : r ∈ s.ready_list := List.mem_of_mem_tail hr1
    have hrN : r ≠ N := by
      cases hl : s.ready_list with
      | nil => rw [hl] at hr1; cases hr1
      | cons y rest =>
        rw [hl] at hNh hr1 w4
        have hy : N = y := hNh
        rw [hy]
        intro e
        exact (List.nodup_cons.1 w4).1 (e ▸ hr1)
    have e : r ≠ s.running_thread := by
      intro e
      have := w1 r hr2
      rw [e, hrun] at this
      cases this
    rw [hs1 r hrN e]
    exact w1 r hr2
  · intro r hr1
    rw [has.2.1] at hr1
    have hrN : r ≠ N := by
      intro e
      rcases hNcase with h1 | h1
      · exact w7 (by rw [← h1, ← e]; exact hr1)
      · have := w2 r hr1
        rw [e, h1] at this
        cases this
    have e : r ≠ s.running_thread := by
      intro e
      have := w2 r hr1
      rw [e, hrun] at this
      cases this
    rw [hs1 r hrN e]
    exact w2 r hr1
  · intro r hr1
    rw [hd] at hr1
    have hrN : r ≠ N := by
      intro e
      rcases hNcase with h1 | h1
      · exact w8 (by rw [← h1, ← e]; exact hr1)
      · have := w3 r hr1
        rw [e, h1] at this
        cases this
    have e : r ≠ s.running_thread := by
      intro e
      have := w3 r hr1
      rw [e, hrun] at this
      cases this
    rw [hs1 r hrN e]
    exact w3 r hr1
  · rw [hrl]
    exact w4.sublist (List.tail_sublist _)
  · rw [has.2.1]; exact w5
  · rw [hd]; exact w6
  · rw [has.2.2.2.1, has.2.1]; exact w7
  · rw [has.2.2.2.1, hd]; exact w8

theorem thread_awake_loop_queued (E : Env) (ticks : Int) :
    ∀ (l : List Nat) (s s' : State), thread_awake_loop E ticks l s = .ok s' →
      l.Nodup → (∀ t ∈ l, t ∈ s.sleep_list) → well_queued s → well_queued s' := by
  intro l
  induction l with
  | nil =>
    intro s s' h _ _ hs
    cases h
    exact hs
  | cons t rest ih =>
    intro s s' h hnd hl hs
    obtain ⟨htr, hndr⟩ := List.nodup_cons.1 hnd
    unfold thread_awake_loop at h
    cases h1 : s.mem t with
    | none => rw [h1] at h; cases h
    | some th =>
      rw [h1] at h
      dsimp only at h
      by_cases h2 : th.wakeup_tick ≤ ticks
      · rw [if_pos h2] at h
        cases h3 : thread_unblock { s with sleep_list := list_remove t s.sleep_list } t with
        | error e => rw [h3] at h; cases h
        | ok s1 =>
          rw [h3] at h
          obtain ⟨w1, w2, w3, w4, w5, w6, w7, w8⟩ := hs
          have hs0 : well_queued { s with sleep_list := list_remove t s.sleep_list } :=
            ⟨w1, fun r hr => w2 r (List.mem_of_mem_erase hr), w3, w4, w5.erase t, w6,
              fun hm => w7 (List.mem_of_mem_erase hm), w8⟩
          have ht0 : t ∉ ({ s with sleep_list := list_remove t s.sleep_list } : State).sleep_list :=
            fun hm => ((List.Nodup.mem_erase_iff w5).1 hm).1 rfl
          have k1 := thread_unblock_queued _ s1 t h3 ht0 hs0
          obtain ⟨-, -, hs1⟩ := (thread_unblock_ok_iff _ s1 t).1 h3
          have hsl1 : s1.sleep_list = list_remove t s.sleep_list := by
            rw [hs1]
            exact ready_list_insert_sleep_list _ t ht0
          refine ih s1 s' h hndr ?_ k1
          intro x hx
          rw [hsl1]
          exact (List.Nodup.mem_erase_iff w5).2
            ⟨fun e => htr (e ▸ hx), hl x (List.mem_cons_of_mem _ hx)⟩
      · rw [if_neg h2] at h
        have hs0 : well_queued (update_next_tick_to_awake E s th.wakeup_tick) := hs
        exact ih (update_next_tick_to_awake E s th.wakeup_tick) s' h hndr
          (fun x hx => hl x (List.mem_cons_of_mem _ hx)) hs0

theorem thread_awake_queued (E : Env) (s s' : State) (ticks : Int)
    (h : thread_awake E s ticks = .ok s') (hs : well_queued s) : well_queued s' := by
  have hs0 : well_queued { s with next_tick_to_awake := INT64_MAX } := hs
  exact thread_awake_loop_queued E ticks s.sleep_list { s with next_tick_to_awake := INT64_MAX }
    s' h hs.2.2.2.2.1 (fun t ht => ht) hs0

theorem thread_create_queued (E : Env) (s s' : State) (name : Nat) (priority : Int)
    (function page : Nat) (tid : Int)
    (h : thread_create E s name priority function page = .ok (s', tid))
    (ha : page = 0 ∨ s.mem page = none) (hs : well_queued s) : well_queued s' := by
  rcases thread_create_inv_full E s s' name priority function page tid h with
    ⟨-, rfl⟩ | ⟨hp, -, -, s3, hr3, hm3, hrl3, hd3, has3, hsl, hs'⟩
  · exact hs
  · have hfresh : s.mem page = none := ha.resolve_left hp
    have hsp : status_of s page = none := by simp [status_of, hfresh]
    obtain ⟨w1, w2, w3, w4, w5, w6, w7, w8⟩ := hs
    have hst : ∀ a, a ≠ page → status_of s3 a = status_of s a := by
      intro a ha2
      unfold status_of
      rw [hm3, if_neg ha2]
    have hstp : status_of s3 page = some THREAD_READY := by
      unfold status_of
      rw [hm3, if_pos rfl]
      rfl
    have hne : ∀ a, (∃ v, status_of s a = some v) → a ≠ page := by
      rintro a ⟨v, hv⟩ e
      rw [e, hsp] at hv
      cases hv
    have hi3 : s3.idle_thread = s.idle_thread := has3.2.2.2.1
    have hsl3 : s3.sleep_list = s.sleep_list := by
      rw [hsl]
      exact list_relinked_of_not_mem _ _ _ (fun hm => hne page ⟨_, w2 page hm⟩ rfl)
    have k : well_queued s3 := by
      refine ⟨?_, ?_, ?_, ?_, ?_, ?_, ?_, ?_⟩
      · intro r hr
        rw [hrl3, mem_list_insert_ordered] at hr
        by_cases e : r = page
        · rw [e]; exact hstp
        · rw [hst r e]; exact w1 r (hr.resolve_left e)
      · intro r hr
        rw [hsl3] at hr
        rw [hst r (hne r ⟨_, w2 r hr⟩)]
        exact w2 r hr
      · intro r hr
        rw [hd3] at hr
        rw [hst r (hne r ⟨_, w3 r hr⟩)]
        exact w3 r hr
      · rw [hrl3]
        refine ((list_insert_ordered_perm _ _ _).nodup_iff).2 (List.nodup_cons.2 ⟨?_, w4⟩)
        exact fun hm => hne page ⟨_, w1 page hm⟩ rfl
      · rw [hsl3]; exact w5
      · rw [hd3]; exact w6
      · rw [hi3, hsl3]; exact w7
      · rw [hi3, hd3]; exact w8
    rcases hs' with rfl | hy
    · exact k
    · exact thread_yield_queued s3 s' hy k

theorem test_max_priority_queued (s s' : State) (h : test_max_priority s = .ok s')
    (hs : well_queued s) : well_queued s' := by
  unfold test_max_priority at h
  split at h
  · cases h
    exact hs
  · split at h
    · cases h
    · split at h
      · cases h
      · split at h
        · exact thread_yield_queued s s' h hs
        · cases h
          exact hs

theorem thread_set_priority_queued (s s' : State) (p : Int)
    (h : thread_set_priority s p = .ok s') (hs : well_queued s) : well_queued s' := by
  unfold thread_set_priority at h
  split at h
  · cases h
  · dsimp only at h
    split at h
    · cases h
    · rename_i x1 cur hcur x2 s2 h2
      have k1 := well_queued_of_same s
        (modify s cur (fun th => { th with init_priority := p }))
        (same_threads_modify s cur (fun th => { th with init_priority := p })
          (fun _ => ⟨rfl, rfl⟩))
        (same_queues_modify s _ _) hs
      have k2 := well_queued_of_same _ s2 (refresh_priority_same _ s2 h2)
        (refresh_priority_queues _ s2 h2) k1
      exact test_max_priority_queued s2 s' h k2

theorem thread_init_queued (E : Env) (page : Nat) (s : State)
    (h : thread_init E (boot page) = .ok s) : well_queued s := by
  unfold thread_init at h
  rw [if_neg (by simp [boot])] at h
  dsimp only at h
  split at h
  · cases h
  · rename_i s1 h1
    obtain ⟨-, -, -, -, rfl⟩ := init_thread_ok E _ s1 _ _ _ h1
    cases h
    refine ⟨?_, ?_, ?_, List.nodup_nil, List.nodup_nil, List.nodup_nil, ?_, ?_⟩
    · intro r hr; cases hr
    · intro r hr; cases hr
    · intro r hr; cases hr
    · intro hm; cases hm
    · intro hm; cases hm

theorem step_queued (E : Env) (s s' : State) (op : Op) (ha : admissible s op)
    (hd : queue_discipline s op) (h : step E s op = .ok s') (hs : well_queued s) :
    well_queued s' := by
  cases op with
  | thread_tick =>
    exact well_queued_of_same s s' (thread_tick_same s s' h) (thread_tick_queues s s' h) hs
  | thread_create name priority function page =>
    have h0 : (match thread_create E s name priority function page with
        | .error e => .error e
        | .ok r => .ok r.1) = Except.ok s' := h
    cases h1 : thread_create E s name priority function page with
    | error e => rw [h1] at h0; cases h0
    | ok r =>
      rw [h1] at h0
      cases h0
      exact thread_create_queued E s r.1 name priority function page r.2 h1 ha hs
  | thread_block => exact thread_block_queued s s' h hs
  | thread_unblock t => exact thread_unblock_queued s s' t h hd hs
  | thread_exit => exact thread_exit_queued s s' h hd hs
  | thread_yield => exact thread_yield_queued s s' h hs
  | thread_set_priority p => exact thread_set_priority_queued s s' p h hs
  | idle_entry =>
    have h0 : idle_entry s = .ok s' := h
    unfold idle_entry at h0
    split at h0
    · cases h0
    · rename_i t ht
      cases h0
      obtain ⟨w1, w2, w3, w4, w5, w6, w7, w8⟩ := hs
      obtain ⟨rfl, -, c, hcm, -, hcst⟩ := (thread_current_ok s t).1 ht
      have hrun : status_of s s.running_thread = some THREAD_RUNNING := by
        simp [status_of, hcm, hcst]
      refine ⟨w1, w2, w3, w4, w5, w6, ?_, ?_⟩
      · intro hm
        have := w2 _ hm
        rw [hrun] at this
        cases this
      · intro hm
        have := w3 _ hm
        rw [hrun] at this
        cases this
  | thread_sleep ticks => exact thread_sleep_queued s s' ticks h hs
  | thread_awake ticks => exact thread_awake_queued E s s' ticks h hs
  | test_max_priority => exact test_max_priority_queued s s' h hs
  | donate_priority =>
    exact well_queued_of_same s s' (donate_priority_same s s' h)
      (donate_priority_queues s s' h) hs
  | remove_with_lock lock =>
    exact well_queued_of_same s s' (remove_with_lock_same s s' lock h)
      (remove_with_lock_queues s s' lock h) hs
  | refresh_priority =>
    exact well_queued_of_same s s' (refresh_priority_same s s' h)
      (refresh_priority_queues s s' h) hs
  | intr_state l external =>
    cases h
    exact hs
  | lock_contention lock =>
    exact well_queued_of_same s s' (lock_contention_same s s' lock h)
      (lock_contention_queues s s' lock h) hs
  | lock_acquired lock =>
    exact well_queued_of_same s s' (lock_acquired_same s s' lock h)
      (lock_acquired_queues s s' lock h) hs
  | lock_released lock =>
    exact well_queued_of_same s s' (lock_released_same s s' lock h)
      (lock_released_queues s s' lock h) hs
  | donor_recorded holder =>
    exact well_queued_of_same s s' (donor_recorded_same s s' holder h)
      (donor_recorded_queues s s' holder h) hs

theorem runs_queued (E : Env) (s0 s : State) (h : RunsTo E queue_discipline s0 s)
    (h0 : well_queued s0) : well_queued s := by
  induction h with
  | refl => exact h0
  | step s1 s2 op _ ha hd hstep ih => exact step_queued E s1 s2 op ha hd hstep ih

theorem runs_reachable (E : Env) (allowed : State → Op → Prop) (s0 s : State)
    (h : RunsTo E allowed s0 s) (h0 : Reachable E s0) : Reachable E s := by
  induction h with
  | refl => exact h0
  | step s1 s2 op _ ha _ hstep ih => exact Reachable.step s1 s2 op ih ha hstep

/-- In a state whose queues are typed by status, the three queues are disjoint
and hold no thread that is RUNNING. -/
theorem well_queued_disjoint (s : State) (hs : well_queued s) :
    (s.ready_list ++ s.sleep_list ++ s.destruction_req).Nodup ∧
    (∀ t, status_of s t = some THREAD_RUNNING →
      t ∉ s.ready_list ∧ t ∉ s.sleep_list ∧ t ∉ s.destruction_req) ∧
    (∀ t, status_of s t = some THREAD_DYING → t ∉ s.ready_list ∧ t ∉ s.sleep_list) := by
  obtain ⟨w1, w2, w3, w4, w5, w6, -, -⟩ := hs
  have no : ∀ (l : List Nat) (st st' : thread_status), st ≠ st' →
      (∀ r ∈ l, status_of s r = some st) → ∀ t, status_of s t = some st' → t ∉ l := by
    intro l st st' hne hl t ht hm
    have := hl t hm
    rw [ht] at this
    exact hne (Option.some.inj this).symm
  refine ⟨?_, ?_, ?_⟩
  · rw [List.nodup_append, List.nodup_append]
    refine ⟨⟨w4, w5, ?_⟩, w6, ?_⟩
    · intro a h1 h2
      exact no _ _ _ (by decide) w2 a (w1 a h1) h2
    · intro a h1 h2
      rcases List.mem_append.1 h1 with h3 | h3
      · exact no _ _ _ (by decide) w3 a (w1 a h3) h2
      · exact no _ _ _ (by decide) w3 a (w2 a h3) h2
  · intro t ht
    exact ⟨no _ _ _ (by decide) w1 t ht, no _ _ _ (by decide) w2 t ht,
      no _ _ _ (by decide) w3 t ht⟩
  · intro t ht
    exact ⟨no _ _ _ (by decide) w1 t ht, no _ _ _ (by decide) w2 t ht⟩

/-- In a state whose queues are typed by status, a BLOCKED thread is neither in
the ready queue nor in the destruction queue: its list element is linked in no
queue unless the sleep queue holds it. -/
theorem blocked_outside_queues (s : State) (t : Nat) (hs : well_queued s)
    (hb : status_of s t = some THREAD_BLOCKED) :
    t ∉ s.ready_list ∧ t ∉ s.destruction_req := by
  obtain ⟨w1, -, w3, -⟩ := hs
  constructor
  · intro hm
    have := w1 t hm
    rw [hb] at this
    cases this
  · intro hm
    have := w3 t hm
    rw [hb] at this
    cases this

/-- The same in every state reached from the state `thread_init` leaves by
operations of thread.c under `queue_discipline`. -/
theorem blocked_outside_queues_of_run (E : Env) (page : Nat) (s0 s : State) (t : Nat)
    (h0 : thread_init E (boot page) = .ok s0) (hr : RunsTo E queue_discipline s0 s)
    (hb : status_of s t = some THREAD_BLOCKED) :
    t ∉ s.ready_list ∧ t ∉ s.destruction_req :=
  blocked_outside_queues s t (runs_queued E s0 s hr (thread_init_queued E page s0 h0)) hb

/-- C23 as amended: let `s` be reached from the state `thread_init` leaves by
operations of thread.c (observed between operations), with `thread_unblock`
applied only to threads that are not in the sleep queue and `thread_exit` never
called by the idle thread.  Then every member of the ready queue is READY,
every member of the sleep queue is BLOCKED and every member of the destruction
queue is DYING; so no thread is listed twice in the three queues taken
together, the running thread (which is RUNNING) and every other RUNNING thread
is a member of none of them, and no DYING thread is a member of the ready queue
or of the sleep queue. -/
theorem queue_membership (E : Env) (page : Nat) (s0 s : State)
    (h0 : thread_init E (boot page) = .ok s0) (hrun : RunsTo E queue_discipline s0 s) :
    (∀ r ∈ s.ready_list, status_of s r = some THREAD_READY) ∧
    (∀ r ∈ s.sleep_list, status_of s r = some THREAD_BLOCKED) ∧
    (∀ r ∈ s.destruction_req, status_of s r = some THREAD_DYING) ∧
    (s.ready_list ++ s.sleep_list ++ s.destruction_req).Nodup ∧
    status_of s s.running_thread = some THREAD_RUNNING ∧
    s.running_thread ∉ s.ready_list ∧ s.running_thread ∉ s.sleep_list ∧
    s.running_thread ∉ s.destruction_req ∧
    (∀ t, status_of s t = some THREAD_RUNNING →
      t ∉ s.ready_list ∧ t ∉ s.sleep_list ∧ t ∉ s.destruction_req) ∧
    (∀ t, status_of s t = some THREAD_DYING → t ∉ s.ready_list ∧ t ∉ s.sleep_list) := by
  have hw : well_queued s := runs_queued E s0 s hrun (thread_init_queued E page s0 h0)
  have hr : Reachable E s :=
    runs_reachable E queue_discipline s0 s hrun (Reachable.init page s0 h0)
  obtain ⟨-, hrs, -⟩ := reachable_one_running E s hr
  obtain ⟨d1, d2, d3⟩ := well_queued_disjoint s hw
  obtain ⟨k1, k2, k3⟩ := d2 _ hrs
  exact ⟨hw.1, hw.2.1, hw.2.2.1, d1, hrs, k1, k2, k3, d2, d3⟩

/-- Witness for C23: after `run_three_queues` from `thread_init` the main thread
runs, thread 3 (woken by the timer) is in the ready queue, the sleep queue is
empty and the exited thread 2 is in the destruction queue; no thread is listed
twice. -/
theorem queue_membership_witness :
    state_three_queues.running_thread = 1 ∧ state_three_queues.ready_list = [3] ∧
      state_three_queues.sleep_list = [] ∧ state_three_queues.destruction_req = [2] ∧
      (state_three_queues.ready_list ++ state_three_queues.sleep_list
        ++ state_three_queues.destruction_req).Nodup ∧
      status_of state_three_queues 2 = some THREAD_DYING := by
  have h0 : thread_init stdEnv (boot 1) = .ok state_init := returned_eq_ok _ (by decide!)
  have hr : RunsTo stdEnv queue_discipline state_init state_three_queues :=
    run_under_runs_to stdEnv queue_discipline run_three_queues state_init state_init _
      (RunsTo.refl _) (returned_eq_ok _ (by decide!))
  obtain ⟨-, -, h3, h4, -⟩ := queue_membership stdEnv 1 state_init state_three_queues h0 hr
  exact ⟨by decide!, by decide!, by decide!, by decide!, h4, h3 2 (by decide!)⟩

/-- C23, counterexample to the claim as stated.  `state_sleeper_unblocked` is
reached by a run from `thread_init` in which thread 2 applies `thread_unblock`
to the sleeping (BLOCKED) thread 1: thread 1 is a member of the ready queue and
of the sleep queue.  `state_idle_exit_block` is reached by a run from
`thread_init` in which the idle thread 2 calls `thread_exit` and the main thread
then blocks with the ready queue empty: the RUNNING thread 2 is a member of the
destruction queue. -/
theorem thread_in_two_queues :
    (Reachable stdEnv state_sleeper_unblocked ∧
      state_sleeper_unblocked.ready_list = [1] ∧ state_sleeper_unblocked.sleep_list = [1] ∧
      1 ∈ state_sleeper_unblocked.ready_list ∧ 1 ∈ state_sleeper_unblocked.sleep_list) ∧
    (Reachable stdEnv state_idle_exit_block ∧ state_idle_exit_block.idle_thread = 2 ∧
      state_idle_exit_block.running_thread = 2 ∧
      status_of state_idle_exit_block 2 = some THREAD_RUNNING ∧
      state_idle_exit_block.destruction_req = [2] ∧
      state_idle_exit_block.running_thread ∈ state_idle_exit_block.destruction_req) :=
  ⟨⟨boot_run_reachable stdEnv 1 run_sleeper_unblocked (by decide!), by decide!, by decide!,
      by decide!, by decide!⟩,
    ⟨boot_run_reachable stdEnv 1 run_idle_exit_block (by decide!), by decide!, by decide!,
      by decide!, by decide!, by decide!⟩⟩

end Pintos
